import Mathlib

/-
A shallow embedding of the explicit-free-list allocator in
src/malloclab/mm.c (mm_init, mm_malloc, mm_free, mm_realloc and their
helpers find_fit, extend_heap, allocate, coalesce, flist_add,
flist_remove).

Memory model: the heap is a store of 64-bit words keyed by byte address
(the allocator only ever accesses 8-byte-aligned addresses, so word
cells keyed by their byte address are faithful to the C accesses).
Reads mask to 64 bits, so stored values behave exactly like C's
unsigned long.  An access outside the currently granted region
[lo, brk) is a fault, modelled by Option.none, as is an assert failure.
size_t values range over [0, 2^64); additions that can wrap in C carry
an explicit % 2^64 and subtractions use the wrapping wsub.
C pointer arithmetic that would wrap below zero produces an address
outside the heap in C and a small number below lo under Nat
subtraction; both fault, so truncated subtraction is faithful on every
access the code performs.
-/

namespace MM

/-- The allocator state: the word store, the region bounds lo/brk, the
provider capacity hmax, and the two C globals heap_prologue and
flist_head (0 models the null pointer). -/
structure Heap where
  mem : Nat → Nat
  lo : Nat
  brk : Nat
  hmax : Nat
  heap_prologue : Nat
  flist_head : Nat

/-- GET(p): read the 64-bit word at byte address p; faults outside [lo, brk). -/
def Heap.get (h : Heap) (p : Nat) : Option Nat :=
  if h.lo ≤ p ∧ p + 8 ≤ h.brk then some (h.mem p % 2 ^ 64) else none

/-- The store after an unchecked write of v at byte address p. -/
def Heap.upd (h : Heap) (p v : Nat) : Heap :=
  { h with mem := fun q => if q = p then v else h.mem q }

/-- SET(p, v): write the word at byte address p; faults outside [lo, brk). -/
def Heap.set (h : Heap) (p v : Nat) : Option Heap :=
  if h.lo ≤ p ∧ p + 8 ≤ h.brk then some (h.upd p v) else none

/-- The state after an assignment to the global flist_head. -/
def Heap.setFlh (h : Heap) (x : Nat) : Heap := { h with flist_head := x }

/-- The state after the two global assignments of mm_init. -/
def Heap.setGlobals (h : Heap) (x : Nat) : Heap :=
  { h with heap_prologue := x, flist_head := x }

/-- The state after the provider grants n more bytes. -/
def Heap.grow (h : Heap) (n : Nat) : Heap := { h with brk := h.brk + n }

def WORD : Nat := 8

def DWORD : Nat := 16

def MIN_BLOCK_SIZE : Nat := 32

def CHUNKSIZE : Nat := 2 ^ 12

/-- PACK(size, alloc) = size | alloc. -/
def PACK (size alloc : Nat) : Nat := size ||| alloc

/-- GET_SIZE on a word value: w & ~0x0F in 64-bit arithmetic. -/
def GET_SIZE_W (w : Nat) : Nat := w &&& (2 ^ 64 - 16)

/-- GET_ALLOC on a word value: w & 0x01. -/
def GET_ALLOC_W (w : Nat) : Nat := w &&& 1

/-- GET_SIZE(p). -/
def Heap.GET_SIZE (h : Heap) (p : Nat) : Option Nat :=
  (h.get p).map GET_SIZE_W

/-- GET_ALLOC(p). -/
def Heap.GET_ALLOC (h : Heap) (p : Nat) : Option Nat :=
  (h.get p).map GET_ALLOC_W

/-- HDRP(bp) = bp - WORD. -/
def HDRP (bp : Nat) : Nat := bp - 8

/-- FTRP(bp) = bp + GET_SIZE(HDRP(bp)) - DWORD; reads the current header. -/
def Heap.FTRP (h : Heap) (bp : Nat) : Option Nat :=
  (h.GET_SIZE (HDRP bp)).map (fun s => bp + s - 16)

/-- NEXT_BLKP(bp) = bp + GET_SIZE(HDRP(bp)). -/
def Heap.NEXT_BLKP (h : Heap) (bp : Nat) : Option Nat :=
  (h.GET_SIZE (HDRP bp)).map (fun s => bp + s)

/-- PREV_BLKP(bp) = bp - GET_SIZE(bp - DWORD). -/
def Heap.PREV_BLKP (h : Heap) (bp : Nat) : Option Nat :=
  (h.GET_SIZE (bp - 16)).map (fun s => bp - s)

/-- PREV_FREE(bp): the word at bp (a free block's prev link). -/
def Heap.PREV_FREE (h : Heap) (bp : Nat) : Option Nat := h.get bp

/-- NEXT_FREE(bp): the word at bp + WORD (a free block's next link). -/
def Heap.NEXT_FREE (h : Heap) (bp : Nat) : Option Nat := h.get (bp + 8)

/-- 64-bit wrapping subtraction, as C size_t subtraction. -/
def wsub (a b : Nat) : Nat := (a + (2 ^ 64 - b % 2 ^ 64)) % 2 ^ 64

/-- Modelled from the spec: the ALIGN macro lives in the missing mm.h;
per the spec it rounds up to a multiple of 16 (align_up_16), computed
in size_t arithmetic. -/
def ALIGN (x : Nat) : Nat := (x + 15) % 2 ^ 64 / 16 * 16

/-- Modelled from the spec: the region provider request(n) (mem_sbrk of
the missing memlib.c).  It extends the region by exactly n bytes and
returns the address of the first new byte (the previous end); it fails
with the -1 sentinel, modelled as none, when the capacity hmax would be
exceeded. -/
def mem_sbrk (h : Heap) (n : Nat) : Option (Nat × Heap) :=
  if h.brk + n ≤ h.hmax then some (h.brk, h.grow n) else none

/-- flist_add: adds bp to the head of the free list.  Note the code
never writes bp's own prev link. -/
def flist_add (h : Heap) (bp : Nat) : Option Heap := do
  let a ← h.GET_ALLOC (HDRP bp)
  if a ≠ 0 then none else do
  let h1 ← h.set (bp + 8) h.flist_head
  let h2 ← h1.set h.flist_head bp
  some (h2.setFlh bp)

/-- flist_remove: removes bp from the free list. -/
def flist_remove (h : Heap) (bp : Nat) : Option Heap := do
  let a ← h.GET_ALLOC (HDRP bp)
  if a ≠ 0 then none else do
  let h1 ← (if bp = h.flist_head then do
      let nf ← h.NEXT_FREE bp
      some (h.setFlh nf)
    else do
      let pf ← h.PREV_FREE bp
      let nf ← h.NEXT_FREE bp
      h.set (pf + 8) nf)
  let nf2 ← h1.NEXT_FREE bp
  let pf2 ← h1.PREV_FREE bp
  h1.set nf2 pf2

/-- The merge-forward arm of coalesce (previous allocated, next free),
re-reading every macro occurrence from the current store exactly as the
C macros expand. -/
def coalesce_merge_next (h : Heap) (bp size : Nat) : Option (Nat × Nat × Heap) := do
  let nb1 ← h.NEXT_BLKP bp
  let ns ← h.GET_SIZE (HDRP nb1)
  let nb2 ← h.NEXT_BLKP bp
  let h1 ← flist_remove h nb2
  some (bp, size + ns, h1)

/-- The merge-backward arm of coalesce (previous free, next allocated);
the new bp is PREV_BLKP(bp) recomputed after the removal, as in the C. -/
def coalesce_merge_prev (h : Heap) (bp size : Nat) : Option (Nat × Nat × Heap) := do
  let pb1 ← h.PREV_BLKP bp
  let ps ← h.GET_SIZE (HDRP pb1)
  let pb2 ← h.PREV_BLKP bp
  let h1 ← flist_remove h pb2
  let pb3 ← h1.PREV_BLKP bp
  some (pb3, size + ps, h1)

/-- The merge-both arm of coalesce (both neighbors free). -/
def coalesce_merge_both (h : Heap) (bp size : Nat) : Option (Nat × Nat × Heap) := do
  let pb1 ← h.PREV_BLKP bp
  let ps ← h.GET_SIZE (HDRP pb1)
  let nb1 ← h.NEXT_BLKP bp
  let ns ← h.GET_SIZE (HDRP nb1)
  let pb2 ← h.PREV_BLKP bp
  let h1 ← flist_remove h pb2
  let nb2 ← h1.NEXT_BLKP bp
  let h2 ← flist_remove h1 nb2
  let pb3 ← h2.PREV_BLKP bp
  some (pb3, size + (ps + ns), h2)

/-- The common tail of coalesce: rewrite the header, then the footer
located through the new header, then add the block to the free list
and return its pointer. -/
def coalesce_finish (hm : Heap) (bp2 size2 : Nat) : Option (Nat × Heap) := do
  let h3 ← hm.set (HDRP bp2) (PACK size2 0)
  let f ← h3.FTRP bp2
  let h4 ← h3.set f (PACK size2 0)
  let h5 ← flist_add h4 bp2
  some (bp2, h5)

/-- coalesce: merges bp with its free physical neighbors, dispatching
on the neighbors' alloc bits exactly as the four C cases do, then
rewrites header and footer and adds the block to the free list. -/
def coalesce (h : Heap) (bp : Nat) : Option (Nat × Heap) := do
  let a0 ← h.GET_ALLOC (HDRP bp)
  if a0 ≠ 0 then none else do
  let pb ← h.PREV_BLKP bp
  let prev_alloc ← h.GET_ALLOC (HDRP pb)
  let nb ← h.NEXT_BLKP bp
  let next_alloc ← h.GET_ALLOC (HDRP nb)
  let size ← h.GET_SIZE (HDRP bp)
  let step ←
    (if prev_alloc ≠ 0 ∧ next_alloc = 0 then coalesce_merge_next h bp size
    else if prev_alloc = 0 ∧ next_alloc ≠ 0 then coalesce_merge_prev h bp size
    else if prev_alloc = 0 ∧ next_alloc = 0 then coalesce_merge_both h bp size
    else some (bp, size, h))
  coalesce_finish step.2.2 step.1 step.2.1

/-- The find_fit loop body, with fuel for termination; running out of
fuel models a walk longer than the store itself, which cannot happen on
a well-formed list. -/
def find_fit_go (h : Heap) (size : Nat) : Nat → Nat → Option (Option Nat)
  | 0, _ => none
  | fuel + 1, bp => do
    let a ← h.GET_ALLOC (HDRP bp)
    if a ≠ 0 then some none
    else do
      let s ← h.GET_SIZE (HDRP bp)
      if size ≤ s then some (some bp)
      else do
        let nf ← h.NEXT_FREE bp
        find_fit_go h size fuel nf

/-- find_fit: first-fit scan of the free list; some none models the C
NULL result. -/
def find_fit (h : Heap) (size : Nat) : Option (Option Nat) :=
  find_fit_go h size (h.brk + 1) h.flist_head

/-- The body of extend_heap after a successful mem_sbrk: write the new
free block over the old epilogue, write the new epilogue, coalesce. -/
def extend_body (h0 : Heap) (bp size : Nat) : Option (Nat × Heap) := do
  let h1 ← h0.set (HDRP bp) (PACK size 0)
  let f ← h1.FTRP bp
  let h2 ← h1.set f (PACK size 0)
  let nb ← h2.NEXT_BLKP bp
  let h3 ← h2.set (HDRP nb) (PACK 0 1)
  coalesce h3 bp

/-- extend_heap: grow the region and treat the new space as one free
block; some none models returning NULL after a failed mem_sbrk. -/
def extend_heap (h : Heap) (size : Nat) : Option (Option (Nat × Heap)) :=
  match mem_sbrk h size with
  | none => some none
  | some (bp, h0) => do
      let r ← extend_body h0 bp size
      some (some r)

/-- The splitting arm of allocate: shrink the block to the requested
size and carve the remainder into a free block that is then coalesced. -/
def alloc_split (h1 : Heap) (bp size block_size : Nat) : Option Heap := do
  let h2 ← h1.set (HDRP bp) (PACK size 1)
  let f ← h2.FTRP bp
  let h3 ← h2.set f (PACK size 1)
  let nb ← h3.NEXT_BLKP bp
  let h4 ← h3.set (HDRP nb) (PACK (wsub block_size size) 0)
  let nb2 ← h4.NEXT_BLKP bp
  let f2 ← h4.FTRP nb2
  let h5 ← h4.set f2 (PACK (wsub block_size size) 0)
  let nb3 ← h5.NEXT_BLKP bp
  let r ← coalesce h5 nb3
  some r.2

/-- The whole-block arm of allocate. -/
def alloc_whole (h1 : Heap) (bp block_size : Nat) : Option Heap := do
  let h2 ← h1.set (HDRP bp) (PACK block_size 1)
  let f ← h2.FTRP bp
  h2.set f (PACK block_size 1)

/-- allocate: place a block of the given size at the free block bp,
splitting when the leftover reaches MIN_BLOCK_SIZE; the size_t
subtraction block_size - size wraps, hence wsub. -/
def allocate (h : Heap) (bp : Nat) (size : Nat) : Option Heap := do
  let a ← h.GET_ALLOC (HDRP bp)
  if a ≠ 0 then none else do
  let block_size ← h.GET_SIZE (HDRP bp)
  let h1 ← flist_remove h bp
  if MIN_BLOCK_SIZE ≤ wsub block_size size then
    alloc_split h1 bp size block_size
  else
    alloc_whole h1 bp block_size

/-- The body of mm_init after a successful 48-byte request. -/
def mm_init_body (h0 : Heap) (heap_start : Nat) : Option (Int × Heap) := do
  let hp := heap_start + DWORD
  let h1 := h0.setGlobals hp
  let h2 ← h1.set heap_start 0
  let h3 ← h2.set (HDRP hp) (PACK MIN_BLOCK_SIZE 1)
  let f ← h3.FTRP hp
  let h4 ← h3.set f (PACK MIN_BLOCK_SIZE 1)
  let h5 ← h4.set hp 0
  let h6 ← h5.set (hp + 8) 0
  let nb ← h6.NEXT_BLKP hp
  let h7 ← h6.set (HDRP nb) (PACK 0 1)
  some (0, h7)

/-- mm_init: create the padding word, the prologue and the epilogue,
and point both globals at the prologue; -1 (with the heap untouched)
when the provider refuses the 48-byte request. -/
def mm_init (h : Heap) : Option (Int × Heap) :=
  match mem_sbrk h (3 * DWORD) with
  | none => some (-1, h)
  | some (heap_start, h0) => mm_init_body h0 heap_start

/-- The miss path of mm_malloc: extend the heap and place, or report
NULL when the extension failed. -/
def malloc_miss (h : Heap) (adj : Nat) : Option (Nat × Heap) := do
  let r2 ← extend_heap h (max CHUNKSIZE adj)
  match r2 with
  | none => some (0, h)
  | some (bp, h1) => do
      let h2 ← allocate h1 bp adj
      some (bp, h2)

/-- mm_malloc: first-fit allocation with heap extension on miss; the
first component 0 models the C NULL result.  The size_t sum
size + DWORD wraps, hence the explicit % 2^64. -/
def mm_malloc (h : Heap) (size : Nat) : Option (Nat × Heap) :=
  if size = 0 then some (0, h)
  else do
    let adj := max MIN_BLOCK_SIZE (ALIGN ((size + DWORD) % 2 ^ 64))
    let r ← find_fit h adj
    match r with
    | some bp => do
        let h1 ← allocate h bp adj
        some (bp, h1)
    | none => malloc_miss h adj

/-- The marking tail of mm_free: rewrite header then footer as free
(the footer address and size are re-read through the new header, as the
C macro expansion does) and coalesce. -/
def mm_free_mark (h : Heap) (ptr : Nat) : Option Heap := do
  let s ← h.GET_SIZE (HDRP ptr)
  let h1 ← h.set (HDRP ptr) (PACK s 0)
  let s2 ← h1.GET_SIZE (HDRP ptr)
  let f2 ← h1.FTRP ptr
  let h2 ← h1.set f2 (PACK s2 0)
  let r ← coalesce h2 ptr
  some r.2

/-- mm_free: validate by the alloc bit and the header/footer match
(short-circuiting exactly as the C condition does), then mark the block
free and coalesce. -/
def mm_free (h : Heap) (ptr : Nat) : Option Heap := do
  let a ← h.GET_ALLOC (HDRP ptr)
  if a = 0 then some h
  else do
    let hw ← h.get (HDRP ptr)
    let f ← h.FTRP ptr
    let fw ← h.get f
    if hw ≠ fw then some h
    else mm_free_mark h ptr

/-- Modelled from the spec: the C library's free (the missing libc),
which mm_realloc calls on a size-0 request.  It manages the C library's
own arena, not the region of this allocator, so it modifies none of the
modelled state (passing it a pointer that did not come from the C
library's malloc is undefined behavior in C; in no reading does it
perform this allocator's mm_free). -/
def libc_free (h : Heap) (ptr : Nat) : Heap := h

/-- Modelled from the spec: libc memcpy, copying n words (every copy
the code performs has a length that is a multiple of 16 bytes, so word
granularity is exact). -/
def memcpy_words (h : Heap) (dst src : Nat) : Nat → Option Heap
  | 0 => some h
  | k + 1 => do
    let v ← h.get src
    let h1 ← h.set dst v
    memcpy_words h1 (dst + 8) (src + 8) k

/-- The relocation tail of mm_realloc: malloc a new block, copy
block_size - DWORD bytes of payload, free the old block. -/
def mm_realloc_move (h : Heap) (ptr size block_size : Nat) :
    Option (Nat × Heap) := do
  let r ← mm_malloc h size
  if r.1 = 0 then some (0, r.2)
  else do
    let h1 ← memcpy_words r.2 r.1 ptr (wsub block_size DWORD / 8)
    let h2 ← mm_free h1 ptr
    some (r.1, h2)

/-- The split arm of the in-place growth of mm_realloc. -/
def realloc_grow_split (h1 : Heap) (ptr adj bs2 : Nat) : Option (Nat × Heap) := do
  let h2 ← h1.set (HDRP ptr) (PACK adj 1)
  let f2 ← h2.FTRP ptr
  let h3 ← h2.set f2 (PACK adj 1)
  let nb ← h3.NEXT_BLKP ptr
  let h4 ← h3.set (HDRP nb) (PACK (wsub bs2 adj) 0)
  let nb2 ← h4.NEXT_BLKP ptr
  let f3 ← h4.FTRP nb2
  let h5 ← h4.set f3 (PACK (wsub bs2 adj) 0)
  let nb3 ← h5.NEXT_BLKP ptr
  let r ← coalesce h5 nb3
  some (ptr, r.2)

/-- The whole-block arm of the in-place growth of mm_realloc. -/
def realloc_grow_whole (h1 : Heap) (ptr bs2 : Nat) : Option (Nat × Heap) := do
  let h2 ← h1.set (HDRP ptr) (PACK bs2 1)
  let f2 ← h2.FTRP ptr
  let h3 ← h2.set f2 (PACK bs2 1)
  some (ptr, h3)

/-- The in-place growth of mm_realloc: consume the free next physical
block, splitting off the remainder when it reaches MIN_BLOCK_SIZE.
The C code adds GET_SIZE(HDRP(next_blk)) to block_size after the
flist_remove, so the size is re-read from the updated store. -/
def realloc_grow (h : Heap) (ptr adj block_size next_blk : Nat) :
    Option (Nat × Heap) := do
  let h1 ← flist_remove h next_blk
  let ns2 ← h1.GET_SIZE (HDRP next_blk)
  let bs2 := (block_size + ns2) % 2 ^ 64
  if MIN_BLOCK_SIZE ≤ wsub bs2 adj then
    realloc_grow_split h1 ptr adj bs2
  else
    realloc_grow_whole h1 ptr bs2

/-- mm_realloc: null ptr degrades to mm_malloc; a header/footer
mismatch returns NULL; size 0 calls the C library's free (as the source
does) and returns NULL; otherwise grow in place when the next physical
block is free and large enough, else relocate. -/
def mm_realloc (h : Heap) (ptr : Nat) (size : Nat) : Option (Nat × Heap) := do
  if ptr = 0 then mm_malloc h size
  else do
  let hw ← h.get (HDRP ptr)
  let f ← h.FTRP ptr
  let fw ← h.get f
  if hw ≠ fw then some (0, h)
  else if size = 0 then some (0, libc_free h ptr)
  else do
  let adj := max MIN_BLOCK_SIZE (ALIGN ((size + DWORD) % 2 ^ 64))
  let block_size ← h.GET_SIZE (HDRP ptr)
  if adj ≤ block_size then some (ptr, h)
  else do
    let next_blk ← h.NEXT_BLKP ptr
    let na ← h.GET_ALLOC (HDRP next_blk)
    if na = 0 then do
      let ns ← h.GET_SIZE (HDRP next_blk)
      if adj ≤ (block_size + ns) % 2 ^ 64 then
        realloc_grow h ptr adj block_size next_blk
      else mm_realloc_move h ptr size block_size
    else mm_realloc_move h ptr size block_size

/-- A concrete empty pre-state for the demonstrations: the provider
region starts at 16 with capacity 100000 and zero-initialized backing
store. -/
def demoH0 : Heap :=
  { mem := fun _ => 0, lo := 16, brk := 16, hmax := 100000,
    heap_prologue := 0, flist_head := 0 }

/-- The heap right after a successful mm_init on demoH0. -/
def demoInit : Heap := ((mm_init demoH0).map Prod.snd).getD demoH0

/-- The heap after mm_init and mm_malloc 100 on demoH0; the returned
payload pointer is 64 and its block has size 128. -/
def demoH1 : Heap :=
  ((mm_init demoH0 >>= fun r => mm_malloc r.2 100).map Prod.snd).getD demoH0

/-- A concrete heap holding a prologue at 32 and one free 32-byte block
at 64 whose prev-link word is the non-null value 999, used to observe
what flist_add leaves in that word. -/
def stalePrevHeap : Heap :=
  { mem := fun q => if q = 24 then 33 else if q = 48 then 33 else
      if q = 56 then 32 else if q = 64 then 999 else if q = 88 then 32 else 0,
    lo := 16, brk := 200, hmax := 200, heap_prologue := 32, flist_head := 32 }

/-- A concrete heap poised for coalesce: prologue at 32, a free
32-byte block at 64 whose header and footer are already marked free
but which is not in the free list, a free 32-byte block at 96 that is
the single node of the free list, and the epilogue at 120. -/
def coalDemo : Heap :=
  { mem := fun a =>
      if a = 24 then 33 else if a = 48 then 33
      else if a = 56 then 32 else if a = 80 then 32
      else if a = 88 then 32 else if a = 104 then 32
      else if a = 112 then 32 else if a = 120 then 1 else 0,
    lo := 16, brk := 128, hmax := 128, heap_prologue := 32, flist_head := 96 }

/- ------------------------------------------------------------------
Abstract representation of the heap: the physical block chain and the
explicit free list, used to state and prove the structural invariants.
------------------------------------------------------------------ -/

/-- Abstract description of one non-sentinel block. -/
structure Blk where
  addr : Nat
  size : Nat
  alloc : Bool
deriving DecidableEq

/-- The word stored in a block's header and footer. -/
def hdrWord (b : Blk) : Nat := b.size + (if b.alloc then 1 else 0)

/-- b is laid out in h: header and footer both hold the packed word and
the size is a multiple of 16 of at least MIN_BLOCK_SIZE. -/
def blkOK (h : Heap) (b : Blk) : Prop :=
  h.get (b.addr - 8) = some (hdrWord b) ∧
  h.get (b.addr + b.size - 16) = some (hdrWord b) ∧
  16 ∣ b.size ∧ 32 ≤ b.size

/-- The physical chain of blocks: starting at payload cursor a, the
blocks of bs tile the space up to cursor a2. -/
def chainSeg (h : Heap) : Nat → List Blk → Nat → Prop
  | a, [], a2 => a2 = a
  | a, b :: bs, a2 => b.addr = a ∧ blkOK h b ∧ chainSeg h (a + b.size) bs a2

/-- The doubly-linked structure of the free list: each node's next link
holds the following node (the last one holds the prologue), and each
non-head node's prev link holds the node before it.  The head's prev
link is unconstrained: flist_add never writes it. -/
def flinks (h : Heap) : List Nat → Prop
  | [] => True
  | [x] => h.get (x + 8) = some h.heap_prologue
  | x :: y :: L => h.get (x + 8) = some y ∧ h.get y = some x ∧ flinks h (y :: L)

/-- The free list L is exactly the collection of free blocks of bs
(expressed as a permutation, so membership and multiplicity agree),
linked as a well-formed LIFO list headed by flist_head and terminated
by the allocated prologue sentinel. -/
def flistRep (h : Heap) (bs : List Blk) (L : List Nat) : Prop :=
  h.flist_head = L.headD h.heap_prologue ∧
  flinks h L ∧ L.Nodup ∧
  L.Perm (((bs.filter (fun b => b.alloc = false)).map Blk.addr))

/-- Two physically adjacent blocks are never both free. -/
def notAdjFree (b c : Blk) : Prop := b.alloc = true ∨ c.alloc = true

/-- The full structural invariant of the allocator heap: the prologue
sentinel at lo + 16 with header and footer PACK(MIN_BLOCK_SIZE, 1), the
block chain tiling [lo + 48, brk] and ending at the epilogue header
PACK(0, 1), no two adjacent free blocks, and the free list containing
exactly the free blocks. -/
def repOK (h : Heap) (bs : List Blk) (L : List Nat) : Prop :=
  16 ∣ h.lo ∧ 0 < h.lo ∧ h.brk < 2 ^ 64 ∧
  h.heap_prologue = h.lo + 16 ∧
  h.get (h.lo + 8) = some 33 ∧ h.get (h.lo + 32) = some 33 ∧
  h.get (h.brk - 8) = some 1 ∧
  chainSeg h (h.lo + 48) bs h.brk ∧
  List.Chain' notAdjFree bs ∧
  flistRep h bs L

/-- The three invariants of the claim, as observable properties of the
representation: header equals footer for every block, no two adjacent
free blocks, and the free list is exactly the set of free blocks, each
exactly once. -/
def WF (h : Heap) : Prop := ∃ bs L, repOK h bs L

/-- The precondition of coalesce: the heap satisfies the full invariant
except that the free block x (about to be coalesced) is not in the free
list and may be adjacent to free neighbors. -/
structure CoalPre (h : Heap) (bs1 : List Blk) (x : Blk) (bs2 : List Blk)
    (L : List Nat) : Prop where
  lo16 : 16 ∣ h.lo
  lopos : 0 < h.lo
  brklt : h.brk < 2 ^ 64
  prol : h.heap_prologue = h.lo + 16
  prolh : h.get (h.lo + 8) = some 33
  prolf : h.get (h.lo + 32) = some 33
  epi : h.get (h.brk - 8) = some 1
  chain : chainSeg h (h.lo + 48) (bs1 ++ x :: bs2) h.brk
  xfree : x.alloc = false
  adj1 : List.Chain' notAdjFree bs1
  adj2 : List.Chain' notAdjFree bs2
  fhead : h.flist_head = L.headD h.heap_prologue
  links : flinks h L
  nodup : L.Nodup
  perm : L.Perm (((bs1 ++ bs2).filter (fun b => b.alloc = false)).map Blk.addr)

/-- The free physical neighbor on the left of the coalesced block, when
there is one: the last block of bs1 if it is free. -/
def freeLast (bs : List Blk) : List Blk :=
  match bs.getLast? with
  | some p => if p.alloc = false then [p] else []
  | none => []

/-- The free physical neighbor on the right: the first block of bs2 if
it is free. -/
def freeHead (bs : List Blk) : List Blk :=
  match bs.head? with
  | some n => if n.alloc = false then [n] else []
  | none => []

/-- The block that coalesce produces: it starts at the previous
neighbor's address when that neighbor was free, and its size is the sum
of bp's size and the sizes of the free neighbors. -/
def coalMerged (bs1 : List Blk) (x : Blk) (bs2 : List Blk) : Blk :=
  { addr := ((freeLast bs1).headD x).addr,
    size := x.size + (((freeLast bs1).map Blk.size).sum +
      ((freeHead bs2).map Blk.size).sum),
    alloc := false }

/-- The block chain after coalescing: the free neighbors are replaced,
together with x, by the single merged block. -/
def coalBs (bs1 : List Blk) (x : Blk) (bs2 : List Blk) : List Blk :=
  bs1.take (bs1.length - (freeLast bs1).length) ++
    coalMerged bs1 x bs2 :: bs2.drop (freeHead bs2).length

/-- The free list after the removals of coalesce (before the merged
block is pushed at the head): each free neighbor's address removed. -/
def coalL (bs1 : List Blk) (bs2 : List Blk) (L : List Nat) : List Nat :=
  ((freeHead bs2).map Blk.addr).foldl List.erase
    (((freeLast bs1).map Blk.addr).foldl List.erase L)

instance blkOK_dec (h : Heap) (b : Blk) : Decidable (blkOK h b) :=
  decidable_of_iff
    (h.get (b.addr - 8) = some (hdrWord b) ∧
     h.get (b.addr + b.size - 16) = some (hdrWord b) ∧
     16 ∣ b.size ∧ 32 ≤ b.size) Iff.rfl

instance chainSeg_dec (h : Heap) : (bs : List Blk) → (a a2 : Nat) →
    Decidable (chainSeg h a bs a2)
  | [], a, a2 => decidable_of_iff (a2 = a) Iff.rfl
  | b :: bs, a, a2 =>
    have : Decidable (chainSeg h (a + b.size) bs a2) := chainSeg_dec h bs _ _
    decidable_of_iff (b.addr = a ∧ blkOK h b ∧ chainSeg h (a + b.size) bs a2)
      Iff.rfl

instance notAdjFree_dec : DecidableRel notAdjFree := fun b c =>
  decidable_of_iff (b.alloc = true ∨ c.alloc = true) Iff.rfl

/-- The result of one heap extension request on the freshly initialized
demo heap, as a concrete pointer-heap pair. -/
def extDemo : Nat × Heap :=
  ((extend_heap demoInit (max CHUNKSIZE 32)).getD none).getD (0, demoH0)

instance flinks_dec (h : Heap) : (L : List Nat) → Decidable (flinks h L)
  | [] => decidable_of_iff True Iff.rfl
  | [x] => decidable_of_iff (h.get (x + 8) = some h.heap_prologue) Iff.rfl
  | x :: y :: L =>
    have : Decidable (flinks h (y :: L)) := flinks_dec h (y :: L)
    decidable_of_iff
      (h.get (x + 8) = some y ∧ h.get y = some x ∧ flinks h (y :: L)) Iff.rfl

instance flistRep_dec (h : Heap) (bs : List Blk) (L : List Nat) :
    Decidable (flistRep h bs L) := by
  unfold flistRep
  infer_instance

instance repOK_dec (h : Heap) (bs : List Blk) (L : List Nat) :
    Decidable (repOK h bs L) := by
  unfold repOK
  infer_instance


/- ------------------------------------------------------------------
Basic lemmas about the store operations.
------------------------------------------------------------------ -/

theorem upd_lo (h : Heap) (p v : Nat) : (h.upd p v).lo = h.lo := rfl

theorem upd_brk (h : Heap) (p v : Nat) : (h.upd p v).brk = h.brk := rfl

theorem upd_flh (h : Heap) (p v : Nat) : (h.upd p v).flist_head = h.flist_head := rfl

theorem upd_prologue (h : Heap) (p v : Nat) :
    (h.upd p v).heap_prologue = h.heap_prologue := rfl

theorem get_upd_self (h : Heap) (p v : Nat) (h1 : h.lo ≤ p) (h2 : p + 8 ≤ h.brk) :
    (h.upd p v).get p = some (v % 2 ^ 64) := by
  simp [Heap.get, Heap.upd, h1, h2]

theorem get_upd_ne (h : Heap) (p v q : Nat) (hne : q ≠ p) :
    (h.upd p v).get q = h.get q := by
  simp [Heap.get, Heap.upd, hne]

theorem set_eq (h : Heap) (p v : Nat) (h1 : h.lo ≤ p) (h2 : p + 8 ≤ h.brk) :
    h.set p v = some (h.upd p v) := by
  simp [Heap.set, h1, h2]

theorem get_lt (h : Heap) (p w : Nat) (hw : h.get p = some w) : w < 2 ^ 64 := by
  by_cases hb : h.lo ≤ p ∧ p + 8 ≤ h.brk
  · rw [Heap.get, if_pos hb] at hw
    injection hw with hw2
    omega
  · rw [Heap.get, if_neg hb] at hw
    cases hw

theorem get_bounds (h : Heap) (p w : Nat) (hw : h.get p = some w) :
    h.lo ≤ p ∧ p + 8 ≤ h.brk := by
  by_cases hb : h.lo ≤ p ∧ p + 8 ≤ h.brk
  · exact hb
  · rw [Heap.get, if_neg hb] at hw
    cases hw

theorem setFlh_get (h : Heap) (x p : Nat) : (h.setFlh x).get p = h.get p := rfl

theorem setFlh_flh (h : Heap) (x : Nat) : (h.setFlh x).flist_head = x := rfl

theorem setFlh_lo (h : Heap) (x : Nat) : (h.setFlh x).lo = h.lo := rfl

theorem setFlh_brk (h : Heap) (x : Nat) : (h.setFlh x).brk = h.brk := rfl

theorem setFlh_prologue (h : Heap) (x : Nat) :
    (h.setFlh x).heap_prologue = h.heap_prologue := rfl

theorem setGlobals_get (h : Heap) (x p : Nat) : (h.setGlobals x).get p = h.get p := rfl

theorem setGlobals_flh (h : Heap) (x : Nat) : (h.setGlobals x).flist_head = x := rfl

theorem setGlobals_prologue (h : Heap) (x : Nat) :
    (h.setGlobals x).heap_prologue = x := rfl

theorem setGlobals_lo (h : Heap) (x : Nat) : (h.setGlobals x).lo = h.lo := rfl

theorem setGlobals_brk (h : Heap) (x : Nat) : (h.setGlobals x).brk = h.brk := rfl

theorem grow_lo (h : Heap) (n : Nat) : (h.grow n).lo = h.lo := rfl

theorem grow_brk (h : Heap) (n : Nat) : (h.grow n).brk = h.brk + n := rfl

theorem grow_flh (h : Heap) (n : Nat) : (h.grow n).flist_head = h.flist_head := rfl

theorem grow_prologue (h : Heap) (n : Nat) :
    (h.grow n).heap_prologue = h.heap_prologue := rfl

theorem get_grow_of_le (h : Heap) (n p : Nat) (h1 : h.lo ≤ p) (h2 : p + 8 ≤ h.brk) :
    (h.grow n).get p = h.get p := by
  simp [Heap.get, Heap.grow, h1, h2]
  omega

/- ------------------------------------------------------------------
Arithmetic facts about the packed header words.
------------------------------------------------------------------ -/

theorem lor_one_of_sixteen_dvd (s : Nat) (hs : 16 ∣ s) : s ||| 1 = s + 1 := by
  apply Nat.eq_of_testBit_eq
  intro i
  cases i with
  | zero =>
    rw [Nat.testBit_lor, Nat.testBit_zero, Nat.testBit_zero, Nat.testBit_zero]
    have h2 : s % 2 = 0 := by omega
    have h3 : (s + 1) % 2 = 1 := by omega
    simp [h2, h3]
  | succ i =>
    rw [Nat.testBit_lor]
    have h1 : Nat.testBit 1 (i + 1) = false := by
      rw [Nat.testBit_succ]
      norm_num [Nat.zero_testBit]
    rw [h1, Bool.or_false, Nat.testBit_succ, Nat.testBit_succ,
      show (s + 1) / 2 = s / 2 by omega]

theorem testBit_mask64 (i : Nat) :
    (2 ^ 64 - 16 : Nat).testBit i = (decide (4 ≤ i) && decide (i < 64)) := by
  have hm : (2 ^ 64 - 16 : Nat) = (2 ^ 60 - 1) <<< 4 := by
    rw [Nat.shiftLeft_eq]
    norm_num
  rw [hm, Nat.testBit_shiftLeft, Nat.testBit_two_pow_sub_one]
  by_cases h4 : 4 ≤ i
  · by_cases h64 : i < 64
    · have ha : i - 4 < 60 := by omega
      simp [h4, h64, ha, ge_iff_le]
    · have ha : ¬(i - 4 < 60) := by omega
      simp [h4, h64, ha, ge_iff_le]
  · simp [h4, ge_iff_le]

theorem GET_SIZE_W_pack (s b : Nat) (hs : 16 ∣ s) (hlt : s < 2 ^ 64) (hb : b ≤ 1) :
    GET_SIZE_W (s + b) = s := by
  have hsb : s + b = s ||| b := by
    match b, hb with
    | 0, _ => simp
    | 1, _ => rw [lor_one_of_sixteen_dvd s hs]
  rw [GET_SIZE_W, hsb]
  apply Nat.eq_of_testBit_eq
  intro i
  rw [Nat.testBit_land, Nat.testBit_lor, testBit_mask64]
  by_cases h4 : 4 ≤ i
  · by_cases h64 : i < 64
    · have hbf : b.testBit i = false := by
        apply Nat.testBit_eq_false_of_lt
        calc b ≤ 1 := hb
        _ < 2 ^ 1 := by norm_num
        _ ≤ 2 ^ i := Nat.pow_le_pow_right (by norm_num) (by omega)
      simp [h4, h64, hbf]
    · have hsf : s.testBit i = false := by
        apply Nat.testBit_eq_false_of_lt
        calc s < 2 ^ 64 := hlt
        _ ≤ 2 ^ i := Nat.pow_le_pow_right (by norm_num) (by omega)
      simp [h4, h64, hsf]
  · have hsf : s.testBit i = false := by
      obtain ⟨k, rfl⟩ := hs
      rw [show 16 * k = k <<< 4 by rw [Nat.shiftLeft_eq]; ring,
        Nat.testBit_shiftLeft]
      simp [ge_iff_le, h4]
    simp [h4, hsf]

theorem GET_ALLOC_W_pack (s b : Nat) (hs : 16 ∣ s) (hb : b ≤ 1) :
    GET_ALLOC_W (s + b) = b := by
  rw [GET_ALLOC_W, Nat.and_one_is_mod]
  omega

theorem pack_zero (s : Nat) : PACK s 0 = s := Nat.or_zero s

theorem pack_one (s : Nat) (hs : 16 ∣ s) : PACK s 1 = s + 1 :=
  lor_one_of_sixteen_dvd s hs

theorem wsub_of_le (a b : Nat) (hba : b ≤ a) (ha : a < 2 ^ 64) :
    wsub a b = a - b := by
  rw [wsub]
  omega

theorem ALIGN_self (s : Nat) (hs : 16 ∣ s) (hlt : s + 15 < 2 ^ 64) :
    ALIGN s = s := by
  rw [ALIGN]
  omega

/- ------------------------------------------------------------------
Shared helpers for the mm_realloc shrink path.
------------------------------------------------------------------ -/

/-- Whenever the adjusted size fits in the current block, mm_realloc
returns the pointer with the heap untouched. -/
theorem realloc_shrink_noop (h : Heap) (p m w : Nat)
    (hp0 : p ≠ 0)
    (hw : h.get (HDRP p) = some w)
    (hf : h.get (p + GET_SIZE_W w - 16) = some w)
    (hm0 : m ≠ 0)
    (hadj : max MIN_BLOCK_SIZE (ALIGN ((m + DWORD) % 2 ^ 64)) ≤ GET_SIZE_W w) :
    mm_realloc h p m = some (p, h) := by
  obtain ⟨ha1, ha2⟩ := max_le_iff.mp hadj
  simp only [mm_realloc, if_neg hp0, Heap.FTRP, Heap.GET_SIZE, hw, Option.map_some,
    Option.some_bind, ne_eq, not_true_eq_false, if_false, hf, if_neg hm0, if_pos hadj]
  simp [hf, ha1, ha2]
  intro hc
  rw [show (18446744073709551616 : Nat) = 2 ^ 64 by norm_num] at hc
  omega

/- ------------------------------------------------------------------
Claim theorems.
------------------------------------------------------------------ -/

/-- C2: the code returns, for the request 2^64 - 1 on a freshly
initialized heap, the non-null pointer 64 whose block has size 32,
i.e. only 32 - DWORD = 16 usable payload bytes, far fewer than
requested: size + DWORD wraps in size_t, so the claim that every
non-null result has at least n usable bytes fails at n = 2^64 - 1. -/
theorem claim_C2_overflow_eval :
    (mm_malloc demoInit (2 ^ 64 - 1)).map (fun r => (r.1, r.2.GET_SIZE (HDRP r.1))) =
      some (64, some 32) ∧ (64 : Nat) ≠ 0 ∧ 32 - DWORD < 2 ^ 64 - 1 :=
  ⟨by decide, by decide, by decide⟩

/-- C3: on the concrete heap demoH1 with the valid allocated pointer
64, reallocate(64, 0) calls the C library's free, not mm_free: it
returns null with the allocator heap completely unchanged (the block
keeps its allocated header PACK 128 1), while mm_free(64) frees the
block, coalesces it with its free neighbor into a 4096-byte free block
and inserts it at the head of the free list. -/
theorem claim_C3_code_eval :
    mm_realloc demoH1 64 0 = some (0, demoH1) ∧
    demoH1.get (HDRP 64) = some (PACK 128 1) ∧
    (mm_free demoH1 64).map (fun h => (h.get (HDRP 64), h.flist_head)) =
      some (some (PACK 4096 0), 64) :=
  ⟨rfl, by decide, by decide⟩

/-- C4: mm_free has no null check: mm_free(0) reads the word at
address 0 - 8, an out-of-heap access that faults in the model (and is
undefined behavior in the C), rather than being a no-op; the two
implemented validation cases do work, as the double-free no-op on the
same concrete heap shows. -/
theorem claim_C4_code_eval :
    mm_free demoInit 0 = none ∧
    (mm_free demoH1 64).bind (fun h2 => mm_free h2 64) = mm_free demoH1 64 :=
  ⟨rfl, rfl⟩

/-- C5 (counterexample): on demoH1 the pointer 64 heads a valid
allocated block of size b = 128; for m = 16 the adjusted size is 32
and b - 32 = 96 ≥ MIN_BLOCK_SIZE, so the claim requires the block to
be shrunk to 32 with a freed residue; the code instead returns 64 with
the heap untouched: the header is still PACK 128 1 and no residue
header was written at 88. -/
theorem claim_C5_counterexample :
    demoH1.get (HDRP 64) = some (PACK 128 1) ∧
    demoH1.get (64 + 128 - 16) = some (PACK 128 1) ∧
    max MIN_BLOCK_SIZE (ALIGN ((16 + DWORD) % 2 ^ 64)) = 32 ∧
    MIN_BLOCK_SIZE ≤ 128 - 32 ∧
    (mm_realloc demoH1 64 16).map (fun r => (r.1, r.2.get (HDRP 64), r.2.get 88)) =
      some (64, some (PACK 128 1), some 0) ∧
    PACK 128 1 ≠ PACK 32 1 :=
  ⟨by decide, by decide, by decide, by decide, by decide, by decide⟩

/-- C5 (amended): for every valid allocated pointer p whose block size
b satisfies adj_size ≤ b, reallocate(p, m) returns p and leaves the
heap unchanged; no split is performed even when b - adj_size ≥
MIN_BLOCK_SIZE. -/
theorem claim_C5_amended (h : Heap) (p m s : Nat)
    (hp0 : p ≠ 0)
    (hw : h.get (HDRP p) = some (s + 1))
    (hs16 : 16 ∣ s)
    (hf : h.get (p + s - 16) = some (s + 1))
    (hm0 : m ≠ 0)
    (hadj : max MIN_BLOCK_SIZE (ALIGN ((m + DWORD) % 2 ^ 64)) ≤ s) :
    mm_realloc h p m = some (p, h) := by
  have hlt : s + 1 < 2 ^ 64 := get_lt _ _ _ hw
  have hgs : GET_SIZE_W (s + 1) = s := GET_SIZE_W_pack s 1 hs16 (by omega) le_rfl
  exact realloc_shrink_noop h p m (s + 1) hp0 hw (by rw [hgs]; exact hf) hm0
    (by rw [hgs]; exact hadj)

/-- Witness for C5 (amended) at demoH1, p = 64, m = 16, b = 128. -/
theorem claim_C5_witness :
    demoH1.get (HDRP 64) = some (128 + 1) ∧
    mm_realloc demoH1 64 16 = some (64, demoH1) :=
  ⟨by decide, claim_C5_amended demoH1 64 16 128 (by decide) (by decide) (by decide)
    (by decide) (by decide) (by decide)⟩

/-- C7 (counterexample): on stalePrevHeap the free block 64 carries the
non-null stale prev-link 999; flist_add(64) makes 64 the head, sets its
next link to the old head 32 and the old head's prev link to 64, but
leaves the prev link of 64 at 999 instead of setting it to null. -/
theorem claim_C7_counterexample :
    stalePrevHeap.get (HDRP 64) = some 32 ∧ GET_ALLOC_W 32 = 0 ∧
    (flist_add stalePrevHeap 64).map
        (fun h => (h.flist_head, h.get (64 + 8), h.get 32, h.get 64)) =
      some (64, some 32, some 64, some 999) ∧
    some (999 : Nat) ≠ some (0 : Nat) :=
  ⟨by decide, by decide, by decide, by decide⟩

/-- C7 (amended): the free-list insert sets bp's next link to the old
head, sets the old head's prev link to bp and makes bp the new head,
but leaves bp's own prev link unchanged (it is not set to null). -/
theorem claim_C7_amended (h : Heap) (bp w : Nat)
    (hw : h.get (HDRP bp) = some w)
    (ha : GET_ALLOC_W w = 0)
    (hb1 : h.lo ≤ bp + 8) (hb2 : bp + 16 ≤ h.brk)
    (hf1 : h.lo ≤ h.flist_head) (hf2 : h.flist_head + 8 ≤ h.brk)
    (hbrk : h.brk < 2 ^ 64)
    (hne1 : bp ≠ h.flist_head) (hne2 : bp + 8 ≠ h.flist_head) :
    ∃ h', flist_add h bp = some h' ∧
      h'.flist_head = bp ∧
      h'.get (bp + 8) = some h.flist_head ∧
      h'.get h.flist_head = some bp ∧
      h'.get bp = h.get bp := by
  simp only [flist_add, Heap.GET_ALLOC, hw, Option.map_some', Option.bind_eq_bind,
    Option.some_bind, ha, ne_eq, not_true_eq_false, if_false, not_false_iff]
  rw [set_eq _ _ _ hb1 (by omega), Option.some_bind,
    set_eq _ _ _ (by rw [upd_lo]; exact hf1) (by rw [upd_brk]; omega),
    Option.some_bind]
  refine ⟨_, rfl, rfl, ?_, ?_, ?_⟩
  · rw [setFlh_get, get_upd_ne _ _ _ _ hne2,
      get_upd_self _ _ _ hb1 (by omega)]
    congr 1
    exact Nat.mod_eq_of_lt (by omega)
  · rw [setFlh_get,
      get_upd_self _ _ _ (by rw [upd_lo]; exact hf1) (by rw [upd_brk]; omega)]
    congr 1
    exact Nat.mod_eq_of_lt (by omega)
  · rw [setFlh_get, get_upd_ne _ _ _ _ hne1, get_upd_ne _ _ _ _ (by omega)]

/-- Witness for C7 (amended) at stalePrevHeap, bp = 64. -/
theorem claim_C7_witness :
    ∃ h', flist_add stalePrevHeap 64 = some h' ∧
      h'.flist_head = 64 ∧
      h'.get (64 + 8) = some stalePrevHeap.flist_head ∧
      h'.get stalePrevHeap.flist_head = some 64 ∧
      h'.get 64 = stalePrevHeap.get 64 :=
  claim_C7_amended stalePrevHeap 64 32 (by decide) (by decide) (by decide)
    (by decide) (by decide) (by decide) (by decide) (by decide) (by decide)

/-- C9: reallocating a valid allocated block to its current usable
payload size (block size minus DWORD) returns the same pointer and
leaves the heap unchanged. -/
theorem claim_C9_realloc_payload (h : Heap) (p s : Nat)
    (hp0 : p ≠ 0)
    (hw : h.get (HDRP p) = some (s + 1))
    (hs16 : 16 ∣ s) (hs32 : 32 ≤ s)
    (hf : h.get (p + s - 16) = some (s + 1)) :
    mm_realloc h p (s - 16) = some (p, h) := by
  have hlt : s + 1 < 2 ^ 64 := get_lt _ _ _ hw
  have hgs : GET_SIZE_W (s + 1) = s := GET_SIZE_W_pack s 1 hs16 (by omega) le_rfl
  apply realloc_shrink_noop h p (s - 16) (s + 1) hp0 hw (by rw [hgs]; exact hf)
    (by omega)
  rw [hgs, show s - 16 + DWORD = s by simp only [DWORD]; omega,
    Nat.mod_eq_of_lt (by omega), ALIGN_self s hs16 (by omega)]
  simp only [MIN_BLOCK_SIZE]
  omega

/-- Witness for C9 at demoH1, p = 64, block size 128, request 112. -/
theorem claim_C9_witness :
    demoH1.get (HDRP 64) = some (128 + 1) ∧
    mm_realloc demoH1 64 (128 - 16) = some (64, demoH1) :=
  ⟨by decide, claim_C9_realloc_payload demoH1 64 128 (by decide) (by decide)
    (by decide) (by decide) (by decide)⟩

/-- C8: mm_init requests 3 * DWORD = 48 bytes; if the provider refuses
it returns -1 with the heap untouched; on success it writes the pad
word at lo, the prologue header and footer PACK(MIN_BLOCK_SIZE, 1) at
lo + 8 and lo + 32 with both link words null, the epilogue header
PACK(0, 1) at lo + 40, points heap_prologue and flist_head at the
prologue block lo + 16, and returns 0. -/
theorem claim_C8_init (h : Heap) (hfresh : h.brk = h.lo) :
    (h.lo + 48 ≤ h.hmax →
      ∃ h', mm_init h = some (0, h') ∧
        h'.heap_prologue = h.lo + 16 ∧ h'.flist_head = h.lo + 16 ∧
        h'.brk = h.lo + 48 ∧
        h'.get h.lo = some 0 ∧
        h'.get (h.lo + 8) = some (PACK MIN_BLOCK_SIZE 1) ∧
        h'.get (h.lo + 16) = some 0 ∧ h'.get (h.lo + 24) = some 0 ∧
        h'.get (h.lo + 32) = some (PACK MIN_BLOCK_SIZE 1) ∧
        h'.get (h.lo + 40) = some (PACK 0 1)) ∧
    (h.hmax < h.lo + 48 → mm_init h = some (-1, h)) := by
  have hp33 : PACK MIN_BLOCK_SIZE 1 = 33 := by decide
  have hp1 : PACK 0 1 = 1 := by decide
  have hgsw : GET_SIZE_W (33 % 2 ^ 64) = 32 := by decide
  constructor
  · intro hcap
    have hstep : mm_init h = mm_init_body (h.grow (3 * DWORD)) h.brk := by
      rw [mm_init, mem_sbrk, if_pos (by simp only [DWORD]; try omega)]
    rw [hstep, mm_init_body, hfresh, hp33, hp1]
    simp only [Option.bind_eq_bind]
    have hh : HDRP (h.lo + DWORD) = h.lo + 8 := by
      simp only [HDRP, DWORD]
      omega
    rw [hh]
    set g1 := (h.grow (3 * DWORD)).setGlobals (h.lo + DWORD) with hg1
    have e1 : g1.set h.lo 0 = some (g1.upd h.lo 0) :=
      set_eq _ _ _ (by show h.lo ≤ h.lo; omega)
        (by show h.lo + 8 ≤ h.brk + 3 * DWORD; simp only [DWORD]; try omega)
    rw [e1, Option.some_bind]
    set k1 := g1.upd h.lo 0 with hk1
    have e2 : k1.set (h.lo + 8) 33 = some (k1.upd (h.lo + 8) 33) :=
      set_eq _ _ _ (by show h.lo ≤ h.lo + 8; omega)
        (by show h.lo + 8 + 8 ≤ h.brk + 3 * DWORD; simp only [DWORD]; try omega)
    rw [e2, Option.some_bind]
    set k2 := k1.upd (h.lo + 8) 33 with hk2
    have hf3 : k2.FTRP (h.lo + DWORD) = some (h.lo + 32) := by
      rw [Heap.FTRP, Heap.GET_SIZE, hh, hk2,
        get_upd_self _ _ _ (by show h.lo ≤ h.lo + 8; omega)
          (by show h.lo + 8 + 8 ≤ h.brk + 3 * DWORD; simp only [DWORD]; try omega)]
      simp only [Option.map_some', hgsw, DWORD]
      congr 1
    rw [hf3, Option.some_bind]
    have e4 : k2.set (h.lo + 32) 33 = some (k2.upd (h.lo + 32) 33) :=
      set_eq _ _ _ (by show h.lo ≤ h.lo + 32; omega)
        (by show h.lo + 32 + 8 ≤ h.brk + 3 * DWORD; simp only [DWORD]; try omega)
    rw [e4, Option.some_bind]
    set k3 := k2.upd (h.lo + 32) 33 with hk3
    have e5 : k3.set (h.lo + DWORD) 0 = some (k3.upd (h.lo + DWORD) 0) :=
      set_eq _ _ _ (by show h.lo ≤ h.lo + DWORD; omega)
        (by show h.lo + DWORD + 8 ≤ h.brk + 3 * DWORD; simp only [DWORD]; try omega)
    rw [e5, Option.some_bind]
    set k4 := k3.upd (h.lo + DWORD) 0 with hk4
    have e6 : k4.set (h.lo + DWORD + 8) 0 = some (k4.upd (h.lo + DWORD + 8) 0) :=
      set_eq _ _ _ (by show h.lo ≤ h.lo + DWORD + 8; omega)
        (by show h.lo + DWORD + 8 + 8 ≤ h.brk + 3 * DWORD; simp only [DWORD]; try omega)
    rw [e6, Option.some_bind]
    set k5 := k4.upd (h.lo + DWORD + 8) 0 with hk5
    have hnb : k5.NEXT_BLKP (h.lo + DWORD) = some (h.lo + DWORD + 32) := by
      rw [Heap.NEXT_BLKP, Heap.GET_SIZE, hh, hk5, hk4, hk3,
        get_upd_ne _ _ _ _ (by simp only [DWORD]; try omega),
        get_upd_ne _ _ _ _ (by simp only [DWORD]; try omega),
        get_upd_ne _ _ _ _ (by omega), hk2,
        get_upd_self _ _ _ (by show h.lo ≤ h.lo + 8; omega)
          (by show h.lo + 8 + 8 ≤ h.brk + 3 * DWORD; simp only [DWORD]; try omega)]
      simp only [Option.map_some', hgsw]
    rw [hnb, Option.some_bind]
    have hh2 : HDRP (h.lo + DWORD + 32) = h.lo + 40 := by
      simp only [HDRP, DWORD]
      omega
    rw [hh2]
    have e7 : k5.set (h.lo + 40) 1 = some (k5.upd (h.lo + 40) 1) :=
      set_eq _ _ _ (by show h.lo ≤ h.lo + 40; omega)
        (by show h.lo + 40 + 8 ≤ h.brk + 3 * DWORD; simp only [DWORD]; try omega)
    rw [e7, Option.some_bind]
    refine ⟨k5.upd (h.lo + 40) 1, rfl, ?_, ?_, ?_, ?_, ?_, ?_, ?_, ?_, ?_⟩
    · show h.lo + DWORD = h.lo + 16
      simp only [DWORD]
    · show h.lo + DWORD = h.lo + 16
      simp only [DWORD]
    · show h.brk + 3 * DWORD = h.lo + 48
      simp only [DWORD]
      omega
    · rw [get_upd_ne _ _ _ _ (by omega), hk5, hk4, hk3, hk2,
        get_upd_ne _ _ _ _ (by simp only [DWORD]; try omega),
        get_upd_ne _ _ _ _ (by simp only [DWORD]; try omega),
        get_upd_ne _ _ _ _ (by omega),
        get_upd_ne _ _ _ _ (by omega), hk1,
        get_upd_self _ _ _ (by show h.lo ≤ h.lo; omega)
          (by show h.lo + 8 ≤ h.brk + 3 * DWORD; simp only [DWORD]; try omega)]
      norm_num
    · rw [get_upd_ne _ _ _ _ (by omega), hk5, hk4, hk3,
        get_upd_ne _ _ _ _ (by simp only [DWORD]; try omega),
        get_upd_ne _ _ _ _ (by simp only [DWORD]; try omega),
        get_upd_ne _ _ _ _ (by omega), hk2,
        get_upd_self _ _ _ (by show h.lo ≤ h.lo + 8; omega)
          (by show h.lo + 8 + 8 ≤ h.brk + 3 * DWORD; simp only [DWORD]; try omega)]
      norm_num
    · rw [get_upd_ne _ _ _ _ (by omega), hk5,
        get_upd_ne _ _ _ _ (by simp only [DWORD]; try omega), hk4]
      rw [show h.lo + 16 = h.lo + DWORD by simp only [DWORD]]
      rw [get_upd_self _ _ _ (by show h.lo ≤ h.lo + DWORD; omega)
          (by show h.lo + DWORD + 8 ≤ h.brk + 3 * DWORD; simp only [DWORD]; try omega)]
      norm_num
    · rw [get_upd_ne _ _ _ _ (by omega), hk5]
      rw [show h.lo + 24 = h.lo + DWORD + 8 by simp only [DWORD]; try omega]
      rw [get_upd_self _ _ _ (by show h.lo ≤ h.lo + DWORD + 8; omega)
          (by show h.lo + DWORD + 8 + 8 ≤ h.brk + 3 * DWORD; simp only [DWORD]; try omega)]
      norm_num
    · rw [get_upd_ne _ _ _ _ (by omega), hk5, hk4,
        get_upd_ne _ _ _ _ (by simp only [DWORD]; try omega),
        get_upd_ne _ _ _ _ (by simp only [DWORD]; try omega), hk3,
        get_upd_self _ _ _ (by show h.lo ≤ h.lo + 32; omega)
          (by show h.lo + 32 + 8 ≤ h.brk + 3 * DWORD; simp only [DWORD]; try omega)]
      norm_num
    · rw [get_upd_self _ _ _ (by show h.lo ≤ h.lo + 40; omega)
          (by show h.lo + 40 + 8 ≤ h.brk + 3 * DWORD; simp only [DWORD]; try omega)]
      norm_num
  · intro hcap
    rw [mm_init, mem_sbrk, if_neg (by simp only [DWORD]; try omega)]


/-- Witness for C8 at the concrete fresh heap demoH0. -/
theorem claim_C8_witness :
    ∃ h', mm_init demoH0 = some (0, h') ∧
      h'.heap_prologue = demoH0.lo + 16 ∧ h'.flist_head = demoH0.lo + 16 ∧
      h'.brk = demoH0.lo + 48 ∧
      h'.get demoH0.lo = some 0 ∧
      h'.get (demoH0.lo + 8) = some (PACK MIN_BLOCK_SIZE 1) ∧
      h'.get (demoH0.lo + 16) = some 0 ∧ h'.get (demoH0.lo + 24) = some 0 ∧
      h'.get (demoH0.lo + 32) = some (PACK MIN_BLOCK_SIZE 1) ∧
      h'.get (demoH0.lo + 40) = some (PACK 0 1) :=
  (claim_C8_init demoH0 rfl).1 (by decide)

/- ------------------------------------------------------------------
Infrastructure lemmas about the representation.
------------------------------------------------------------------ -/

theorem chainSeg_append (h : Heap) (u v : List Blk) (a a2 : Nat) :
    chainSeg h a (u ++ v) a2 ↔ ∃ m, chainSeg h a u m ∧ chainSeg h m v a2 := by
  induction u generalizing a with
  | nil =>
    simp [chainSeg]
  | cons b u ih =>
    simp [chainSeg, ih, and_assoc]

theorem chainSeg_le (h : Heap) (a : Nat) (bs : List Blk) (a2 : Nat)
    (hc : chainSeg h a bs a2) : a ≤ a2 := by
  induction bs generalizing a with
  | nil =>
    have h2 : a2 = a := hc
    omega
  | cons b bs ih =>
    obtain ⟨-, -, hrest⟩ := hc
    have := ih _ hrest
    omega

theorem chainSeg_mem (h : Heap) (a : Nat) (bs : List Blk) (a2 : Nat) (b : Blk)
    (hc : chainSeg h a bs a2) (hb : b ∈ bs) :
    a ≤ b.addr ∧ b.addr + b.size ≤ a2 := by
  induction bs generalizing a with
  | nil => cases hb
  | cons c bs ih =>
    obtain ⟨hca, hcok, hrest⟩ := hc
    rcases List.mem_cons.mp hb with hbc | hbm
    · subst hbc
      have := chainSeg_le h _ _ _ hrest
      omega
    · have := ih _ hrest hbm
      omega

theorem chainSeg_align (h : Heap) (a : Nat) (bs : List Blk) (a2 : Nat)
    (hc : chainSeg h a bs a2) (ha : 16 ∣ a) :
    ∀ b ∈ bs, 16 ∣ b.addr := by
  induction bs generalizing a with
  | nil => intro b hb; cases hb
  | cons c bs ih =>
    obtain ⟨hca, hcok, hrest⟩ := hc
    intro b hb
    rcases List.mem_cons.mp hb with hbc | hbm
    · subst hbc; omega
    · exact ih _ hrest (by obtain ⟨-, -, h16, -⟩ := hcok; omega) b hbm

theorem chainSeg_pairwise (h : Heap) (a : Nat) (bs : List Blk) (a2 : Nat)
    (hc : chainSeg h a bs a2) :
    bs.Pairwise (fun b c => b.addr + b.size ≤ c.addr) := by
  induction bs generalizing a with
  | nil => exact List.Pairwise.nil
  | cons c bs ih =>
    obtain ⟨hca, hcok, hrest⟩ := hc
    refine List.Pairwise.cons ?_ (ih _ hrest)
    intro b hb
    have := (chainSeg_mem h _ _ _ b hrest hb).1
    omega

theorem blkOK_size16 (h : Heap) (b : Blk) (hb : blkOK h b) : 16 ∣ b.size := hb.2.2.1

theorem blkOK_size32 (h : Heap) (b : Blk) (hb : blkOK h b) : 32 ≤ b.size := hb.2.2.2

theorem blkOK_bounds (h : Heap) (b : Blk) (hb : blkOK h b) (hlo : 0 < h.lo) :
    h.lo + 8 ≤ b.addr ∧ b.addr + b.size ≤ h.brk + 8 := by
  obtain ⟨hh, hf, h16, h32⟩ := hb
  have hb1 := get_bounds _ _ _ hh
  have hb2 := get_bounds _ _ _ hf
  omega

theorem blkOK_upd (h : Heap) (b : Blk) (q v : Nat) (hb : blkOK h b)
    (h1 : q ≠ b.addr - 8) (h2 : q ≠ b.addr + b.size - 16) :
    blkOK (h.upd q v) b := by
  obtain ⟨hh, hf, h16, h32⟩ := hb
  exact ⟨by rw [get_upd_ne _ _ _ _ (Ne.symm h1)]; exact hh,
    by rw [get_upd_ne _ _ _ _ (Ne.symm h2)]; exact hf, h16, h32⟩

theorem chainSeg_upd (h : Heap) (a : Nat) (bs : List Blk) (a2 q v : Nat)
    (hc : chainSeg h a bs a2)
    (hq : ∀ b ∈ bs, q ≠ b.addr - 8 ∧ q ≠ b.addr + b.size - 16) :
    chainSeg (h.upd q v) a bs a2 := by
  induction bs generalizing a with
  | nil => exact hc
  | cons c bs ih =>
    obtain ⟨hca, hcok, hrest⟩ := hc
    have hqc := hq c (List.mem_cons_self c bs)
    exact ⟨hca, blkOK_upd h c q v hcok hqc.1 hqc.2,
      ih _ hrest (fun b hb => hq b (List.mem_cons_of_mem c hb))⟩

theorem flinks_tail (h : Heap) (x : Nat) (L : List Nat)
    (hf : flinks h (x :: L)) : flinks h L := by
  cases L with
  | nil => trivial
  | cons y L2 => exact hf.2.2

theorem flinks_upd (h : Heap) (L : List Nat) (q v : Nat)
    (hf : flinks h L)
    (hq1 : ∀ x ∈ L, q ≠ x + 8)
    (hq2 : ∀ x ∈ L.tail, q ≠ x) :
    flinks (h.upd q v) L := by
  induction L with
  | nil => trivial
  | cons x L ih =>
    cases L with
    | nil =>
      show (h.upd q v).get (x + 8) = some (h.upd q v).heap_prologue
      rw [get_upd_ne _ _ _ _ (Ne.symm (hq1 x (List.mem_cons_self x [])))]
      exact hf
    | cons y L2 =>
      obtain ⟨hxy, hyx, hrest⟩ := hf
      refine ⟨?_, ?_, ?_⟩
      · rw [get_upd_ne _ _ _ _ (Ne.symm (hq1 x (List.mem_cons_self _ _)))]
        exact hxy
      · rw [get_upd_ne _ _ _ _ (Ne.symm (hq2 y (List.mem_cons_self _ _)))]
        exact hyx
      · exact ih hrest (fun z hz => hq1 z (List.mem_cons_of_mem x hz))
          (fun z hz => hq2 z (List.mem_cons_of_mem y hz))

theorem flinks_setFlh (h : Heap) (n : Nat) (L : List Nat) (hf : flinks h L) :
    flinks (h.setFlh n) L := by
  induction L with
  | nil => trivial
  | cons x L ih =>
    cases L with
    | nil => exact hf
    | cons y L2 => exact ⟨hf.1, hf.2.1, ih hf.2.2⟩

theorem chainSeg_setFlh (h : Heap) (n a : Nat) (bs : List Blk) (a2 : Nat)
    (hc : chainSeg h a bs a2) : chainSeg (h.setFlh n) a bs a2 := by
  induction bs generalizing a with
  | nil => exact hc
  | cons b bs ih => exact ⟨hc.1, hc.2.1, ih _ hc.2.2⟩

theorem flinks_next (h : Heap) (L1 : List Nat) (x : Nat) (L2 : List Nat)
    (hf : flinks h (L1 ++ x :: L2)) :
    h.get (x + 8) = some (L2.headD h.heap_prologue) := by
  induction L1 with
  | nil =>
    cases L2 with
    | nil => exact hf
    | cons y L2 => exact hf.1
  | cons u L1 ih =>
    exact ih (flinks_tail h u _ hf)

theorem flinks_prev (h : Heap) (L1 : List Nat) (p x : Nat) (L2 : List Nat)
    (hf : flinks h (L1 ++ p :: x :: L2)) :
    h.get x = some p := by
  induction L1 with
  | nil => exact hf.2.1
  | cons u L1 ih => exact ih (flinks_tail h u _ hf)

theorem flist_add_eq (h : Heap) (bp wx : Nat)
    (hxh : h.get (HDRP bp) = some wx) (hxa : GET_ALLOC_W wx = 0)
    (hb1 : h.lo ≤ bp + 8) (hb2 : bp + 16 ≤ h.brk)
    (hf1 : h.lo ≤ h.flist_head) (hf2 : h.flist_head + 8 ≤ h.brk) :
    flist_add h bp =
      some (((h.upd (bp + 8) h.flist_head).upd h.flist_head bp).setFlh bp) := by
  simp only [flist_add, Heap.GET_ALLOC, hxh, Option.map_some', Option.bind_eq_bind,
    Option.some_bind, hxa, ne_eq, not_true_eq_false, if_false]
  rw [set_eq _ _ _ hb1 (by omega), Option.some_bind,
    set_eq _ _ _ (by rw [upd_lo]; exact hf1) (by rw [upd_brk]; omega),
    Option.some_bind]

theorem flist_remove_eq_head (h : Heap) (x wx nf pv : Nat)
    (hxh : h.get (HDRP x) = some wx) (hxa : GET_ALLOC_W wx = 0)
    (hhead : h.flist_head = x)
    (hnext : h.get (x + 8) = some nf)
    (hprev : h.get x = some pv)
    (hnfb1 : h.lo ≤ nf) (hnfb2 : nf + 8 ≤ h.brk) :
    flist_remove h x = some ((h.setFlh nf).upd nf pv) := by
  simp only [flist_remove, Heap.GET_ALLOC, hxh, Option.map_some', Option.bind_eq_bind,
    Option.some_bind, hxa, ne_eq, not_true_eq_false, if_false,
    if_pos hhead.symm, Heap.NEXT_FREE, Heap.PREV_FREE, hnext]
  rw [setFlh_get, setFlh_get, hnext, Option.some_bind, hprev, Option.some_bind]
  exact set_eq _ _ _ (by rw [setFlh_lo]; exact hnfb1) (by rw [setFlh_brk]; omega)

theorem flist_remove_eq_mid (h : Heap) (x wx p nf : Nat)
    (hxh : h.get (HDRP x) = some wx) (hxa : GET_ALLOC_W wx = 0)
    (hne : x ≠ h.flist_head)
    (hprev : h.get x = some p)
    (hnext : h.get (x + 8) = some nf)
    (hpb1 : h.lo ≤ p + 8) (hpb2 : p + 16 ≤ h.brk)
    (hnfb1 : h.lo ≤ nf) (hnfb2 : nf + 8 ≤ h.brk)
    (hxp8 : x ≠ p + 8) (hx8p8 : x + 8 ≠ p + 8) :
    flist_remove h x = some ((h.upd (p + 8) nf).upd nf p) := by
  simp only [flist_remove, Heap.GET_ALLOC, hxh, Option.map_some', Option.bind_eq_bind,
    Option.some_bind, hxa, ne_eq, not_true_eq_false, if_false,
    if_neg hne, Heap.NEXT_FREE, Heap.PREV_FREE, hprev, hnext]
  rw [set_eq _ _ _ hpb1 (by omega), Option.some_bind,
    get_upd_ne _ _ _ _ hx8p8, hnext, Option.some_bind,
    get_upd_ne _ _ _ _ hxp8, hprev, Option.some_bind]
  exact set_eq _ _ _ (by rw [upd_lo]; exact hnfb1) (by rw [upd_brk]; omega)

theorem get_upd2_ne (h : Heap) (q1 v1 q2 v2 z : Nat) (h1 : z ≠ q1) (h2 : z ≠ q2) :
    ((h.upd q1 v1).upd q2 v2).get z = h.get z := by
  rw [get_upd_ne _ _ _ _ h2, get_upd_ne _ _ _ _ h1]

theorem flinks_mid_removed (h : Heap) (L1 : List Nat) (p x : Nat) (L2 : List Nat)
    (nf : Nat)
    (hf : flinks h (L1 ++ p :: x :: L2))
    (hnf : nf = L2.headD h.heap_prologue)
    (hnodup : (L1 ++ p :: x :: L2).Nodup)
    (hal : ∀ z ∈ L1 ++ p :: x :: L2, 16 ∣ z)
    (hpal : 16 ∣ h.heap_prologue)
    (hprolnot : h.heap_prologue ∉ L1 ++ p :: x :: L2)
    (hplt : p < 2 ^ 64) (hnflt : nf < 2 ^ 64)
    (hpb1 : h.lo ≤ p + 8) (hpb2 : p + 16 ≤ h.brk)
    (hnfb1 : h.lo ≤ nf) (hnfb2 : nf + 8 ≤ h.brk) :
    flinks ((h.upd (p + 8) nf).upd nf p) (L1 ++ p :: L2) := by
  have hnf16 : 16 ∣ nf := by
    cases L2 with
    | nil =>
      simp only [List.headD_nil] at hnf
      omega
    | cons y L2x =>
      simp only [List.headD_cons] at hnf
      rw [hnf]
      exact hal y (by simp)
  have hnfkey : ∀ z, z ∈ L1 ++ p :: x :: L2 → z ∉ L2 → z ≠ nf := by
    intro z hz hz2 heq
    cases L2 with
    | nil =>
      simp only [List.headD_nil] at hnf
      rw [hnf] at heq
      rw [← heq] at hprolnot
      exact hprolnot hz
    | cons y L2x =>
      simp only [List.headD_cons] at hnf
      rw [hnf] at heq
      rw [heq] at hz2
      exact hz2 (List.mem_cons_self y L2x)
  have hp16 : 16 ∣ p := hal p (by simp)
  have hpnot2 : p ∉ L2 := by
    have : (p :: x :: L2).Nodup := (List.nodup_append.mp hnodup).2.1
    rw [List.nodup_cons] at this
    intro hc
    exact this.1 (List.mem_cons_of_mem x hc)
  have hpnf : p ≠ nf := hnfkey p (by simp) hpnot2
  induction L1 with
  | nil =>
    cases L2 with
    | nil =>
      simp only [List.headD_nil] at hnf
      show ((h.upd (p + 8) nf).upd nf p).get (p + 8) =
        some ((h.upd (p + 8) nf).upd nf p).heap_prologue
      rw [get_upd_ne _ _ _ _ (by omega : p + 8 ≠ nf),
        get_upd_self _ _ _ hpb1 (by omega)]
      show some (nf % 2 ^ 64) = some h.heap_prologue
      rw [Nat.mod_eq_of_lt hnflt, hnf]
    | cons y L2x =>
      simp only [List.headD_cons] at hnf
      subst hnf
      refine ⟨?_, ?_, ?_⟩
      · show ((h.upd (p + 8) nf).upd nf p).get (p + 8) = some nf
        rw [get_upd_ne _ _ _ _ (by omega : p + 8 ≠ nf),
          get_upd_self _ _ _ hpb1 (by omega), Nat.mod_eq_of_lt hnflt]
      · show ((h.upd (p + 8) nf).upd nf p).get nf = some p
        rw [get_upd_self _ _ _ (by rw [upd_lo]; exact hnfb1)
            (by rw [upd_brk]; omega), Nat.mod_eq_of_lt hplt]
      · have hrest : flinks h (nf :: L2x) :=
          flinks_tail h x _ (flinks_tail h p _ hf)
        have h16y : ∀ z ∈ nf :: L2x, 16 ∣ z := fun z hz => hal z (by simp [hz])
        apply flinks_upd
        · apply flinks_upd
          · exact hrest
          · intro z hz hc
            apply hpnot2
            have hpz : p = z := by omega
            rw [hpz]
            exact hz
          · intro z hz
            simp only [List.tail_cons] at hz
            have := h16y z (List.mem_cons_of_mem nf hz)
            omega
        · intro z hz
          have := h16y z hz
          omega
        · intro z hz
          simp only [List.tail_cons] at hz
          have hnd : (nf :: L2x).Nodup := by
            have h1 : (x :: nf :: L2x).Nodup := by
              have h2 := (List.nodup_append.mp hnodup).2.1
              rw [List.nodup_cons] at h2
              exact h2.2
            rw [List.nodup_cons] at h1
            exact h1.2
          rw [List.nodup_cons] at hnd
          intro hc
          rw [hc] at hnd
          exact hnd.1 hz
  | cons u L1x ih =>
    have hfx : flinks h (L1x ++ p :: x :: L2) := flinks_tail h u _ hf
    have hnodupx : (L1x ++ p :: x :: L2).Nodup := by
      rw [List.cons_append, List.nodup_cons] at hnodup
      exact hnodup.2
    have hunotin : u ∉ L1x ++ p :: x :: L2 := by
      rw [List.cons_append, List.nodup_cons] at hnodup
      exact hnodup.1
    have halx : ∀ z ∈ L1x ++ p :: x :: L2, 16 ∣ z := by
      intro z hz
      exact hal z (by rw [List.cons_append]; exact List.mem_cons_of_mem u hz)
    have hprolnotx : h.heap_prologue ∉ L1x ++ p :: x :: L2 := by
      intro hc
      exact hprolnot (by rw [List.cons_append]; exact List.mem_cons_of_mem u hc)
    have hnfkeyx : ∀ z, z ∈ L1x ++ p :: x :: L2 → z ∉ L2 → z ≠ nf := by
      intro z hz
      exact hnfkey z (by rw [List.cons_append]; exact List.mem_cons_of_mem u hz)
    have hmain := ih hfx hnodupx halx hprolnotx hnfkeyx
    have hu16 : 16 ∣ u := hal u (by rw [List.cons_append]; exact List.mem_cons_self _ _)
    have hunf : u ≠ nf := hnfkey u (by rw [List.cons_append]; exact List.mem_cons_self _ _)
      (by intro hc; exact hunotin (List.mem_append_right _ (List.mem_cons_of_mem p (List.mem_cons_of_mem x hc))))
    have hup' : u ≠ p := by
      intro hc
      exact hunotin (by rw [hc]; exact List.mem_append_right _ (List.mem_cons_self _ _))
    rw [List.cons_append]
    cases L1x with
    | nil =>
      have hup : h.get (u + 8) = some p := hf.1
      have hpu : h.get p = some u := hf.2.1
      refine ⟨?_, ?_, ?_⟩
      · rw [get_upd2_ne h _ _ _ _ _ (by omega) (by omega)]
        exact hup
      · rw [get_upd2_ne h _ _ _ _ _ (by omega) hpnf]
        exact hpu
      · exact hmain
    | cons r L1y =>
      have hur : h.get (u + 8) = some r := hf.1
      have hru : h.get r = some u := hf.2.1
      have hrmem : r ∈ (r :: L1y) ++ p :: x :: L2 := List.mem_cons_self _ _
      have hr16 : 16 ∣ r := halx r hrmem
      have hrnot2 : r ∉ L2 := by
        intro hc
        have hnd := hnodupx
        rw [List.cons_append, List.nodup_cons] at hnd
        exact hnd.1 (List.mem_append_right _ (List.mem_cons_of_mem p (List.mem_cons_of_mem x hc)))
      have hrnf : r ≠ nf := hnfkeyx r hrmem hrnot2
      refine ⟨?_, ?_, ?_⟩
      · rw [get_upd2_ne h _ _ _ _ _ (by omega) (by omega)]
        exact hur
      · rw [get_upd2_ne h _ _ _ _ _ (by omega) hrnf]
        exact hru
      · exact hmain

theorem pairwise_total {R : Blk → Blk → Prop} {l : List Blk}
    (hp : l.Pairwise R) {b c : Blk} (hb : b ∈ l) (hc : c ∈ l) :
    b = c ∨ R b c ∨ R c b := by
  induction l with
  | nil => cases hb
  | cons d l ih =>
    rw [List.pairwise_cons] at hp
    rcases List.mem_cons.mp hb with rfl | hb2
    · rcases List.mem_cons.mp hc with rfl | hc2
      · exact Or.inl rfl
      · exact Or.inr (Or.inl (hp.1 c hc2))
    · rcases List.mem_cons.mp hc with rfl | hc2
      · exact Or.inr (Or.inr (hp.1 b hb2))
      · exact ih hp.2 hb2 hc2

theorem chainSeg_blkOK (h : Heap) (a : Nat) (bs : List Blk) (a2 : Nat) (b : Blk)
    (hc : chainSeg h a bs a2) (hb : b ∈ bs) : blkOK h b := by
  induction bs generalizing a with
  | nil => cases hb
  | cons c bs ih =>
    rcases List.mem_cons.mp hb with rfl | hb2
    · exact hc.2.1
    · exact ih _ hc.2.2 hb2

/-- Writing inside the first 16 bytes of a block's payload, or inside
the prologue's payload, touches no tracked header or footer. -/
theorem slot_safe (h : Heap) (bs : List Blk) (q : Nat)
    (hch : chainSeg h (h.lo + 48) bs h.brk)
    (hlo : 0 < h.lo)
    (hy : (∃ b, b ∈ bs ∧ (q = b.addr ∨ q = b.addr + 8)) ∨
      (q = h.lo + 16 ∨ q = h.lo + 24)) :
    q ≠ h.lo + 8 ∧ q ≠ h.lo + 32 ∧ q ≠ h.brk - 8 ∧
    ∀ c ∈ bs, q ≠ c.addr - 8 ∧ q ≠ c.addr + c.size - 16 := by
  have hbrk48 : h.lo + 48 ≤ h.brk := chainSeg_le h _ _ _ hch
  rcases hy with ⟨b, hb, hq⟩ | hq
  · have hbm := chainSeg_mem h _ _ _ b hch hb
    have hbk := chainSeg_blkOK h _ _ _ b hch hb
    have hb32 := blkOK_size32 h b hbk
    have hpw := chainSeg_pairwise h _ _ _ hch
    refine ⟨by omega, by omega, by omega, ?_⟩
    intro c hc
    have hcm := chainSeg_mem h _ _ _ c hch hc
    have hck := chainSeg_blkOK h _ _ _ c hch hc
    have hc32 := blkOK_size32 h c hck
    rcases pairwise_total hpw hb hc with rfl | hbc | hcb
    · omega
    · omega
    · omega
  · have hch48 : ∀ c ∈ bs, h.lo + 48 ≤ c.addr ∧ c.addr + c.size ≤ h.brk :=
      fun c hc => chainSeg_mem h _ _ _ c hch hc
    refine ⟨by omega, by omega, by omega, ?_⟩
    intro c hc
    have := hch48 c hc
    have := blkOK_size32 h c (chainSeg_blkOK h _ _ _ c hch hc)
    omega

theorem hdr_facts (h : Heap) (b : Blk) (hb : blkOK h b) :
    GET_SIZE_W (hdrWord b) = b.size ∧
    GET_ALLOC_W (hdrWord b) = (if b.alloc then 1 else 0) := by
  have hlt : hdrWord b < 2 ^ 64 := get_lt _ _ _ hb.1
  have h16 := hb.2.2.1
  have hble : (if b.alloc then 1 else 0) ≤ 1 := by split <;> omega
  have hsz : b.size < 2 ^ 64 := by
    unfold hdrWord at hlt
    omega
  exact ⟨GET_SIZE_W_pack b.size _ h16 hsz hble,
    GET_ALLOC_W_pack b.size _ h16 hble⟩

theorem flist_remove_node (h : Heap) (bs : List Blk) (L : List Nat) (y : Nat)
    (hch : chainSeg h (h.lo + 48) bs h.brk)
    (hlo : 0 < h.lo) (hlo16 : 16 ∣ h.lo) (hbrklt : h.brk < 2 ^ 64)
    (hprol : h.heap_prologue = h.lo + 16)
    (hprolh : h.get (h.lo + 8) = some 33)
    (hprolf : h.get (h.lo + 32) = some 33)
    (hepi : h.get (h.brk - 8) = some 1)
    (hhead : h.flist_head = L.headD h.heap_prologue)
    (hlinks : flinks h L)
    (hnodup : L.Nodup)
    (hmap : ∀ z ∈ L, ∃ b, b ∈ bs ∧ b.alloc = false ∧ b.addr = z)
    (hy : y ∈ L) :
    ∃ h1, flist_remove h y = some h1 ∧
      h1.lo = h.lo ∧ h1.brk = h.brk ∧ h1.heap_prologue = h.heap_prologue ∧
      h1.flist_head = (L.erase y).headD h.heap_prologue ∧
      flinks h1 (L.erase y) ∧
      chainSeg h1 (h.lo + 48) bs h.brk ∧
      h1.get (h.lo + 8) = some 33 ∧ h1.get (h.lo + 32) = some 33 ∧
      h1.get (h.brk - 8) = some 1 ∧ h1.hmax = h.hmax := by
  have hbrk48 : h.lo + 48 ≤ h.brk := chainSeg_le h _ _ _ hch
  have hal : ∀ z ∈ L, 16 ∣ z := by
    intro z hz
    obtain ⟨b, hb, -, rfl⟩ := hmap z hz
    exact chainSeg_align h _ _ _ hch (by omega) b hb
  have hzb : ∀ z ∈ L, h.lo + 48 ≤ z ∧ z + 32 ≤ h.brk := by
    intro z hz
    obtain ⟨b, hb, -, rfl⟩ := hmap z hz
    have h1 := chainSeg_mem h _ _ _ b hch hb
    have h2 := blkOK_size32 h b (chainSeg_blkOK h _ _ _ b hch hb)
    omega
  have hprolnot : h.heap_prologue ∉ L := by
    intro hc
    have := (hzb _ hc).1
    omega
  -- the node's own header word
  obtain ⟨by_, hbymem, hbyfree, hbyaddr⟩ := hmap y hy
  have hbyok : blkOK h by_ := chainSeg_blkOK h _ _ _ by_ hch hbymem
  have hyhdr : h.get (y - 8) = some (hdrWord by_) := hbyaddr ▸ hbyok.1
  have hyalloc : GET_ALLOC_W (hdrWord by_) = 0 := by
    rw [(hdr_facts h by_ hbyok).2, hbyfree]
    rfl
  have hyb := hzb y hy
  -- the value in the node's prev slot
  have hyprev : h.get y = some (h.mem y % 2 ^ 64) := by
    rw [Heap.get, if_pos (by omega : h.lo ≤ y ∧ y + 8 ≤ h.brk)]
  -- split the list at y
  obtain ⟨L1, L2, rfl⟩ := List.append_of_mem hy
  have hnext : h.get (y + 8) = some (L2.headD h.heap_prologue) :=
    flinks_next h L1 y L2 hlinks
  -- facts about nf
  have hnfb : h.lo ≤ L2.headD h.heap_prologue ∧
      L2.headD h.heap_prologue + 8 ≤ h.brk ∧ 16 ∣ L2.headD h.heap_prologue ∧
      L2.headD h.heap_prologue < 2 ^ 64 := by
    cases L2 with
    | nil =>
      simp only [List.headD_nil]
      refine ⟨by omega, by omega, by omega, by omega⟩
    | cons z L2x =>
      simp only [List.headD_cons]
      have hzm : z ∈ L1 ++ y :: z :: L2x := by simp
      have := hzb z hzm
      have := hal z hzm
      refine ⟨by omega, by omega, by omega, by omega⟩
  cases L1 with
  | nil =>
    -- y is the head of the free list
    have hhead' : h.flist_head = y := by
      simpa using hhead
    have hrem := flist_remove_eq_head h y (hdrWord by_) (L2.headD h.heap_prologue)
      (h.mem y % 2 ^ 64) hyhdr hyalloc hhead' hnext hyprev hnfb.1 hnfb.2.1
    have hnfsafe := slot_safe h bs (L2.headD h.heap_prologue) hch hlo (by
      cases L2 with
      | nil =>
        simp only [List.headD_nil]
        right
        left
        omega
      | cons z L2x =>
        simp only [List.headD_cons]
        left
        obtain ⟨b2, hb2, -, rfl⟩ := hmap z (by simp)
        exact ⟨b2, hb2, Or.inl rfl⟩)
    refine ⟨_, hrem, rfl, rfl, rfl, ?_, ?_, ?_, ?_, ?_, ?_, rfl⟩
    · show (L2.headD h.heap_prologue) = (((y :: L2).erase y).headD h.heap_prologue)
      rw [List.erase_cons_head]
    · rw [List.nil_append, List.erase_cons_head]
      apply flinks_upd
      · exact flinks_setFlh _ _ _ (flinks_tail h y L2 hlinks)
      · intro z hz
        have := hal z (by simp [hz])
        have := hnfb.2.2.1
        omega
      · intro z hz
        cases L2 with
        | nil => cases hz
        | cons z0 L2x =>
          simp only [List.headD_cons]
          simp only [List.tail_cons] at hz
          simp only [List.nil_append, List.nodup_cons] at hnodup
          exact fun hc => hnodup.2.1 (hc ▸ hz)
    · apply chainSeg_upd
      · exact chainSeg_setFlh h _ _ _ _ hch
      · intro b hb
        exact hnfsafe.2.2.2 b hb
    · rw [get_upd_ne _ _ _ _ (Ne.symm hnfsafe.1), setFlh_get]
      exact hprolh
    · rw [get_upd_ne _ _ _ _ (Ne.symm hnfsafe.2.1), setFlh_get]
      exact hprolf
    · rw [get_upd_ne _ _ _ _ (Ne.symm hnfsafe.2.2.1), setFlh_get]
      exact hepi
  | cons u L1x =>
    rcases List.eq_nil_or_concat (u :: L1x) with hnil | ⟨L1p, p, hconcat⟩
    · cases hnil
    have hLeq : (u :: L1x) ++ y :: L2 = L1p ++ p :: y :: L2 := by
      rw [hconcat, List.concat_eq_append, List.append_assoc]
      rfl
    have hheadu : h.flist_head = u := by simpa using hhead
    have hymem : y ∈ (u :: L1x) ++ y :: L2 :=
      List.mem_append_right _ (List.mem_cons_self y L2)
    have hyne : y ≠ h.flist_head := by
      rw [hheadu]
      have hnd := hnodup
      rw [List.cons_append, List.nodup_cons] at hnd
      intro hc
      apply hnd.1
      rw [← hc]
      exact List.mem_append_right _ (List.mem_cons_self y L2)
    have hpmem1 : p ∈ u :: L1x := by
      rw [hconcat, List.concat_eq_append]
      exact List.mem_append_right _ (List.mem_singleton_self p)
    have hpmem : p ∈ (u :: L1x) ++ y :: L2 := List.mem_append_left _ hpmem1
    have hprev : h.get y = some p := flinks_prev h L1p p y L2 (hLeq ▸ hlinks)
    have hpb := hzb p hpmem
    have hpal := hal p hpmem
    have hyal := hal y hymem
    have hynp : y ≠ p := by
      have hnd : (p :: y :: L2).Nodup := (List.nodup_append.mp (hLeq ▸ hnodup)).2.1
      rw [List.nodup_cons] at hnd
      intro hc
      exact hnd.1 (hc ▸ List.mem_cons_self y L2)
    have hrem := flist_remove_eq_mid h y (hdrWord by_) p (L2.headD h.heap_prologue)
      hyhdr hyalloc hyne hprev hnext (by omega) (by omega) hnfb.1 hnfb.2.1
      (by omega) (by omega)
    have hnfsafe := slot_safe h bs (L2.headD h.heap_prologue) hch hlo (by
      cases L2 with
      | nil =>
        simp only [List.headD_nil]
        right
        left
        omega
      | cons z L2x =>
        simp only [List.headD_cons]
        left
        obtain ⟨b2, hb2, -, rfl⟩ := hmap z (by simp)
        exact ⟨b2, hb2, Or.inl rfl⟩)
    have hpsafe := slot_safe h bs (p + 8) hch hlo (by
      left
      obtain ⟨b2, hb2, -, rfl⟩ := hmap p hpmem
      exact ⟨b2, hb2, Or.inr rfl⟩)
    have hynotin1 : y ∉ u :: L1x := by
      intro hc
      exact (List.nodup_append.mp hnodup).2.2 hc (List.mem_cons_self y L2)
    have herase : ((u :: L1x) ++ y :: L2).erase y = (u :: L1x) ++ L2 := by
      rw [List.erase_append_right _ hynotin1, List.erase_cons_head]
    have hlist2 : (u :: L1x) ++ L2 = L1p ++ p :: L2 := by
      rw [hconcat, List.concat_eq_append, List.append_assoc]
      rfl
    refine ⟨_, hrem, rfl, rfl, rfl, ?_, ?_, ?_, ?_, ?_, ?_, rfl⟩
    · show h.flist_head = (((u :: L1x) ++ y :: L2).erase y).headD h.heap_prologue
      rw [herase, List.cons_append, List.headD_cons, hheadu]
    · rw [herase, hlist2]
      exact flinks_mid_removed h L1p p y L2 (L2.headD h.heap_prologue)
        (hLeq ▸ hlinks) rfl (hLeq ▸ hnodup)
        (fun z hz => hal z (hLeq ▸ hz))
        (by rw [hprol]; omega)
        (fun hc => hprolnot (hLeq ▸ hc))
        (by omega) hnfb.2.2.2 (by omega) (by omega) hnfb.1 hnfb.2.1
    · apply chainSeg_upd
      · apply chainSeg_upd
        · exact hch
        · intro b hb
          exact hpsafe.2.2.2 b hb
      · intro b hb
        exact hnfsafe.2.2.2 b hb
    · rw [get_upd2_ne h _ _ _ _ _ (Ne.symm hpsafe.1) (Ne.symm hnfsafe.1)]
      exact hprolh
    · rw [get_upd2_ne h _ _ _ _ _ (Ne.symm hpsafe.2.1) (Ne.symm hnfsafe.2.1)]
      exact hprolf
    · rw [get_upd2_ne h _ _ _ _ _ (Ne.symm hpsafe.2.2.1) (Ne.symm hnfsafe.2.2.1)]
      exact hepi

theorem flist_add_node (h : Heap) (bs : List Blk) (L : List Nat) (bp wbp : Nat)
    (hch : chainSeg h (h.lo + 48) bs h.brk)
    (hlo : 0 < h.lo) (hlo16 : 16 ∣ h.lo) (hbrklt : h.brk < 2 ^ 64)
    (hprol : h.heap_prologue = h.lo + 16)
    (hprolh : h.get (h.lo + 8) = some 33)
    (hprolf : h.get (h.lo + 32) = some 33)
    (hepi : h.get (h.brk - 8) = some 1)
    (hhead : h.flist_head = L.headD h.heap_prologue)
    (hlinks : flinks h L)
    (hnodup : L.Nodup)
    (hmap : ∀ z ∈ L, ∃ b, b ∈ bs ∧ b.alloc = false ∧ b.addr = z)
    (hbph : h.get (bp - 8) = some wbp)
    (hbpa : GET_ALLOC_W wbp = 0)
    (hbpin : ∃ b, b ∈ bs ∧ b.addr = bp)
    (hbpnotin : bp ∉ L) :
    ∃ h1, flist_add h bp = some h1 ∧
      h1.lo = h.lo ∧ h1.brk = h.brk ∧ h1.heap_prologue = h.heap_prologue ∧
      h1.flist_head = bp ∧
      flinks h1 (bp :: L) ∧
      chainSeg h1 (h.lo + 48) bs h.brk ∧
      h1.get (h.lo + 8) = some 33 ∧ h1.get (h.lo + 32) = some 33 ∧
      h1.get (h.brk - 8) = some 1 ∧ h1.hmax = h.hmax := by
  have hbrk48 : h.lo + 48 ≤ h.brk := chainSeg_le h _ _ _ hch
  have hbpb : h.lo + 48 ≤ bp ∧ bp + 32 ≤ h.brk := by
    obtain ⟨b, hb, rfl⟩ := hbpin
    have h1 := chainSeg_mem h _ _ _ b hch hb
    have h2 := blkOK_size32 h b (chainSeg_blkOK h _ _ _ b hch hb)
    omega
  have hbp16 : 16 ∣ bp := by
    obtain ⟨b, hb, rfl⟩ := hbpin
    exact chainSeg_align h _ _ _ hch (by omega) b hb
  have hbpsafe := slot_safe h bs (bp + 8) hch hlo (by
    left
    obtain ⟨b, hb, rfl⟩ := hbpin
    exact ⟨b, hb, Or.inr rfl⟩)
  have hbpb : h.lo + 48 ≤ bp ∧ bp + 32 ≤ h.brk := by
    obtain ⟨b, hb, rfl⟩ := hbpin
    have h1 := chainSeg_mem h _ _ _ b hch hb
    have h2 := blkOK_size32 h b (chainSeg_blkOK h _ _ _ b hch hb)
    omega
  have hbp16 : 16 ∣ bp := by
    obtain ⟨b, hb, rfl⟩ := hbpin
    exact chainSeg_align h _ _ _ hch (by omega) b hb
  have hbpsafe := slot_safe h bs (bp + 8) hch hlo (by
    left
    obtain ⟨b, hb, rfl⟩ := hbpin
    exact ⟨b, hb, Or.inr rfl⟩)
  have hal : ∀ z ∈ L, 16 ∣ z := by
    intro z hz
    obtain ⟨b, hb, -, rfl⟩ := hmap z hz
    exact chainSeg_align h _ _ _ hch (by omega) b hb
  have hzb : ∀ z ∈ L, h.lo + 48 ≤ z ∧ z + 32 ≤ h.brk := by
    intro z hz
    obtain ⟨b, hb, -, rfl⟩ := hmap z hz
    have h1 := chainSeg_mem h _ _ _ b hch hb
    have h2 := blkOK_size32 h b (chainSeg_blkOK h _ _ _ b hch hb)
    omega
  have hfb : h.lo ≤ h.flist_head ∧ h.flist_head + 8 ≤ h.brk ∧
      16 ∣ h.flist_head ∧ h.flist_head < 2 ^ 64 := by
    rw [hhead]
    cases L with
    | nil =>
      simp only [List.headD_nil]
      refine ⟨by omega, by omega, by omega, by omega⟩
    | cons z L2 =>
      simp only [List.headD_cons]
      have := hzb z (List.mem_cons_self z L2)
      have := hal z (List.mem_cons_self z L2)
      refine ⟨by omega, by omega, by omega, by omega⟩
  have hfsafe := slot_safe h bs h.flist_head hch hlo (by
    rw [hhead]
    cases L with
    | nil =>
      simp only [List.headD_nil]
      right
      left
      omega
    | cons z L2 =>
      simp only [List.headD_cons]
      left
      obtain ⟨b2, hb2, -, rfl⟩ := hmap z (List.mem_cons_self z L2)
      exact ⟨b2, hb2, Or.inl rfl⟩)
  have hadd := flist_add_eq h bp wbp hbph hbpa (by omega) (by omega) hfb.1 hfb.2.1
  refine ⟨_, hadd, rfl, rfl, rfl, rfl, ?_, ?_, ?_, ?_, ?_, rfl⟩
  · -- flinks ((...).setFlh bp) (bp :: L)
    apply flinks_setFlh
    cases L with
    | nil =>
      show ((h.upd (bp + 8) h.flist_head).upd h.flist_head bp).get (bp + 8) =
        some ((h.upd (bp + 8) h.flist_head).upd h.flist_head bp).heap_prologue
      rw [get_upd_ne _ _ _ _ (by
          rw [hhead]
          simp only [List.headD_nil]
          rw [hprol]
          omega),
        get_upd_self _ _ _ (by omega) (by omega)]
      show some (h.flist_head % 2 ^ 64) = some h.heap_prologue
      rw [Nat.mod_eq_of_lt hfb.2.2.2, hhead]
      simp only [List.headD_nil]
    | cons z L2 =>
      have hz16 := hal z (List.mem_cons_self z L2)
      have hzbb := hzb z (List.mem_cons_self z L2)
      have hzhead : h.flist_head = z := by simpa using hhead
      refine ⟨?_, ?_, ?_⟩
      · show ((h.upd (bp + 8) h.flist_head).upd h.flist_head bp).get (bp + 8) = some z
        rw [get_upd_ne _ _ _ _ (by rw [hzhead]; omega),
          get_upd_self _ _ _ (by omega) (by omega),
          Nat.mod_eq_of_lt hfb.2.2.2, hzhead]
      · show ((h.upd (bp + 8) h.flist_head).upd h.flist_head bp).get z = some bp
        rw [← hzhead, get_upd_self _ _ _ (by rw [upd_lo]; omega)
            (by rw [upd_brk]; omega), Nat.mod_eq_of_lt (by omega)]
      · apply flinks_upd
        · apply flinks_upd
          · exact hlinks
          · intro w hw hc
            apply hbpnotin
            have : bp = w := by omega
            rw [this]
            exact hw
          · intro w hw
            have := hal w (List.mem_of_mem_tail hw)
            omega
        · intro w hw
          rw [hzhead]
          have := hal w hw
          omega
        · intro w hw
          rw [hzhead]
          simp only [List.tail_cons] at hw
          rw [List.nodup_cons] at hnodup
          intro hc
          rw [hc] at hnodup
          exact hnodup.1 hw
  · apply chainSeg_setFlh
    apply chainSeg_upd
    · apply chainSeg_upd
      · exact hch
      · intro b hb
        exact hbpsafe.2.2.2 b hb
    · intro b hb
      exact hfsafe.2.2.2 b hb
  · rw [setFlh_get, get_upd2_ne h _ _ _ _ _ (Ne.symm hbpsafe.1) (Ne.symm hfsafe.1)]
    exact hprolh
  · rw [setFlh_get, get_upd2_ne h _ _ _ _ _ (Ne.symm hbpsafe.2.1) (Ne.symm hfsafe.2.1)]
    exact hprolf
  · rw [setFlh_get,
      get_upd2_ne h _ _ _ _ _ (Ne.symm hbpsafe.2.2.1) (Ne.symm hfsafe.2.2.1)]
    exact hepi

/-- Specification of coalesce_finish: with the merged extent
[bp2, bp2 + size2) cut out of the chain between cs1 and cs2, it writes
the free header and footer of the merged block, pushes bp2 onto the
free list and returns bp2. -/
theorem coalesce_finish_spec (hm : Heap) (cs1 cs2 : List Blk)
    (bp2 size2 : Nat) (K : List Nat)
    (hlo : 0 < hm.lo) (hlo16 : 16 ∣ hm.lo) (hbrklt : hm.brk < 2 ^ 64)
    (hprol : hm.heap_prologue = hm.lo + 16)
    (hprolh : hm.get (hm.lo + 8) = some 33)
    (hprolf : hm.get (hm.lo + 32) = some 33)
    (hepi : hm.get (hm.brk - 8) = some 1)
    (hsz16 : 16 ∣ size2) (hsz32 : 32 ≤ size2)
    (hch1 : chainSeg hm (hm.lo + 48) cs1 bp2)
    (hch2 : chainSeg hm (bp2 + size2) cs2 hm.brk)
    (hhead : hm.flist_head = K.headD hm.heap_prologue)
    (hlinks : flinks hm K)
    (hnodup : K.Nodup)
    (hmap : ∀ z ∈ K, ∃ b, b ∈ cs1 ++ cs2 ∧ b.alloc = false ∧ b.addr = z)
    (hnotin : bp2 ∉ K) :
    ∃ h1, coalesce_finish hm bp2 size2 = some (bp2, h1) ∧
      h1.lo = hm.lo ∧ h1.brk = hm.brk ∧
      h1.heap_prologue = hm.heap_prologue ∧
      h1.flist_head = bp2 ∧
      flinks h1 (bp2 :: K) ∧
      chainSeg h1 (hm.lo + 48) (cs1 ++ Blk.mk bp2 size2 false :: cs2) hm.brk ∧
      h1.get (hm.lo + 8) = some 33 ∧ h1.get (hm.lo + 32) = some 33 ∧
      h1.get (hm.brk - 8) = some 1 ∧ h1.hmax = hm.hmax := by
  have hbp2lo : hm.lo + 48 ≤ bp2 := chainSeg_le hm _ _ _ hch1
  have hbp2hi : bp2 + size2 ≤ hm.brk := chainSeg_le hm _ _ _ hch2
  have hszlt : size2 < 2 ^ 64 := by omega
  have hcs1 : ∀ b ∈ cs1,
      hm.lo + 48 ≤ b.addr ∧ b.addr + b.size ≤ bp2 ∧ 32 ≤ b.size :=
    fun b hb => ⟨(chainSeg_mem hm _ _ _ b hch1 hb).1,
      (chainSeg_mem hm _ _ _ b hch1 hb).2,
      blkOK_size32 hm b (chainSeg_blkOK hm _ _ _ b hch1 hb)⟩
  have hcs2 : ∀ b ∈ cs2,
      bp2 + size2 ≤ b.addr ∧ b.addr + b.size ≤ hm.brk ∧ 32 ≤ b.size :=
    fun b hb => ⟨(chainSeg_mem hm _ _ _ b hch2 hb).1,
      (chainSeg_mem hm _ _ _ b hch2 hb).2,
      blkOK_size32 hm b (chainSeg_blkOK hm _ _ _ b hch2 hb)⟩
  -- the header write
  have hset1 : hm.set (HDRP bp2) (PACK size2 0) =
      some (hm.upd (bp2 - 8) size2) := by
    rw [pack_zero]
    show hm.set (bp2 - 8) size2 = _
    exact set_eq _ _ _ (by omega) (by omega)
  -- reading back the fresh header
  have hh3hdr : (hm.upd (bp2 - 8) size2).get (bp2 - 8) = some size2 := by
    rw [get_upd_self _ _ _ (by omega) (by omega), Nat.mod_eq_of_lt hszlt]
  have hgsz : GET_SIZE_W size2 = size2 := by
    have := GET_SIZE_W_pack size2 0 hsz16 hszlt (by omega)
    simpa using this
  have hgal : GET_ALLOC_W size2 = 0 := by
    have := GET_ALLOC_W_pack size2 0 hsz16 (by omega)
    simpa using this
  have hftrp : (hm.upd (bp2 - 8) size2).FTRP bp2 = some (bp2 + size2 - 16) := by
    simp only [Heap.FTRP, Heap.GET_SIZE, HDRP, hh3hdr, Option.map_some', hgsz]
  -- the footer write
  have hset2 : (hm.upd (bp2 - 8) size2).set (bp2 + size2 - 16) (PACK size2 0) =
      some ((hm.upd (bp2 - 8) size2).upd (bp2 + size2 - 16) size2) := by
    rw [pack_zero]
    exact set_eq _ _ _ (by show hm.lo ≤ _; omega) (by show _ ≤ hm.brk; omega)
  -- the heap after both writes
  have h4lo : ((hm.upd (bp2 - 8) size2).upd (bp2 + size2 - 16) size2).lo
      = hm.lo := rfl
  have h4brk : ((hm.upd (bp2 - 8) size2).upd (bp2 + size2 - 16) size2).brk
      = hm.brk := rfl
  have h4prol :
      ((hm.upd (bp2 - 8) size2).upd (bp2 + size2 - 16) size2).heap_prologue
      = hm.heap_prologue := rfl
  have h4flh :
      ((hm.upd (bp2 - 8) size2).upd (bp2 + size2 - 16) size2).flist_head
      = hm.flist_head := rfl
  -- chain pieces survive the two writes
  have hch1w : chainSeg ((hm.upd (bp2 - 8) size2).upd (bp2 + size2 - 16) size2)
      (hm.lo + 48) cs1 bp2 := by
    apply chainSeg_upd
    · apply chainSeg_upd _ _ _ _ _ _ hch1
      intro b hb
      have := hcs1 b hb
      omega
    · intro b hb
      have := hcs1 b hb
      omega
  have hch2w : chainSeg ((hm.upd (bp2 - 8) size2).upd (bp2 + size2 - 16) size2)
      (bp2 + size2) cs2 hm.brk := by
    apply chainSeg_upd
    · apply chainSeg_upd _ _ _ _ _ _ hch2
      intro b hb
      have := hcs2 b hb
      omega
    · intro b hb
      have := hcs2 b hb
      omega
  -- the merged block is laid out
  have hmOK : blkOK ((hm.upd (bp2 - 8) size2).upd (bp2 + size2 - 16) size2)
      (Blk.mk bp2 size2 false) := by
    refine ⟨?_, ?_, hsz16, hsz32⟩
    · show ((hm.upd (bp2 - 8) size2).upd (bp2 + size2 - 16) size2).get (bp2 - 8)
        = some (hdrWord (Blk.mk bp2 size2 false))
      rw [get_upd_ne _ _ _ _ (by omega)]
      simpa [hdrWord] using hh3hdr
    · show ((hm.upd (bp2 - 8) size2).upd (bp2 + size2 - 16) size2).get
        (bp2 + size2 - 16) = some (hdrWord (Blk.mk bp2 size2 false))
      rw [get_upd_self _ _ _ (by show hm.lo ≤ _; omega) (by show _ ≤ hm.brk; omega),
        Nat.mod_eq_of_lt hszlt]
      simp [hdrWord]
  have hchainfull :
      chainSeg ((hm.upd (bp2 - 8) size2).upd (bp2 + size2 - 16) size2)
        (hm.lo + 48) (cs1 ++ Blk.mk bp2 size2 false :: cs2) hm.brk := by
    rw [chainSeg_append]
    exact ⟨bp2, hch1w, rfl, hmOK, hch2w⟩
  -- free-list nodes are far from both writes
  have hKgeom : ∀ z ∈ K,
      (z + 32 ≤ bp2 ∨ bp2 + size2 ≤ z) ∧ hm.lo + 48 ≤ z ∧ z + 32 ≤ hm.brk := by
    intro z hz
    obtain ⟨b, hb, -, rfl⟩ := hmap z hz
    rcases List.mem_append.mp hb with hb1 | hb2
    · have := hcs1 b hb1
      omega
    · have := hcs2 b hb2
      omega
  have hlinks4 : flinks ((hm.upd (bp2 - 8) size2).upd (bp2 + size2 - 16) size2)
      K := by
    apply flinks_upd
    · apply flinks_upd _ _ _ _ hlinks
      · intro x hx
        have := hKgeom x hx
        omega
      · intro x hx
        have := hKgeom x (List.mem_of_mem_tail hx)
        omega
    · intro x hx
      have := hKgeom x hx
      omega
    · intro x hx
      have := hKgeom x (List.mem_of_mem_tail hx)
      omega
  -- prologue and epilogue survive the two writes
  have hprolh4 : ((hm.upd (bp2 - 8) size2).upd (bp2 + size2 - 16) size2).get
      (hm.lo + 8) = some 33 := by
    rw [get_upd2_ne _ _ _ _ _ _ (by omega) (by omega)]
    exact hprolh
  have hprolf4 : ((hm.upd (bp2 - 8) size2).upd (bp2 + size2 - 16) size2).get
      (hm.lo + 32) = some 33 := by
    rw [get_upd2_ne _ _ _ _ _ _ (by omega) (by omega)]
    exact hprolf
  have hepi4 : ((hm.upd (bp2 - 8) size2).upd (bp2 + size2 - 16) size2).get
      (hm.brk - 8) = some 1 := by
    rw [get_upd2_ne _ _ _ _ _ _ (by omega) (by omega)]
    exact hepi
  -- the fresh header as seen by flist_add
  have hbph4 : ((hm.upd (bp2 - 8) size2).upd (bp2 + size2 - 16) size2).get
      (bp2 - 8) = some size2 := by
    rw [get_upd_ne _ _ _ _ (by omega)]
    exact hh3hdr
  have hmap4 : ∀ z ∈ K, ∃ b,
      b ∈ cs1 ++ Blk.mk bp2 size2 false :: cs2 ∧ b.alloc = false ∧ b.addr = z := by
    intro z hz
    obtain ⟨b, hb, hbf, rfl⟩ := hmap z hz
    rcases List.mem_append.mp hb with hb1 | hb2
    · exact ⟨b, List.mem_append_left _ hb1, hbf, rfl⟩
    · exact ⟨b, List.mem_append_right _ (List.mem_cons_of_mem _ hb2), hbf, rfl⟩
  obtain ⟨h5, hadd, e_lo, e_brk, e_prol, e_flh, e_links, e_chain, e_ph, e_pf,
      e_epi, e_hm⟩ :=
    flist_add_node ((hm.upd (bp2 - 8) size2).upd (bp2 + size2 - 16) size2)
      (cs1 ++ Blk.mk bp2 size2 false :: cs2) K bp2 size2
      hchainfull hlo hlo16 hbrklt (h4prol.trans hprol) hprolh4 hprolf4 hepi4
      (hhead.trans (by rw [h4prol])) hlinks4 hnodup hmap4 hbph4 hgal
      ⟨Blk.mk bp2 size2 false,
        List.mem_append_right _ (List.mem_cons_self _ _), rfl⟩
      hnotin
  refine ⟨h5, ?_, e_lo.trans h4lo, e_brk.trans h4brk, e_prol.trans h4prol,
    e_flh, e_links, e_chain, e_ph, e_pf, e_epi, e_hm⟩
  simp only [coalesce_finish, Option.bind_eq_bind]
  rw [hset1, Option.some_bind, hftrp, Option.some_bind, hset2, Option.some_bind,
    hadd, Option.some_bind]

theorem freeLast_nil : freeLast [] = [] := rfl

theorem freeLast_concat_true (u : List Blk) (p : Blk) (hp : p.alloc = true) :
    freeLast (u ++ [p]) = [] := by
  simp [freeLast, List.getLast?_concat, hp]

theorem freeLast_concat_false (u : List Blk) (p : Blk) (hp : p.alloc = false) :
    freeLast (u ++ [p]) = [p] := by
  simp [freeLast, List.getLast?_concat, hp]

theorem freeHead_nil : freeHead [] = [] := rfl

theorem freeHead_cons_true (n : Blk) (v : List Blk) (hn : n.alloc = true) :
    freeHead (n :: v) = [] := by
  simp [freeHead, hn]

theorem freeHead_cons_false (n : Blk) (v : List Blk) (hn : n.alloc = false) :
    freeHead (n :: v) = [n] := by
  simp [freeHead, hn]

/-- Reading the physical predecessor of the cursor bp through the
footer at bp - 16, exactly as PREV_BLKP does: either the chain before
bp ends in an allocated block (or is empty, exposing the allocated
prologue), or it ends in a free block whose data the read returns. -/
theorem coalesce_prev_data (h : Heap) (bs1 : List Blk) (bp : Nat)
    (hch : chainSeg h (h.lo + 48) bs1 bp)
    (hprolh : h.get (h.lo + 8) = some 33)
    (hprolf : h.get (h.lo + 32) = some 33) :
    (freeLast bs1 = [] ∧ ∃ pb, h.PREV_BLKP bp = some pb ∧
      h.GET_ALLOC (HDRP pb) = some 1) ∨
    (∃ bs1' p, bs1 = bs1' ++ [p] ∧ p.alloc = false ∧ freeLast bs1 = [p] ∧
      h.PREV_BLKP bp = some p.addr ∧
      h.GET_ALLOC (HDRP p.addr) = some 0 ∧
      h.GET_SIZE (HDRP p.addr) = some p.size ∧
      blkOK h p ∧ p.addr + p.size = bp ∧
      chainSeg h (h.lo + 48) bs1' p.addr) := by
  have h33s : GET_SIZE_W 33 = 32 := by
    have := GET_SIZE_W_pack 32 1 (by norm_num) (by norm_num) (le_refl 1)
    simpa using this
  have h33a : GET_ALLOC_W 33 = 1 := by
    have := GET_ALLOC_W_pack 32 1 (by norm_num) (le_refl 1)
    simpa using this
  rcases List.eq_nil_or_concat bs1 with rfl | ⟨bs1', p, hcat⟩
  · left
    have hbp : bp = h.lo + 48 := hch
    subst hbp
    refine ⟨rfl, h.lo + 16, ?_, ?_⟩
    · rw [Heap.PREV_BLKP, show h.lo + 48 - 16 = h.lo + 32 from by omega,
        Heap.GET_SIZE, hprolf, Option.map_some', Option.map_some', h33s]
      rw [show h.lo + 48 - 32 = h.lo + 16 from by omega]
    · rw [Heap.GET_ALLOC, show HDRP (h.lo + 16) = h.lo + 8 from by
        simp only [HDRP]; omega, hprolh, Option.map_some', h33a]
  · rw [List.concat_eq_append] at hcat
    subst hcat
    obtain ⟨mid, hch1, hch2⟩ := (chainSeg_append h bs1' [p] _ _).mp hch
    obtain ⟨hpm, hpok, hrest⟩ := hch2
    have hbp : bp = mid + p.size := hrest
    have hmem := chainSeg_mem h _ _ _ p hch (List.mem_append_right _
      (List.mem_cons_self p []))
    have h32 := blkOK_size32 h p hpok
    have hf := hdr_facts h p hpok
    have hfoot : h.get (bp - 16) = some (hdrWord p) := by
      rw [show bp - 16 = p.addr + p.size - 16 from by omega]
      exact hpok.2.1
    have hpb : h.PREV_BLKP bp = some p.addr := by
      rw [Heap.PREV_BLKP, Heap.GET_SIZE, hfoot, Option.map_some',
        Option.map_some', hf.1, show bp - p.size = p.addr from by omega]
    have hhd : h.get (HDRP p.addr) = some (hdrWord p) := hpok.1
    cases hpa : p.alloc with
    | true =>
      left
      refine ⟨freeLast_concat_true bs1' p hpa, p.addr, hpb, ?_⟩
      rw [Heap.GET_ALLOC, hhd, Option.map_some', hf.2]
      simp [hpa]
    | false =>
      right
      refine ⟨bs1', p, rfl, hpa, freeLast_concat_false bs1' p hpa, hpb, ?_, ?_,
        hpok, by omega, ?_⟩
      · rw [Heap.GET_ALLOC, hhd, Option.map_some', hf.2]
        simp [hpa]
      · rw [Heap.GET_SIZE, hhd, Option.map_some', hf.1]
      · rw [hpm]
        exact hch1

/-- Reading the physical successor at the cursor c through the header
at c - 8: either the chain after c starts with an allocated block (or
is empty, exposing the allocated epilogue), or it starts with a free
block whose data the read returns. -/
theorem coalesce_next_data (h : Heap) (bs2 : List Blk) (c : Nat)
    (hch : chainSeg h c bs2 h.brk)
    (hepi : h.get (h.brk - 8) = some 1) :
    (freeHead bs2 = [] ∧ h.GET_ALLOC (HDRP c) = some 1) ∨
    (∃ n bs2', bs2 = n :: bs2' ∧ n.alloc = false ∧ freeHead bs2 = [n] ∧
      n.addr = c ∧ h.GET_ALLOC (HDRP c) = some 0 ∧
      h.GET_SIZE (HDRP c) = some n.size ∧ blkOK h n ∧
      chainSeg h (c + n.size) bs2' h.brk) := by
  have h1a : GET_ALLOC_W 1 = 1 := by
    have := GET_ALLOC_W_pack 0 1 (by norm_num) (le_refl 1)
    simpa using this
  cases bs2 with
  | nil =>
    left
    have hc : h.brk = c := hch
    refine ⟨rfl, ?_⟩
    rw [Heap.GET_ALLOC, show HDRP c = h.brk - 8 from by rw [HDRP, hc], hepi,
      Option.map_some', h1a]
  | cons n bs2' =>
    obtain ⟨hna, hnok, hrest⟩ := hch
    have hf := hdr_facts h n hnok
    have hhd : h.get (HDRP c) = some (hdrWord n) := by
      rw [show HDRP c = n.addr - 8 from by rw [HDRP, hna]]
      exact hnok.1
    cases hpa : n.alloc with
    | true =>
      left
      refine ⟨freeHead_cons_true n bs2' hpa, ?_⟩
      rw [Heap.GET_ALLOC, hhd, Option.map_some', hf.2]
      simp [hpa]
    | false =>
      right
      refine ⟨n, bs2', rfl, hpa, freeHead_cons_false n bs2' hpa, hna, ?_, ?_,
        hnok, hrest⟩
      · rw [Heap.GET_ALLOC, hhd, Option.map_some', hf.2]
        simp [hpa]
      · rw [Heap.GET_SIZE, hhd, Option.map_some', hf.1]

/-- Full specification of coalesce under its precondition: it merges
the free neighbors into one free block, removes them from the free
list, pushes the merged block at the head and returns its pointer. -/
theorem coalesce_spec (h : Heap) (bs1 : List Blk) (x : Blk) (bs2 : List Blk)
    (L : List Nat) (hpre : CoalPre h bs1 x bs2 L) :
    ∃ h2, coalesce h x.addr = some ((coalMerged bs1 x bs2).addr, h2) ∧
      h2.lo = h.lo ∧ h2.brk = h.brk ∧ h2.heap_prologue = h.heap_prologue ∧
      h2.flist_head = (coalMerged bs1 x bs2).addr ∧
      flinks h2 ((coalMerged bs1 x bs2).addr :: coalL bs1 bs2 L) ∧
      chainSeg h2 (h.lo + 48) (coalBs bs1 x bs2) h.brk ∧
      h2.get (h.lo + 8) = some 33 ∧ h2.get (h.lo + 32) = some 33 ∧
      h2.get (h.brk - 8) = some 1 ∧ h2.hmax = h.hmax := by
  obtain ⟨hlo16, hlo, hbrklt, hprol, hprolh, hprolf, hepi, hch, hxfree, hadj1,
    hadj2, hhead, hlinks, hnodup, hperm⟩ := hpre
  obtain ⟨mid, hchA, hchcons⟩ := (chainSeg_append h bs1 (x :: bs2) _ _).mp hch
  obtain ⟨hxm, hxok, hchB⟩ := hchcons
  subst hxm
  have hxA : h.lo + 48 ≤ x.addr := chainSeg_le h _ _ _ hchA
  have hxB : x.addr + x.size ≤ h.brk := chainSeg_le h _ _ _ hchB
  have hx32 : 32 ≤ x.size := blkOK_size32 h x hxok
  have hx16 : 16 ∣ x.size := blkOK_size16 h x hxok
  have hxf := hdr_facts h x hxok
  have hxw : hdrWord x = x.size := by rw [hdrWord, hxfree]; rfl
  have hxhdr : h.get (x.addr - 8) = some x.size := by rw [← hxw]; exact hxok.1
  have hgax : GET_ALLOC_W x.size = 0 := by
    have h2 := hxf.2
    rw [hxw, hxfree] at h2
    simpa using h2
  have hgsx : GET_SIZE_W x.size = x.size := by
    have h2 := hxf.1
    rw [hxw] at h2
    exact h2
  have ha0 : h.GET_ALLOC (HDRP x.addr) = some 0 := by
    rw [Heap.GET_ALLOC, HDRP, hxhdr, Option.map_some', hgax]
  have hszx : h.GET_SIZE (HDRP x.addr) = some x.size := by
    rw [Heap.GET_SIZE, HDRP, hxhdr, Option.map_some', hgsx]
  have hnbx : h.NEXT_BLKP x.addr = some (x.addr + x.size) := by
    rw [Heap.NEXT_BLKP, hszx, Option.map_some']
  have hLmem : ∀ z ∈ L, ∃ b, b ∈ bs1 ++ bs2 ∧ b.alloc = false ∧ b.addr = z := by
    intro z hz
    have hz2 := hperm.mem_iff.mp hz
    obtain ⟨b, hb, rfl⟩ := List.mem_map.mp hz2
    have hb2 := List.mem_filter.mp hb
    exact ⟨b, hb2.1, by simpa using hb2.2, rfl⟩
  have haddrL : ∀ b ∈ bs1 ++ bs2, b.alloc = false → b.addr ∈ L :=
    fun b hb hf => hperm.mem_iff.mpr
      (List.mem_map_of_mem _ (List.mem_filter.mpr ⟨hb, by simp [hf]⟩))
  have hmapC : ∀ z ∈ L, ∃ b, b ∈ bs1 ++ x :: bs2 ∧ b.alloc = false ∧
      b.addr = z := by
    intro z hz
    obtain ⟨b, hb, hbf, rfl⟩ := hLmem z hz
    rcases List.mem_append.mp hb with h1m | h2m
    · exact ⟨b, List.mem_append_left _ h1m, hbf, rfl⟩
    · exact ⟨b, List.mem_append_right _ (List.mem_cons_of_mem _ h2m), hbf, rfl⟩
  have hxnotL : x.addr ∉ L := by
    intro hc
    obtain ⟨b, hb, -, hbz⟩ := hLmem _ hc
    rcases List.mem_append.mp hb with h1m | h2m
    · have hm1 := chainSeg_mem h _ _ _ b hchA h1m
      have hm2 := blkOK_size32 h b (chainSeg_blkOK h _ _ _ b hchA h1m)
      omega
    · have hm1 := chainSeg_mem h _ _ _ b hchB h2m
      have hm2 := blkOK_size32 h b (chainSeg_blkOK h _ _ _ b hchB h2m)
      omega
  rcases coalesce_prev_data h bs1 x.addr hchA hprolh hprolf with
    ⟨hfl, pb, hpb, hpa⟩ |
    ⟨bs1', p, rfl, hpfree, hfl, hpb, hpa0, hps, hpok, hpadj, hchA'⟩
  · rcases coalesce_next_data h bs2 (x.addr + x.size) hchB hepi with
      ⟨hfh, hna⟩ |
      ⟨n, bs2', rfl, hnfree, hfh, hnaddr, hna0, hns, hnok, hchB'⟩
    · -- neither neighbor free: no merge
      obtain ⟨h1, hfin, f_lo, f_brk, f_prol, f_flh, f_links, f_chain, f_ph,
          f_pf, f_epi, f_hm⟩ :=
        coalesce_finish_spec h bs1 bs2 x.addr x.size L hlo hlo16 hbrklt hprol
          hprolh hprolf hepi hx16 hx32 hchA hchB hhead hlinks hnodup hLmem
          hxnotL
      have hcm : coalMerged bs1 x bs2 = Blk.mk x.addr x.size false := by
        simp [coalMerged, hfl, hfh]
      have hbs : coalBs bs1 x bs2 = bs1 ++ Blk.mk x.addr x.size false :: bs2 := by
        simp [coalBs, hcm, hfl, hfh]
      have hLeq : coalL bs1 bs2 L = L := by
        simp [coalL, hfl, hfh]
      refine ⟨h1, ?_, f_lo, f_brk, f_prol, by rw [hcm]; exact f_flh, ?_, ?_,
        f_ph, f_pf, f_epi, f_hm⟩
      · rw [hcm]
        show coalesce h x.addr = some (x.addr, h1)
        simp only [coalesce, Option.bind_eq_bind]
        rw [ha0, Option.some_bind, if_neg (by decide : ¬((0 : Nat) ≠ 0)), hpb,
          Option.some_bind, hpa, Option.some_bind, hnbx, Option.some_bind,
          hna, Option.some_bind, hszx, Option.some_bind,
          if_neg (by decide : ¬((1 : Nat) ≠ 0 ∧ (1 : Nat) = 0)),
          if_neg (by decide : ¬((1 : Nat) = 0 ∧ (1 : Nat) ≠ 0)),
          if_neg (by decide : ¬((1 : Nat) = 0 ∧ (1 : Nat) = 0)),
          Option.some_bind]
        exact hfin
      · rw [hcm, hLeq]
        exact f_links
      · rw [hbs]
        exact f_chain
    · -- only the next neighbor free: merge forward
      have hnL : n.addr ∈ L :=
        haddrL n (List.mem_append_right _ (List.mem_cons_self _ _)) hnfree
      obtain ⟨h1, hrem, r_lo, r_brk, r_prol, r_flh, r_links, r_chain, r_ph,
          r_pf, r_epi, r_hm⟩ :=
        flist_remove_node h (bs1 ++ x :: n :: bs2') L n.addr hch hlo hlo16
          hbrklt hprol hprolh hprolf hepi hhead hlinks hnodup hmapC hnL
      obtain ⟨mid1, hA1, hcons1⟩ :=
        (chainSeg_append h1 bs1 (x :: n :: bs2') _ _).mp r_chain
      obtain ⟨hxm1, hxok1, hcons2⟩ := hcons1
      subst hxm1
      obtain ⟨hnm1, hnok1, hB1⟩ := hcons2
      have f1 : 0 < h1.lo := by rw [r_lo]; exact hlo
      have f2 : 16 ∣ h1.lo := by rw [r_lo]; exact hlo16
      have f3 : h1.brk < 2 ^ 64 := by rw [r_brk]; exact hbrklt
      have f4 : h1.heap_prologue = h1.lo + 16 := by
        rw [r_prol, r_lo]; exact hprol
      have f5 : h1.get (h1.lo + 8) = some 33 := by rw [r_lo]; exact r_ph
      have f6 : h1.get (h1.lo + 32) = some 33 := by rw [r_lo]; exact r_pf
      have f7 : h1.get (h1.brk - 8) = some 1 := by rw [r_brk]; exact r_epi
      have f8 : chainSeg h1 (h1.lo + 48) bs1 x.addr := by
        rw [r_lo]; exact hA1
      have f9 : chainSeg h1 (x.addr + (x.size + n.size)) bs2' h1.brk := by
        rw [r_brk, ← Nat.add_assoc]
        exact hB1
      have f10 : h1.flist_head = (L.erase n.addr).headD h1.heap_prologue := by
        rw [r_prol]; exact r_flh
      have f11 : (L.erase n.addr).Nodup := hnodup.erase _
      have f12 : ∀ z ∈ L.erase n.addr, ∃ b, b ∈ bs1 ++ bs2' ∧
          b.alloc = false ∧ b.addr = z := by
        intro z hz
        have hzL : z ∈ L := List.mem_of_mem_erase hz
        have hzne : z ≠ n.addr := (hnodup.mem_erase_iff.mp hz).1
        obtain ⟨b, hb, hbf, rfl⟩ := hLmem z hzL
        rcases List.mem_append.mp hb with h1m | h2m
        · exact ⟨b, List.mem_append_left _ h1m, hbf, rfl⟩
        · rcases List.mem_cons.mp h2m with rfl | h3m
          · exact absurd rfl hzne
          · exact ⟨b, List.mem_append_right _ h3m, hbf, rfl⟩
      have f13 : x.addr ∉ L.erase n.addr :=
        fun hc => hxnotL (List.mem_of_mem_erase hc)
      obtain ⟨h2, hfin, g_lo, g_brk, g_prol, g_flh, g_links, g_chain, g_ph,
          g_pf, g_epi, g_hm⟩ :=
        coalesce_finish_spec h1 bs1 bs2' x.addr (x.size + n.size)
          (L.erase n.addr) f1 f2 f3 f4 f5 f6 f7
          (Nat.dvd_add hx16 (blkOK_size16 h n hnok)) (by omega) f8 f9 f10
          r_links f11 f12 f13
      have harm : coalesce_merge_next h x.addr x.size =
          some (x.addr, x.size + n.size, h1) := by
        simp only [coalesce_merge_next, Option.bind_eq_bind]
        rw [hnbx, Option.some_bind, hns, Option.some_bind, Option.some_bind,
          show flist_remove h (x.addr + x.size) = some h1 from by
            rw [← hnaddr]; exact hrem,
          Option.some_bind]
      have hcm : coalMerged bs1 x (n :: bs2') =
          Blk.mk x.addr (x.size + n.size) false := by
        simp [coalMerged, hfl, hfh]
      have hbs : coalBs bs1 x (n :: bs2') =
          bs1 ++ Blk.mk x.addr (x.size + n.size) false :: bs2' := by
        simp [coalBs, hcm, hfl, hfh]
      have hLeq : coalL bs1 (n :: bs2') L = L.erase n.addr := by
        simp [coalL, hfl, hfh]
      rw [r_lo] at g_lo
      rw [r_brk] at g_brk
      rw [r_prol] at g_prol
      rw [r_lo] at g_ph g_pf g_chain
      rw [r_brk] at g_epi g_chain
      refine ⟨h2, ?_, g_lo, g_brk, g_prol, by rw [hcm]; exact g_flh, ?_, ?_,
        g_ph, g_pf, g_epi, g_hm.trans r_hm⟩
      · rw [hcm]
        show coalesce h x.addr = some (x.addr, h2)
        simp only [coalesce, Option.bind_eq_bind]
        rw [ha0, Option.some_bind, if_neg (by decide : ¬((0 : Nat) ≠ 0)), hpb,
          Option.some_bind, hpa, Option.some_bind, hnbx, Option.some_bind,
          hna0, Option.some_bind, hszx, Option.some_bind,
          if_pos (by decide : (1 : Nat) ≠ 0 ∧ (0 : Nat) = 0), harm,
          Option.some_bind]
        exact hfin
      · rw [hcm, hLeq]
        exact g_links
      · rw [hbs]
        exact g_chain
  · rcases coalesce_next_data h bs2 (x.addr + x.size) hchB hepi with
      ⟨hfh, hna⟩ |
      ⟨n, bs2', rfl, hnfree, hfh, hnaddr, hna0, hns, hnok, hchB'⟩
    · -- only the previous neighbor free: merge backward
      have hpL : p.addr ∈ L :=
        haddrL p (List.mem_append_left _
          (List.mem_append_right _ (List.mem_cons_self _ _))) hpfree
      obtain ⟨h1, hrem, r_lo, r_brk, r_prol, r_flh, r_links, r_chain, r_ph,
          r_pf, r_epi, r_hm⟩ :=
        flist_remove_node h ((bs1' ++ [p]) ++ x :: bs2) L p.addr hch hlo hlo16
          hbrklt hprol hprolh hprolf hepi hhead hlinks hnodup hmapC hpL
      obtain ⟨mid1, hA1, hcons1⟩ :=
        (chainSeg_append h1 (bs1' ++ [p]) (x :: bs2) _ _).mp r_chain
      obtain ⟨hxm1, hxok1, hB1⟩ := hcons1
      subst hxm1
      obtain ⟨mid2, hA2, hp1⟩ := (chainSeg_append h1 bs1' [p] _ _).mp hA1
      obtain ⟨hpm2, hpok1, hrest2⟩ := hp1
      subst hpm2
      have hp32 := blkOK_size32 h p hpok
      have hfoot1 : h1.get (x.addr - 16) = some (hdrWord p) := by
        rw [show x.addr - 16 = p.addr + p.size - 16 from by omega]
        exact hpok1.2.1
      have hpw := hdr_facts h1 p hpok1
      have hpb1 : h1.PREV_BLKP x.addr = some p.addr := by
        rw [Heap.PREV_BLKP, Heap.GET_SIZE, hfoot1, Option.map_some',
          Option.map_some', hpw.1, show x.addr - p.size = p.addr from by omega]
      have f1 : 0 < h1.lo := by rw [r_lo]; exact hlo
      have f2 : 16 ∣ h1.lo := by rw [r_lo]; exact hlo16
      have f3 : h1.brk < 2 ^ 64 := by rw [r_brk]; exact hbrklt
      have f4 : h1.heap_prologue = h1.lo + 16 := by
        rw [r_prol, r_lo]; exact hprol
      have f5 : h1.get (h1.lo + 8) = some 33 := by rw [r_lo]; exact r_ph
      have f6 : h1.get (h1.lo + 32) = some 33 := by rw [r_lo]; exact r_pf
      have f7 : h1.get (h1.brk - 8) = some 1 := by rw [r_brk]; exact r_epi
      have f8 : chainSeg h1 (h1.lo + 48) bs1' p.addr := by
        rw [r_lo]; exact hA2
      have f9 : chainSeg h1 (p.addr + (x.size + p.size)) bs2 h1.brk := by
        rw [r_brk,
          show p.addr + (x.size + p.size) = x.addr + x.size from by omega]
        exact hB1
      have f10 : h1.flist_head = (L.erase p.addr).headD h1.heap_prologue := by
        rw [r_prol]; exact r_flh
      have f11 : (L.erase p.addr).Nodup := hnodup.erase _
      have f12 : ∀ z ∈ L.erase p.addr, ∃ b, b ∈ bs1' ++ bs2 ∧
          b.alloc = false ∧ b.addr = z := by
        intro z hz
        have hzL : z ∈ L := List.mem_of_mem_erase hz
        have hzne : z ≠ p.addr := (hnodup.mem_erase_iff.mp hz).1
        obtain ⟨b, hb, hbf, rfl⟩ := hLmem z hzL
        rcases List.mem_append.mp hb with h1m | h2m
        · rcases List.mem_append.mp h1m with h3m | h4m
          · exact ⟨b, List.mem_append_left _ h3m, hbf, rfl⟩
          · have hbp3 : b = p := List.mem_singleton.mp h4m
            subst hbp3
            exact absurd rfl hzne
        · exact ⟨b, List.mem_append_right _ h2m, hbf, rfl⟩
      have f13 : p.addr ∉ L.erase p.addr :=
        fun hc => (hnodup.mem_erase_iff.mp hc).1 rfl
      obtain ⟨h2, hfin, g_lo, g_brk, g_prol, g_flh, g_links, g_chain, g_ph,
          g_pf, g_epi, g_hm⟩ :=
        coalesce_finish_spec h1 bs1' bs2 p.addr (x.size + p.size)
          (L.erase p.addr) f1 f2 f3 f4 f5 f6 f7
          (Nat.dvd_add hx16 (blkOK_size16 h p hpok)) (by omega) f8 f9 f10
          r_links f11 f12 f13
      have harm : coalesce_merge_prev h x.addr x.size =
          some (p.addr, x.size + p.size, h1) := by
        simp only [coalesce_merge_prev, Option.bind_eq_bind]
        rw [hpb, Option.some_bind, hps, Option.some_bind, Option.some_bind,
          hrem, Option.some_bind, hpb1, Option.some_bind]
      have hcm : coalMerged (bs1' ++ [p]) x bs2 =
          Blk.mk p.addr (x.size + p.size) false := by
        simp [coalMerged, hfl, hfh]
      have hbs : coalBs (bs1' ++ [p]) x bs2 =
          bs1' ++ Blk.mk p.addr (x.size + p.size) false :: bs2 := by
        simp [coalBs, hcm, hfl, hfh, List.take_left]
      have hLeq : coalL (bs1' ++ [p]) bs2 L = L.erase p.addr := by
        simp [coalL, hfl, hfh]
      rw [r_lo] at g_lo
      rw [r_brk] at g_brk
      rw [r_prol] at g_prol
      rw [r_lo] at g_ph g_pf g_chain
      rw [r_brk] at g_epi g_chain
      refine ⟨h2, ?_, g_lo, g_brk, g_prol, by rw [hcm]; exact g_flh, ?_, ?_,
        g_ph, g_pf, g_epi, g_hm.trans r_hm⟩
      · rw [hcm]
        show coalesce h x.addr = some (p.addr, h2)
        simp only [coalesce, Option.bind_eq_bind]
        rw [ha0, Option.some_bind, if_neg (by decide : ¬((0 : Nat) ≠ 0)), hpb,
          Option.some_bind, hpa0, Option.some_bind, hnbx, Option.some_bind,
          hna, Option.some_bind, hszx, Option.some_bind,
          if_neg (by decide : ¬((0 : Nat) ≠ 0 ∧ (1 : Nat) = 0)),
          if_pos (by decide : (0 : Nat) = 0 ∧ (1 : Nat) ≠ 0), harm,
          Option.some_bind]
        exact hfin
      · rw [hcm, hLeq]
        exact g_links
      · rw [hbs]
        exact g_chain
    · -- both neighbors free
      have hp32 := blkOK_size32 h p hpok
      have hpL : p.addr ∈ L :=
        haddrL p (List.mem_append_left _
          (List.mem_append_right _ (List.mem_cons_self _ _))) hpfree
      have hnL : n.addr ∈ L :=
        haddrL n (List.mem_append_right _ (List.mem_cons_self _ _)) hnfree
      have hpn : p.addr ≠ n.addr := by omega
      obtain ⟨h1, hrem1, r_lo, r_brk, r_prol, r_flh, r_links, r_chain, r_ph,
          r_pf, r_epi, r_hm⟩ :=
        flist_remove_node h ((bs1' ++ [p]) ++ x :: n :: bs2') L p.addr hch hlo
          hlo16 hbrklt hprol hprolh hprolf hepi hhead hlinks hnodup hmapC hpL
      have f1 : 0 < h1.lo := by rw [r_lo]; exact hlo
      have f2 : 16 ∣ h1.lo := by rw [r_lo]; exact hlo16
      have f3 : h1.brk < 2 ^ 64 := by rw [r_brk]; exact hbrklt
      have f4 : h1.heap_prologue = h1.lo + 16 := by
        rw [r_prol, r_lo]; exact hprol
      have f5 : h1.get (h1.lo + 8) = some 33 := by rw [r_lo]; exact r_ph
      have f6 : h1.get (h1.lo + 32) = some 33 := by rw [r_lo]; exact r_pf
      have f7 : h1.get (h1.brk - 8) = some 1 := by rw [r_brk]; exact r_epi
      have fch : chainSeg h1 (h1.lo + 48) ((bs1' ++ [p]) ++ x :: n :: bs2')
          h1.brk := by
        rw [r_lo, r_brk]; exact r_chain
      have f10 : h1.flist_head = (L.erase p.addr).headD h1.heap_prologue := by
        rw [r_prol]; exact r_flh
      have f11 : (L.erase p.addr).Nodup := hnodup.erase _
      have fmap1 : ∀ z ∈ L.erase p.addr, ∃ b,
          b ∈ (bs1' ++ [p]) ++ x :: n :: bs2' ∧ b.alloc = false ∧ b.addr = z :=
        fun z hz => hmapC z (List.mem_of_mem_erase hz)
      have hnL1 : n.addr ∈ L.erase p.addr :=
        (List.Nodup.mem_erase_iff hnodup).mpr ⟨fun hc => hpn hc.symm, hnL⟩
      obtain ⟨hr2, hrem2, s_lo, s_brk, s_prol, s_flh, s_links, s_chain, s_ph,
          s_pf, s_epi, s_hm⟩ :=
        flist_remove_node h1 ((bs1' ++ [p]) ++ x :: n :: bs2')
          (L.erase p.addr) n.addr fch f1 f2 f3 f4 f5 f6 f7 f10 r_links f11
          fmap1 hnL1
      obtain ⟨mid1, hA1, hcons1⟩ :=
        (chainSeg_append hr2 (bs1' ++ [p]) (x :: n :: bs2') _ _).mp s_chain
      obtain ⟨hxm1, hxok2, hcons2⟩ := hcons1
      subst hxm1
      obtain ⟨hnm1, hnok2, hB2⟩ := hcons2
      obtain ⟨mid2, hA2, hp1⟩ := (chainSeg_append hr2 bs1' [p] _ _).mp hA1
      obtain ⟨hpm2, hpok2, hrest2⟩ := hp1
      subst hpm2
      have hxok1 : blkOK h1 x :=
        chainSeg_blkOK h1 _ _ _ x r_chain
          (List.mem_append_right _ (List.mem_cons_self _ _))
      have hxhdr1 : h1.get (x.addr - 8) = some x.size := by
        rw [← hxw]; exact hxok1.1
      have hszx1 : h1.GET_SIZE (HDRP x.addr) = some x.size := by
        rw [Heap.GET_SIZE, HDRP, hxhdr1, Option.map_some', hgsx]
      have hnb1 : h1.NEXT_BLKP x.addr = some (x.addr + x.size) := by
        rw [Heap.NEXT_BLKP, hszx1, Option.map_some']
      have hfoot2 : hr2.get (x.addr - 16) = some (hdrWord p) := by
        rw [show x.addr - 16 = p.addr + p.size - 16 from by omega]
        exact hpok2.2.1
      have hpw2 := hdr_facts hr2 p hpok2
      have hpb2 : hr2.PREV_BLKP x.addr = some p.addr := by
        rw [Heap.PREV_BLKP, Heap.GET_SIZE, hfoot2, Option.map_some',
          Option.map_some', hpw2.1, show x.addr - p.size = p.addr from by omega]
      have harm : coalesce_merge_both h x.addr x.size =
          some (p.addr, x.size + (p.size + n.size), hr2) := by
        simp only [coalesce_merge_both, Option.bind_eq_bind]
        rw [hpb, Option.some_bind, hps, Option.some_bind, hnbx,
          Option.some_bind, hns, Option.some_bind, Option.some_bind,
          hrem1, Option.some_bind, hnb1, Option.some_bind,
          show flist_remove h1 (x.addr + x.size) = some hr2 from by
            rw [← hnaddr]; exact hrem2,
          Option.some_bind, hpb2, Option.some_bind]
      have g1 : 0 < hr2.lo := by rw [s_lo]; exact f1
      have g2 : 16 ∣ hr2.lo := by rw [s_lo]; exact f2
      have g3 : hr2.brk < 2 ^ 64 := by rw [s_brk]; exact f3
      have g4 : hr2.heap_prologue = hr2.lo + 16 := by
        rw [s_prol, s_lo]; exact f4
      have g5 : hr2.get (hr2.lo + 8) = some 33 := by rw [s_lo]; exact s_ph
      have g6 : hr2.get (hr2.lo + 32) = some 33 := by rw [s_lo]; exact s_pf
      have g7 : hr2.get (hr2.brk - 8) = some 1 := by rw [s_brk]; exact s_epi
      have g8 : chainSeg hr2 (hr2.lo + 48) bs1' p.addr := by
        rw [s_lo]; exact hA2
      have g9 : chainSeg hr2 (p.addr + (x.size + (p.size + n.size))) bs2'
          hr2.brk := by
        rw [s_brk,
          show p.addr + (x.size + (p.size + n.size)) = x.addr + x.size + n.size
            from by omega]
        exact hB2
      have g10 : hr2.flist_head =
          ((L.erase p.addr).erase n.addr).headD hr2.heap_prologue := by
        rw [s_prol]; exact s_flh
      have g11 : ((L.erase p.addr).erase n.addr).Nodup := f11.erase _
      have g12 : ∀ z ∈ (L.erase p.addr).erase n.addr, ∃ b, b ∈ bs1' ++ bs2' ∧
          b.alloc = false ∧ b.addr = z := by
        intro z hz
        have hz1 : z ∈ L.erase p.addr := List.mem_of_mem_erase hz
        have hzn : z ≠ n.addr := (f11.mem_erase_iff.mp hz).1
        have hzp : z ≠ p.addr := (hnodup.mem_erase_iff.mp hz1).1
        have hzL : z ∈ L := List.mem_of_mem_erase hz1
        obtain ⟨b, hb, hbf, rfl⟩ := hLmem z hzL
        rcases List.mem_append.mp hb with h1m | h2m
        · rcases List.mem_append.mp h1m with h3m | h4m
          · exact ⟨b, List.mem_append_left _ h3m, hbf, rfl⟩
          · have hbp3 : b = p := List.mem_singleton.mp h4m
            subst hbp3
            exact absurd rfl hzp
        · rcases List.mem_cons.mp h2m with rfl | h3m
          · exact absurd rfl hzn
          · exact ⟨b, List.mem_append_right _ h3m, hbf, rfl⟩
      have g13 : p.addr ∉ (L.erase p.addr).erase n.addr := fun hc =>
        (hnodup.mem_erase_iff.mp (List.mem_of_mem_erase hc)).1 rfl
      obtain ⟨h3, hfin, t_lo, t_brk, t_prol, t_flh, t_links, t_chain, t_ph,
          t_pf, t_epi, t_hm⟩ :=
        coalesce_finish_spec hr2 bs1' bs2' p.addr
          (x.size + (p.size + n.size)) ((L.erase p.addr).erase n.addr)
          g1 g2 g3 g4 g5 g6 g7
          (Nat.dvd_add hx16 (Nat.dvd_add (blkOK_size16 h p hpok)
            (blkOK_size16 h n hnok))) (by omega) g8 g9 g10 s_links g11 g12 g13
      have hcm : coalMerged (bs1' ++ [p]) x (n :: bs2') =
          Blk.mk p.addr (x.size + (p.size + n.size)) false := by
        simp [coalMerged, hfl, hfh]
      have hbs : coalBs (bs1' ++ [p]) x (n :: bs2') =
          bs1' ++ Blk.mk p.addr (x.size + (p.size + n.size)) false :: bs2' := by
        simp [coalBs, hcm, hfl, hfh, List.take_left]
      have hLeq : coalL (bs1' ++ [p]) (n :: bs2') L =
          (L.erase p.addr).erase n.addr := by
        simp [coalL, hfl, hfh]
      rw [s_lo, r_lo] at t_ph t_pf t_chain
      rw [s_brk, r_brk] at t_epi t_chain
      refine ⟨h3, ?_, t_lo.trans (s_lo.trans r_lo),
        t_brk.trans (s_brk.trans r_brk), t_prol.trans (s_prol.trans r_prol),
        by rw [hcm]; exact t_flh, ?_, ?_, t_ph, t_pf, t_epi,
        t_hm.trans (s_hm.trans r_hm)⟩
      · rw [hcm]
        show coalesce h x.addr = some (p.addr, h3)
        simp only [coalesce, Option.bind_eq_bind]
        rw [ha0, Option.some_bind, if_neg (by decide : ¬((0 : Nat) ≠ 0)), hpb,
          Option.some_bind, hpa0, Option.some_bind, hnbx, Option.some_bind,
          hna0, Option.some_bind, hszx, Option.some_bind,
          if_neg (by decide : ¬((0 : Nat) ≠ 0 ∧ (0 : Nat) = 0)),
          if_neg (by decide : ¬((0 : Nat) = 0 ∧ (0 : Nat) ≠ 0)),
          if_pos (by decide : (0 : Nat) = 0 ∧ (0 : Nat) = 0), harm,
          Option.some_bind]
        exact hfin
      · rw [hcm, hLeq]
        exact t_links
      · rw [hbs]
        exact t_chain

/-- C6: for every free block bp (header and footer already marked
free) not yet in the free list, coalesce(bp) removes each free
physical neighbor of bp from the free list, produces a single free
block whose size is the sum of bp's size and those neighbors' sizes
(starting at the previous neighbor's address when it was free), writes
matching free header and footer of the combined size, inserts the
merged block at the head of the free list, and returns its pointer. -/
theorem claim_C6_coalesce (h : Heap) (bs1 : List Blk) (x : Blk)
    (bs2 : List Blk) (L : List Nat) (hpre : CoalPre h bs1 x bs2 L) :
    ∃ h2, coalesce h x.addr = some ((coalMerged bs1 x bs2).addr, h2) ∧
      h2.get ((coalMerged bs1 x bs2).addr - 8) =
        some (PACK (coalMerged bs1 x bs2).size 0) ∧
      h2.get ((coalMerged bs1 x bs2).addr +
          (coalMerged bs1 x bs2).size - 16) =
        some (PACK (coalMerged bs1 x bs2).size 0) ∧
      h2.flist_head = (coalMerged bs1 x bs2).addr ∧
      flinks h2 ((coalMerged bs1 x bs2).addr :: coalL bs1 bs2 L) ∧
      chainSeg h2 (h.lo + 48) (coalBs bs1 x bs2) h.brk := by
  obtain ⟨h2, heq, -, -, -, hflh, hlk, hchain, -, -, -, -⟩ :=
    coalesce_spec h bs1 x bs2 L hpre
  have hmOK : blkOK h2 (coalMerged bs1 x bs2) := by
    apply chainSeg_blkOK h2 _ _ _ _ hchain
    show coalMerged bs1 x bs2 ∈ coalBs bs1 x bs2
    rw [coalBs]
    exact List.mem_append_right _ (List.mem_cons_self _ _)
  have hW : hdrWord (coalMerged bs1 x bs2) =
      PACK (coalMerged bs1 x bs2).size 0 := by
    rw [pack_zero, hdrWord]
    simp [coalMerged]
  refine ⟨h2, heq, ?_, ?_, hflh, hlk, hchain⟩
  · rw [← hW]
    exact hmOK.1
  · rw [← hW]
    exact hmOK.2.1

/-- Witness for C6: on the concrete heap coalDemo, coalescing the free
block at 64 merges it with the free next neighbor at 96, removes 96
from the free list and pushes the merged 64-byte block at 64. -/
theorem claim_C6_witness :
    ∃ h2, coalesce coalDemo 64 = some
        ((coalMerged [] (Blk.mk 64 32 false) [Blk.mk 96 32 false]).addr,
          h2) ∧
      h2.get ((coalMerged [] (Blk.mk 64 32 false)
          [Blk.mk 96 32 false]).addr - 8) =
        some (PACK (coalMerged [] (Blk.mk 64 32 false)
          [Blk.mk 96 32 false]).size 0) ∧
      h2.get ((coalMerged [] (Blk.mk 64 32 false)
            [Blk.mk 96 32 false]).addr +
          (coalMerged [] (Blk.mk 64 32 false)
            [Blk.mk 96 32 false]).size - 16) =
        some (PACK (coalMerged [] (Blk.mk 64 32 false)
          [Blk.mk 96 32 false]).size 0) ∧
      h2.flist_head =
        (coalMerged [] (Blk.mk 64 32 false) [Blk.mk 96 32 false]).addr ∧
      flinks h2
        ((coalMerged [] (Blk.mk 64 32 false) [Blk.mk 96 32 false]).addr ::
          coalL [] [Blk.mk 96 32 false] [96]) ∧
      chainSeg h2 (coalDemo.lo + 48)
        (coalBs [] (Blk.mk 64 32 false) [Blk.mk 96 32 false])
        coalDemo.brk :=
  claim_C6_coalesce coalDemo [] (Blk.mk 64 32 false) [Blk.mk 96 32 false]
    [96]
    ⟨by decide, by decide, by decide, by decide, by decide, by decide,
     by decide, by decide, by decide, trivial, by simp, by decide,
     by decide, by decide, by decide⟩

theorem blkOK_grow (h : Heap) (n : Nat) (b : Blk) (hb : blkOK h b) :
    blkOK (h.grow n) b := by
  obtain ⟨hh, hf, h16, h32⟩ := hb
  have hb1 := get_bounds _ _ _ hh
  have hb2 := get_bounds _ _ _ hf
  exact ⟨by rw [get_grow_of_le _ _ _ hb1.1 hb1.2]; exact hh,
    by rw [get_grow_of_le _ _ _ hb2.1 hb2.2]; exact hf, h16, h32⟩

theorem chainSeg_grow (h : Heap) (n a : Nat) (bs : List Blk) (a2 : Nat)
    (hc : chainSeg h a bs a2) : chainSeg (h.grow n) a bs a2 := by
  induction bs generalizing a with
  | nil => exact hc
  | cons b bs ih => exact ⟨hc.1, blkOK_grow h n b hc.2.1, ih _ hc.2.2⟩

theorem flinks_grow (h : Heap) (n : Nat) (L : List Nat) (hf : flinks h L) :
    flinks (h.grow n) L := by
  induction L with
  | nil => trivial
  | cons x L ih =>
    cases L with
    | nil =>
      show (h.grow n).get (x + 8) = some (h.grow n).heap_prologue
      have hb := get_bounds _ _ _ hf
      rw [get_grow_of_le _ _ _ hb.1 hb.2]
      exact hf
    | cons y L2 =>
      obtain ⟨h1, h2, h3⟩ := hf
      have hb1 := get_bounds _ _ _ h1
      have hb2 := get_bounds _ _ _ h2
      exact ⟨by rw [get_grow_of_le _ _ _ hb1.1 hb1.2]; exact h1,
        by rw [get_grow_of_le _ _ _ hb2.1 hb2.2]; exact h2, ih h3⟩

/-- Specification of extend_heap on a well-formed heap: the grown
space becomes one free block over the old epilogue, a new epilogue is
written, and the block is coalesced with the chain's last block when
that block is free. -/
theorem extend_heap_spec (h : Heap) (bs : List Blk) (L : List Nat) (E : Nat)
    (hrep : repOK h bs L) (hE16 : 16 ∣ E) (hE32 : 32 ≤ E)
    (hcap : h.brk + E < 2 ^ 64) (hroom : h.brk + E ≤ h.hmax) :
    ∃ h4, extend_heap h E =
        some (some ((coalMerged bs (Blk.mk h.brk E false) []).addr, h4)) ∧
      h4.lo = h.lo ∧ h4.brk = h.brk + E ∧
      h4.heap_prologue = h.heap_prologue ∧
      h4.flist_head = (coalMerged bs (Blk.mk h.brk E false) []).addr ∧
      flinks h4 ((coalMerged bs (Blk.mk h.brk E false) []).addr ::
        coalL bs [] L) ∧
      chainSeg h4 (h.lo + 48) (coalBs bs (Blk.mk h.brk E false) [])
        (h.brk + E) ∧
      h4.get (h.lo + 8) = some 33 ∧ h4.get (h.lo + 32) = some 33 ∧
      h4.get (h.brk + E - 8) = some 1 ∧ h4.hmax = h.hmax := by
  obtain ⟨hlo16, hlo, hbrklt, hprol, hprolh, hprolf, hepi, hchain, hadjc,
    hfh, hfl, hnd, hpm⟩ := hrep
  have hbrk48 : h.lo + 48 ≤ h.brk := chainSeg_le h _ _ _ hchain
  have hblocks : ∀ b ∈ bs,
      h.lo + 48 ≤ b.addr ∧ b.addr + b.size ≤ h.brk ∧ 32 ≤ b.size :=
    fun b hb => ⟨(chainSeg_mem h _ _ _ b hchain hb).1,
      (chainSeg_mem h _ _ _ b hchain hb).2,
      blkOK_size32 h b (chainSeg_blkOK h _ _ _ b hchain hb)⟩
  have hLgeom : ∀ z ∈ L, h.lo + 48 ≤ z ∧ z + 32 ≤ h.brk := by
    intro z hz
    have hz2 := hpm.mem_iff.mp hz
    obtain ⟨b, hb, rfl⟩ := List.mem_map.mp hz2
    have hb2 := List.mem_filter.mp hb
    have := hblocks b hb2.1
    omega
  have hgsE : GET_SIZE_W E = E := by
    have := GET_SIZE_W_pack E 0 hE16 (by omega) (by omega)
    simpa using this
  -- the three writes
  have hset1 : (h.grow E).set (HDRP h.brk) (PACK E 0) =
      some ((h.grow E).upd (h.brk - 8) E) := by
    rw [pack_zero]
    show (h.grow E).set (h.brk - 8) E = _
    exact set_eq _ _ _ (by show h.lo ≤ _; omega) (by show _ ≤ h.brk + E; omega)
  have hhdr1 : ((h.grow E).upd (h.brk - 8) E).get (h.brk - 8) = some E := by
    rw [get_upd_self _ _ _ (by show h.lo ≤ _; omega)
      (by show _ ≤ h.brk + E; omega), Nat.mod_eq_of_lt (by omega)]
  have hftrp : ((h.grow E).upd (h.brk - 8) E).FTRP h.brk =
      some (h.brk + E - 16) := by
    simp only [Heap.FTRP, Heap.GET_SIZE, HDRP, hhdr1, Option.map_some', hgsE]
  have hset2 : ((h.grow E).upd (h.brk - 8) E).set (h.brk + E - 16)
      (PACK E 0) =
      some (((h.grow E).upd (h.brk - 8) E).upd (h.brk + E - 16) E) := by
    rw [pack_zero]
    exact set_eq _ _ _ (by show h.lo ≤ _; omega) (by show _ ≤ h.brk + E; omega)
  have hhdr2 : (((h.grow E).upd (h.brk - 8) E).upd (h.brk + E - 16) E).get
      (h.brk - 8) = some E := by
    rw [get_upd_ne _ _ _ _ (by omega)]
    exact hhdr1
  have hszW2 : (((h.grow E).upd (h.brk - 8) E).upd (h.brk + E - 16) E).GET_SIZE
      (HDRP h.brk) = some E := by
    rw [Heap.GET_SIZE, HDRP, hhdr2, Option.map_some', hgsE]
  have hnext : (((h.grow E).upd (h.brk - 8) E).upd (h.brk + E - 16)
      E).NEXT_BLKP h.brk = some (h.brk + E) := by
    rw [Heap.NEXT_BLKP, hszW2, Option.map_some']
  have hset3 : (((h.grow E).upd (h.brk - 8) E).upd (h.brk + E - 16) E).set
      (HDRP (h.brk + E)) (PACK 0 1) =
      some ((((h.grow E).upd (h.brk - 8) E).upd (h.brk + E - 16) E).upd
        (h.brk + E - 8) 1) := by
    rw [show PACK 0 1 = 1 from by simpa using pack_one 0 (by decide)]
    show (((h.grow E).upd (h.brk - 8) E).upd (h.brk + E - 16) E).set
      (h.brk + E - 8) 1 = _
    exact set_eq _ _ _ (by show h.lo ≤ _; omega) (by show _ ≤ h.brk + E; omega)
  -- the fully written heap
  have hchW : chainSeg ((((h.grow E).upd (h.brk - 8) E).upd (h.brk + E - 16)
      E).upd (h.brk + E - 8) 1) (h.lo + 48) bs h.brk := by
    apply chainSeg_upd
    · apply chainSeg_upd
      · apply chainSeg_upd
        · exact chainSeg_grow h E _ _ _ hchain
        · intro b hb
          have := hblocks b hb
          omega
      · intro b hb
        have := hblocks b hb
        omega
    · intro b hb
      have := hblocks b hb
      omega
  have hxhdrW : ((((h.grow E).upd (h.brk - 8) E).upd (h.brk + E - 16) E).upd
      (h.brk + E - 8) 1).get (h.brk - 8) = some E := by
    rw [get_upd_ne _ _ _ _ (by omega)]
    exact hhdr2
  have hxftrW : ((((h.grow E).upd (h.brk - 8) E).upd (h.brk + E - 16) E).upd
      (h.brk + E - 8) 1).get (h.brk + E - 16) = some E := by
    rw [get_upd_ne _ _ _ _ (by omega),
      get_upd_self _ _ _ (by show h.lo ≤ _; omega)
        (by show _ ≤ h.brk + E; omega), Nat.mod_eq_of_lt (by omega)]
  have hxok : blkOK ((((h.grow E).upd (h.brk - 8) E).upd (h.brk + E - 16)
      E).upd (h.brk + E - 8) 1) (Blk.mk h.brk E false) := by
    refine ⟨?_, ?_, hE16, hE32⟩
    · show _ = some (hdrWord (Blk.mk h.brk E false))
      simpa [hdrWord] using hxhdrW
    · show _ = some (hdrWord (Blk.mk h.brk E false))
      simpa [hdrWord] using hxftrW
  have hlinksW : flinks ((((h.grow E).upd (h.brk - 8) E).upd (h.brk + E - 16)
      E).upd (h.brk + E - 8) 1) L := by
    apply flinks_upd
    · apply flinks_upd
      · apply flinks_upd
        · exact flinks_grow h E L hfl
        · intro z hz
          have := hLgeom z hz
          omega
        · intro z hz
          have := hLgeom z (List.mem_of_mem_tail hz)
          omega
      · intro z hz
        have := hLgeom z hz
        omega
      · intro z hz
        have := hLgeom z (List.mem_of_mem_tail hz)
        omega
    · intro z hz
      have := hLgeom z hz
      omega
    · intro z hz
      have := hLgeom z (List.mem_of_mem_tail hz)
      omega
  have hphW : ((((h.grow E).upd (h.brk - 8) E).upd (h.brk + E - 16) E).upd
      (h.brk + E - 8) 1).get (h.lo + 8) = some 33 := by
    rw [get_upd_ne _ _ _ _ (by omega), get_upd_ne _ _ _ _ (by omega),
      get_upd_ne _ _ _ _ (by omega), get_grow_of_le _ _ _ (by omega) (by omega)]
    exact hprolh
  have hpfW : ((((h.grow E).upd (h.brk - 8) E).upd (h.brk + E - 16) E).upd
      (h.brk + E - 8) 1).get (h.lo + 32) = some 33 := by
    rw [get_upd_ne _ _ _ _ (by omega), get_upd_ne _ _ _ _ (by omega),
      get_upd_ne _ _ _ _ (by omega), get_grow_of_le _ _ _ (by omega) (by omega)]
    exact hprolf
  have hepiW : ((((h.grow E).upd (h.brk - 8) E).upd (h.brk + E - 16) E).upd
      (h.brk + E - 8) 1).get (h.brk + E - 8) = some 1 := by
    rw [get_upd_self _ _ _ (by show h.lo ≤ _; omega)
      (by show _ ≤ h.brk + E; omega), Nat.mod_eq_of_lt (by norm_num)]
  have hpre : CoalPre ((((h.grow E).upd (h.brk - 8) E).upd (h.brk + E - 16)
      E).upd (h.brk + E - 8) 1) bs (Blk.mk h.brk E false) [] L := by
    refine ⟨hlo16, hlo, ?_, hprol, hphW, hpfW, ?_, ?_, rfl, hadjc, trivial,
      hfh, hlinksW, hnd, ?_⟩
    · show h.brk + E < 2 ^ 64
      exact hcap
    · show _ = some 1
      exact hepiW
    · rw [chainSeg_append]
      exact ⟨h.brk, hchW, rfl, hxok, rfl⟩
    · rw [List.append_nil]
      exact hpm
  obtain ⟨h4, hco, c_lo, c_brk, c_prol, c_flh, c_links, c_chain, c_ph, c_pf,
      c_epi, c_hm⟩ := coalesce_spec _ bs (Blk.mk h.brk E false) [] L hpre
  have hbody : extend_body (h.grow E) h.brk E =
      some ((coalMerged bs (Blk.mk h.brk E false) []).addr, h4) := by
    simp only [extend_body, Option.bind_eq_bind]
    rw [hset1, Option.some_bind, hftrp, Option.some_bind, hset2,
      Option.some_bind, hnext, Option.some_bind, hset3, Option.some_bind]
    exact hco
  refine ⟨h4, ?_, c_lo, c_brk, c_prol, c_flh, c_links, c_chain, c_ph, c_pf,
    c_epi, c_hm⟩
  simp only [extend_heap,
    show mem_sbrk h E = some (h.brk, h.grow E) from by
      rw [mem_sbrk, if_pos hroom],
    Option.bind_eq_bind]
  rw [hbody, Option.some_bind]

/-- C10: whenever the allocator misses and extends the heap by
max(CHUNKSIZE, adj_size) and the extension succeeds, the block that
extend_heap hands to allocate is free and of size at least adj_size,
so the placement precondition holds and the split-size subtraction
block_size - adj_size cannot wrap. -/
theorem claim_C10_extend (h : Heap) (bs : List Blk) (L : List Nat)
    (adj bp : Nat) (hp : Heap)
    (hrep : repOK h bs L) (h16 : 16 ∣ adj)
    (hcap : h.brk + max CHUNKSIZE adj < 2 ^ 64)
    (hext : extend_heap h (max CHUNKSIZE adj) = some (some (bp, hp))) :
    ∃ w, hp.get (HDRP bp) = some w ∧ GET_ALLOC_W w = 0 ∧
      adj ≤ GET_SIZE_W w ∧ wsub (GET_SIZE_W w) adj = GET_SIZE_W w - adj := by
  by_cases hroom : h.brk + max CHUNKSIZE adj ≤ h.hmax
  · have hE16 : 16 ∣ max CHUNKSIZE adj := by
      rcases max_choice CHUNKSIZE adj with he | he
      · rw [he]; decide
      · rw [he]; exact h16
    have hE32 : 32 ≤ max CHUNKSIZE adj :=
      le_trans (by decide) (le_max_left CHUNKSIZE adj)
    obtain ⟨h4, heq, -, -, -, -, -, hchain4, -, -, -, -⟩ :=
      extend_heap_spec h bs L (max CHUNKSIZE adj) hrep hE16 hE32 hcap hroom
    rw [heq] at hext
    simp only [Option.some.injEq, Prod.mk.injEq] at hext
    obtain ⟨hbp, hh4⟩ := hext
    subst hbp
    subst hh4
    have hmmem : coalMerged bs (Blk.mk h.brk (max CHUNKSIZE adj) false) [] ∈
        coalBs bs (Blk.mk h.brk (max CHUNKSIZE adj) false) [] := by
      rw [coalBs]
      exact List.mem_append_right _ (List.mem_cons_self _ _)
    have hm : blkOK h4 (coalMerged bs (Blk.mk h.brk (max CHUNKSIZE adj)
        false) []) := chainSeg_blkOK h4 _ _ _ _ hchain4 hmmem
    have hfacts := hdr_facts h4 _ hm
    refine ⟨hdrWord (coalMerged bs (Blk.mk h.brk (max CHUNKSIZE adj) false)
      []), hm.1, ?_, ?_, ?_⟩
    · rw [hfacts.2]
      rfl
    · rw [hfacts.1]
      calc adj ≤ max CHUNKSIZE adj := le_max_right _ _
        _ ≤ _ := Nat.le_add_right _ _
    · have hwlt := get_lt _ _ _ hm.1
      have hsle : GET_SIZE_W (hdrWord (coalMerged bs (Blk.mk h.brk
          (max CHUNKSIZE adj) false) [])) ≤ hdrWord (coalMerged bs
          (Blk.mk h.brk (max CHUNKSIZE adj) false) []) :=
        Nat.and_le_left
      refine wsub_of_le _ _ ?_ (by omega)
      rw [hfacts.1]
      calc adj ≤ max CHUNKSIZE adj := le_max_right _ _
        _ ≤ _ := Nat.le_add_right _ _
  · exfalso
    have hnone : extend_heap h (max CHUNKSIZE adj) = some none := by
      simp only [extend_heap,
        show mem_sbrk h (max CHUNKSIZE adj) = none from by
          rw [mem_sbrk, if_neg hroom]]
    rw [hnone] at hext
    simp at hext

/-- Witness for C10: a successful extension of the freshly initialized
demo heap by max(CHUNKSIZE, 32) yields a free block of size at least
32 whose split subtraction does not wrap. -/
theorem claim_C10_witness :
    ∃ w, extDemo.2.get (HDRP extDemo.1) = some w ∧ GET_ALLOC_W w = 0 ∧
      32 ≤ GET_SIZE_W w ∧ wsub (GET_SIZE_W w) 32 = GET_SIZE_W w - 32 :=
  claim_C10_extend demoInit [] [] 32 extDemo.1 extDemo.2
    (by decide) (by decide) (by decide) (by rfl)

theorem freeLast_eq_nil (bs : List Blk) (h : freeLast bs = []) :
    ∀ p, bs.getLast? = some p → p.alloc = true := by
  intro p hp
  simp only [freeLast, hp] at h
  cases hpa : p.alloc with
  | true => rfl
  | false => simp [hpa] at h

theorem freeHead_eq_nil (bs : List Blk) (h : freeHead bs = []) :
    ∀ n, bs.head? = some n → n.alloc = true := by
  intro n hn
  simp only [freeHead, hn] at h
  cases hna : n.alloc with
  | true => rfl
  | false => simp [hna] at h

theorem freeLast_cases (bs : List Blk) :
    freeLast bs = [] ∨
    ∃ u p, bs = u ++ [p] ∧ p.alloc = false ∧ freeLast bs = [p] := by
  rcases List.eq_nil_or_concat bs with rfl | ⟨u, p, hcat⟩
  · left
    rfl
  · rw [List.concat_eq_append] at hcat
    subst hcat
    cases hpa : p.alloc with
    | true => exact Or.inl (freeLast_concat_true u p hpa)
    | false => exact Or.inr ⟨u, p, rfl, hpa, freeLast_concat_false u p hpa⟩

theorem freeHead_cases (bs : List Blk) :
    freeHead bs = [] ∨
    ∃ n v, bs = n :: v ∧ n.alloc = false ∧ freeHead bs = [n] := by
  cases bs with
  | nil => exact Or.inl rfl
  | cons n v =>
    cases hna : n.alloc with
    | true => exact Or.inl (freeHead_cons_true n v hna)
    | false => exact Or.inr ⟨n, v, rfl, hna, freeHead_cons_false n v hna⟩

theorem chain'_append_mid (A : List Blk) (m : Blk) (B : List Blk)
    (hA : List.Chain' notAdjFree A) (hB : List.Chain' notAdjFree B)
    (hlast : ∀ a, A.getLast? = some a → a.alloc = true)
    (hhead : ∀ b, B.head? = some b → b.alloc = true) :
    List.Chain' notAdjFree (A ++ m :: B) := by
  rw [List.chain'_append]
  refine ⟨hA, ?_, ?_⟩
  · rw [List.chain'_cons']
    exact ⟨fun y hy => Or.inr (hhead y hy), hB⟩
  · intro a ha y hy
    simp only [List.head?_cons, Option.mem_def, Option.some.injEq] at hy
    subst hy
    exact Or.inl (hlast a ha)

/-- Three of the four de-facto shapes of coalBs, once the free-neighbor
selectors are known. -/
theorem coalBs_eq (bs1 : List Blk) (x : Blk) (bs2 : List Blk)
    (k : Nat) (cs2 : List Blk)
    (hk : bs1.length - (freeLast bs1).length = k)
    (hd : bs2.drop (freeHead bs2).length = cs2) :
    coalBs bs1 x bs2 = bs1.take k ++ coalMerged bs1 x bs2 :: cs2 := by
  rw [coalBs, hk, hd]

theorem coalBs_nil_nil (bs1 : List Blk) (x : Blk) (bs2 : List Blk)
    (h1 : freeLast bs1 = []) (h2 : freeHead bs2 = []) :
    coalBs bs1 x bs2 = bs1 ++ coalMerged bs1 x bs2 :: bs2 := by
  simp [coalBs, h1, h2]

theorem coalBs_nil_cons (bs1 : List Blk) (x n : Blk) (bs2' : List Blk)
    (h1 : freeLast bs1 = []) (h2 : freeHead (n :: bs2') = [n]) :
    coalBs bs1 x (n :: bs2') = bs1 ++ coalMerged bs1 x (n :: bs2') :: bs2' := by
  simp [coalBs, h1, h2]

theorem coalBs_concat_nil (u : List Blk) (p x : Blk) (bs2 : List Blk)
    (h1 : freeLast (u ++ [p]) = [p]) (h2 : freeHead bs2 = []) :
    coalBs (u ++ [p]) x bs2 = u ++ coalMerged (u ++ [p]) x bs2 :: bs2 := by
  simp [coalBs, h1, h2, List.take_left]

theorem coalBs_concat_cons (u : List Blk) (p x n : Blk) (bs2' : List Blk)
    (h1 : freeLast (u ++ [p]) = [p]) (h2 : freeHead (n :: bs2') = [n]) :
    coalBs (u ++ [p]) x (n :: bs2') =
      u ++ coalMerged (u ++ [p]) x (n :: bs2') :: bs2' := by
  simp [coalBs, h1, h2, List.take_left]

theorem coalL_nil_nil (bs1 bs2 : List Blk) (L : List Nat)
    (h1 : freeLast bs1 = []) (h2 : freeHead bs2 = []) :
    coalL bs1 bs2 L = L := by
  simp [coalL, h1, h2]

theorem coalL_nil_cons (bs1 : List Blk) (n : Blk) (bs2' : List Blk)
    (L : List Nat) (h1 : freeLast bs1 = []) (h2 : freeHead (n :: bs2') = [n]) :
    coalL bs1 (n :: bs2') L = L.erase n.addr := by
  simp [coalL, h1, h2]

theorem coalL_concat_nil (u : List Blk) (p : Blk) (bs2 : List Blk)
    (L : List Nat) (h1 : freeLast (u ++ [p]) = [p]) (h2 : freeHead bs2 = []) :
    coalL (u ++ [p]) bs2 L = L.erase p.addr := by
  simp [coalL, h1, h2]

theorem coalL_concat_cons (u : List Blk) (p n : Blk) (bs2' : List Blk)
    (L : List Nat) (h1 : freeLast (u ++ [p]) = [p])
    (h2 : freeHead (n :: bs2') = [n]) :
    coalL (u ++ [p]) (n :: bs2') L = (L.erase p.addr).erase n.addr := by
  simp [coalL, h1, h2]

/-- The chain after coalescing still has no two adjacent free blocks. -/
theorem coalBs_chain' (bs1 : List Blk) (x : Blk) (bs2 : List Blk)
    (h1 : List.Chain' notAdjFree bs1) (h2 : List.Chain' notAdjFree bs2) :
    List.Chain' notAdjFree (coalBs bs1 x bs2) := by
  rcases freeLast_cases bs1 with hfl | ⟨u, p, rfl, hpf, hfl⟩ <;>
    rcases freeHead_cases bs2 with hfh | ⟨n, v, rfl, hnf, hfh⟩
  · rw [coalBs_nil_nil _ _ _ hfl hfh]
    exact chain'_append_mid _ _ _ h1 h2 (freeLast_eq_nil _ hfl)
      (freeHead_eq_nil _ hfh)
  · rw [coalBs_nil_cons _ _ _ _ hfl hfh]
    have hc := List.chain'_cons'.mp h2
    refine chain'_append_mid _ _ _ h1 hc.2 (freeLast_eq_nil _ hfl) ?_
    intro b hb
    rcases hc.1 b hb with hna | hba
    · rw [hnf] at hna
      cases hna
    · exact hba
  · rw [coalBs_concat_nil _ _ _ _ hfl hfh]
    have hc := List.chain'_append.mp h1
    refine chain'_append_mid _ _ _ hc.1 h2 ?_ (freeHead_eq_nil _ hfh)
    intro a ha
    rcases hc.2.2 a ha p rfl with hpa | hpb
    · exact hpa
    · rw [hpf] at hpb
      cases hpb
  · rw [coalBs_concat_cons _ _ _ _ _ hfl hfh]
    have hcl := List.chain'_append.mp h1
    have hcr := List.chain'_cons'.mp h2
    refine chain'_append_mid _ _ _ hcl.1 hcr.2 ?_ ?_
    · intro a ha
      rcases hcl.2.2 a ha p rfl with hpa | hpb
      · exact hpa
      · rw [hpf] at hpb
        cases hpb
    · intro b hb
      rcases hcr.1 b hb with hna | hba
      · rw [hnf] at hna
        cases hna
      · exact hba

/-- Allocated blocks survive coalescing. -/
theorem coalBs_keeps (bs1 : List Blk) (x : Blk) (bs2 : List Blk) (b : Blk)
    (hb : b ∈ bs1 ++ bs2) (hba : b.alloc = true) :
    b ∈ coalBs bs1 x bs2 := by
  rcases freeLast_cases bs1 with hfl | ⟨u, p, rfl, hpf, hfl⟩ <;>
    rcases freeHead_cases bs2 with hfh | ⟨n, v, rfl, hnf, hfh⟩
  · rw [coalBs_nil_nil _ _ _ hfl hfh]
    rcases List.mem_append.mp hb with hl | hr
    · exact List.mem_append_left _ hl
    · exact List.mem_append_right _ (List.mem_cons_of_mem _ hr)
  · rw [coalBs_nil_cons _ _ _ _ hfl hfh]
    rcases List.mem_append.mp hb with hl | hr
    · exact List.mem_append_left _ hl
    · rcases List.mem_cons.mp hr with rfl | hr2
      · rw [hnf] at hba
        cases hba
      · exact List.mem_append_right _ (List.mem_cons_of_mem _ hr2)
  · rw [coalBs_concat_nil _ _ _ _ hfl hfh]
    rcases List.mem_append.mp hb with hl | hr
    · rcases List.mem_append.mp hl with hl2 | hl3
      · exact List.mem_append_left _ hl2
      · rw [List.mem_singleton.mp hl3] at hba
        rw [hpf] at hba
        cases hba
    · exact List.mem_append_right _ (List.mem_cons_of_mem _ hr)
  · rw [coalBs_concat_cons _ _ _ _ _ hfl hfh]
    rcases List.mem_append.mp hb with hl | hr
    · rcases List.mem_append.mp hl with hl2 | hl3
      · exact List.mem_append_left _ hl2
      · rw [List.mem_singleton.mp hl3] at hba
        rw [hpf] at hba
        cases hba
    · rcases List.mem_cons.mp hr with rfl | hr2
      · rw [hnf] at hba
        cases hba
      · exact List.mem_append_right _ (List.mem_cons_of_mem _ hr2)

theorem coalL_subset (bs1 bs2 : List Blk) (L : List Nat) :
    ∀ z ∈ coalL bs1 bs2 L, z ∈ L := by
  intro z hz
  rcases freeLast_cases bs1 with hfl | ⟨u, p, hu, hpf, hfl⟩ <;>
    rcases freeHead_cases bs2 with hfh | ⟨n, v, hn, hnf, hfh⟩
  · rw [coalL_nil_nil _ _ _ hfl hfh] at hz
    exact hz
  · rw [hn, coalL_nil_cons _ _ _ _ hfl (hn ▸ hfh)] at hz
    exact List.mem_of_mem_erase hz
  · rw [hu, coalL_concat_nil _ _ _ _ (hu ▸ hfl) hfh] at hz
    exact List.mem_of_mem_erase hz
  · rw [hu, hn, coalL_concat_cons _ _ _ _ _ (hu ▸ hfl) (hn ▸ hfh)] at hz
    exact List.mem_of_mem_erase (List.mem_of_mem_erase hz)

theorem coalL_nodup (bs1 bs2 : List Blk) (L : List Nat) (hnd : L.Nodup) :
    (coalL bs1 bs2 L).Nodup := by
  rcases freeLast_cases bs1 with hfl | ⟨u, p, hu, hpf, hfl⟩ <;>
    rcases freeHead_cases bs2 with hfh | ⟨n, v, hn, hnf, hfh⟩
  · rw [coalL_nil_nil _ _ _ hfl hfh]
    exact hnd
  · rw [hn, coalL_nil_cons _ _ _ _ hfl (hn ▸ hfh)]
    exact hnd.erase _
  · rw [hu, coalL_concat_nil _ _ _ _ (hu ▸ hfl) hfh]
    exact hnd.erase _
  · rw [hu, hn, coalL_concat_cons _ _ _ _ _ (hu ▸ hfl) (hn ▸ hfh)]
    exact (hnd.erase _).erase _

/-- The free list after coalescing is exactly the free blocks of the
coalesced chain, as a permutation. -/
theorem coalL_perm (bs1 : List Blk) (x : Blk) (bs2 : List Blk) (L : List Nat)
    (hnd : L.Nodup)
    (hpm : L.Perm
      (((bs1 ++ bs2).filter (fun b => b.alloc = false)).map Blk.addr)) :
    ((coalMerged bs1 x bs2).addr :: coalL bs1 bs2 L).Perm
      (((coalBs bs1 x bs2).filter (fun b => b.alloc = false)).map
        Blk.addr) := by
  have hmfree : (coalMerged bs1 x bs2).alloc = false := rfl
  rcases freeLast_cases bs1 with hfl | ⟨u, p, rfl, hpf, hfl⟩ <;>
    rcases freeHead_cases bs2 with hfh | ⟨n, v, rfl, hnf, hfh⟩
  · rw [coalBs_nil_nil _ _ _ hfl hfh, coalL_nil_nil _ _ _ hfl hfh]
    rw [List.filter_append] at hpm
    rw [List.filter_append, List.filter_cons_of_pos (by simp [hmfree]),
      List.map_append, List.map_cons]
    rw [List.map_append] at hpm
    exact (hpm.cons _).trans List.perm_middle.symm
  · rw [coalBs_nil_cons _ _ _ _ hfl hfh, coalL_nil_cons _ _ _ _ hfl hfh]
    rw [List.filter_append, List.filter_cons_of_pos (by simp [hnf]),
      List.map_append, List.map_cons] at hpm
    rw [List.filter_append, List.filter_cons_of_pos (by simp [hmfree]),
      List.map_append, List.map_cons]
    have hrnd := hpm.nodup hnd
    have hnotin : n.addr ∉
        ((bs1.filter (fun b => b.alloc = false)).map Blk.addr) := by
      have hd := (List.nodup_append.mp hrnd).2.2
      intro hc
      exact hd hc (List.mem_cons_self _ _)
    have he := hpm.erase n.addr
    rw [List.erase_append_right _ hnotin, List.erase_cons_head] at he
    exact (he.cons _).trans List.perm_middle.symm
  · rw [coalBs_concat_nil _ _ _ _ hfl hfh, coalL_concat_nil _ _ _ _ hfl hfh]
    rw [List.filter_append, List.filter_append,
      List.filter_cons_of_pos (by simp [hpf]), List.filter_nil,
      List.map_append, List.map_append, List.map_cons, List.map_nil] at hpm
    rw [List.filter_append, List.filter_cons_of_pos (by simp [hmfree]),
      List.map_append, List.map_cons]
    have hrnd := hpm.nodup hnd
    have hnotin : p.addr ∉
        ((u.filter (fun b => b.alloc = false)).map Blk.addr) := by
      have hd := (List.nodup_append.mp
        (List.nodup_append.mp hrnd).1).2.2
      intro hc
      exact hd hc (List.mem_cons_self _ _)
    have he := hpm.erase p.addr
    rw [List.erase_append_left _ (List.mem_append_right _
        (List.mem_cons_self _ _)),
      List.erase_append_right _ hnotin, List.erase_cons_head,
      List.append_nil] at he
    exact (he.cons _).trans List.perm_middle.symm
  · rw [coalBs_concat_cons _ _ _ _ _ hfl hfh,
      coalL_concat_cons _ _ _ _ _ hfl hfh]
    rw [List.filter_append, List.filter_append,
      List.filter_cons_of_pos (by simp [hpf]), List.filter_nil,
      List.filter_cons_of_pos (by simp [hnf]),
      List.map_append, List.map_append, List.map_cons, List.map_nil,
      List.map_cons] at hpm
    rw [List.filter_append, List.filter_cons_of_pos (by simp [hmfree]),
      List.map_append, List.map_cons]
    have hrnd := hpm.nodup hnd
    have hnotinp : p.addr ∉
        ((u.filter (fun b => b.alloc = false)).map Blk.addr) := by
      have hd := (List.nodup_append.mp
        (List.nodup_append.mp hrnd).1).2.2
      intro hc
      exact hd hc (List.mem_cons_self _ _)
    have he1 := hpm.erase p.addr
    rw [List.erase_append_left _ (List.mem_append_right _
        (List.mem_cons_self _ _)),
      List.erase_append_right _ hnotinp, List.erase_cons_head,
      List.append_nil] at he1
    have hrnd1 := he1.nodup (hnd.erase _)
    have hnotinn : n.addr ∉
        ((u.filter (fun b => b.alloc = false)).map Blk.addr) := by
      have hd := (List.nodup_append.mp hrnd1).2.2
      intro hc
      exact hd hc (List.mem_cons_self _ _)
    have he2 := he1.erase n.addr
    rw [List.erase_append_right _ hnotinn, List.erase_cons_head] at he2
    exact (he2.cons _).trans List.perm_middle.symm

/-- coalesce restores the full invariant: the merged chain and the
merged-head free list satisfy repOK. -/
theorem coalesce_repOK (h : Heap) (bs1 : List Blk) (x : Blk) (bs2 : List Blk)
    (L : List Nat) (hpre : CoalPre h bs1 x bs2 L) :
    ∃ h2, coalesce h x.addr = some ((coalMerged bs1 x bs2).addr, h2) ∧
      h2.lo = h.lo ∧ h2.brk = h.brk ∧ h2.heap_prologue = h.heap_prologue ∧
      h2.hmax = h.hmax ∧
      repOK h2 (coalBs bs1 x bs2)
        ((coalMerged bs1 x bs2).addr :: coalL bs1 bs2 L) := by
  obtain ⟨h2, heq, c_lo, c_brk, c_prol, c_flh, c_links, c_chain, c_ph, c_pf,
    c_epi, c_hm⟩ := coalesce_spec h bs1 x bs2 L hpre
  obtain ⟨mid, hchA, hchcons⟩ :=
    (chainSeg_append h bs1 (x :: bs2) _ _).mp hpre.chain
  obtain ⟨hxm, hxok, hchB⟩ := hchcons
  subst hxm
  have hx32 : 32 ≤ x.size := blkOK_size32 h x hxok
  have hLmem : ∀ z ∈ L, ∃ b, b ∈ bs1 ++ bs2 ∧ b.alloc = false ∧
      b.addr = z := by
    intro z hz
    have hz2 := hpre.perm.mem_iff.mp hz
    obtain ⟨b, hb, rfl⟩ := List.mem_map.mp hz2
    have hb2 := List.mem_filter.mp hb
    exact ⟨b, hb2.1, by simpa using hb2.2, rfl⟩
  have hxnotL : x.addr ∉ L := by
    intro hc
    obtain ⟨b, hb, -, hbz⟩ := hLmem _ hc
    rcases List.mem_append.mp hb with h1m | h2m
    · have hm1 := chainSeg_mem h _ _ _ b hchA h1m
      have hm2 := blkOK_size32 h b (chainSeg_blkOK h _ _ _ b hchA h1m)
      omega
    · have hm1 := chainSeg_mem h _ _ _ b hchB h2m
      have hm2 := blkOK_size32 h b (chainSeg_blkOK h _ _ _ b hchB h2m)
      omega
  have hmnot : (coalMerged bs1 x bs2).addr ∉ coalL bs1 bs2 L := by
    rcases freeLast_cases bs1 with hfl | ⟨u, p, hu, hpf, hfl⟩ <;>
      rcases freeHead_cases bs2 with hfh | ⟨n, v, hn, hnf, hfh⟩
    · have haddr : (coalMerged bs1 x bs2).addr = x.addr := by
        simp [coalMerged, hfl]
      rw [haddr, coalL_nil_nil _ _ _ hfl hfh]
      exact hxnotL
    · have haddr : (coalMerged bs1 x bs2).addr = x.addr := by
        simp [coalMerged, hfl]
      rw [haddr, hn, coalL_nil_cons _ _ _ _ hfl (hn ▸ hfh)]
      exact fun hc => hxnotL (List.mem_of_mem_erase hc)
    · have haddr : (coalMerged bs1 x bs2).addr = p.addr := by
        simp [coalMerged, hfl]
      rw [haddr, hu, coalL_concat_nil _ _ _ _ (hu ▸ hfl) hfh]
      exact fun hc => (hpre.nodup.mem_erase_iff.mp hc).1 rfl
    · have haddr : (coalMerged bs1 x bs2).addr = p.addr := by
        simp [coalMerged, hfl]
      rw [haddr, hu, hn, coalL_concat_cons _ _ _ _ _ (hu ▸ hfl) (hn ▸ hfh)]
      intro hc
      exact (hpre.nodup.mem_erase_iff.mp (List.mem_of_mem_erase hc)).1 rfl
  refine ⟨h2, heq, c_lo, c_brk, c_prol, c_hm, ?_, ?_, ?_, ?_, ?_, ?_, ?_, ?_,
    ?_, ?_, ?_, ?_, ?_⟩
  · rw [c_lo]
    exact hpre.lo16
  · rw [c_lo]
    exact hpre.lopos
  · rw [c_brk]
    exact hpre.brklt
  · rw [c_prol, c_lo]
    exact hpre.prol
  · rw [c_lo]
    exact c_ph
  · rw [c_lo]
    exact c_pf
  · rw [c_brk]
    exact c_epi
  · rw [c_lo, c_brk]
    exact c_chain
  · exact coalBs_chain' _ _ _ hpre.adj1 hpre.adj2
  · rw [List.headD_cons]
    exact c_flh
  · exact c_links
  · exact List.nodup_cons.mpr ⟨hmnot, coalL_nodup _ _ _ hpre.nodup⟩
  · exact coalL_perm _ _ _ _ hpre.nodup hpre.perm

/-- Freeing a valid allocated block preserves the invariant: the block
is marked free, coalesced with free neighbors and pushed onto the free
list. -/
theorem mm_free_repOK (h : Heap) (L : List Nat) (bs1 bs2 : List Blk)
    (b : Blk) (hrep : repOK h (bs1 ++ b :: bs2) L) (halloc : b.alloc = true) :
    ∃ h2, mm_free h b.addr = some h2 ∧ h2.lo = h.lo ∧ h2.brk = h.brk ∧
      h2.heap_prologue = h.heap_prologue ∧ h2.hmax = h.hmax ∧
      repOK h2 (coalBs bs1 (Blk.mk b.addr b.size false) bs2)
        ((coalMerged bs1 (Blk.mk b.addr b.size false) bs2).addr ::
          coalL bs1 bs2 L) := by
  obtain ⟨hlo16, hlo, hbrklt, hprol, hprolh, hprolf, hepi, hchain, hadjc,
    hfh, hflk, hnd, hpm⟩ := hrep
  obtain ⟨mid, hchA, hchcons⟩ :=
    (chainSeg_append h bs1 (b :: bs2) _ _).mp hchain
  obtain ⟨hbm, hbok, hchB⟩ := hchcons
  subst hbm
  have hbA : h.lo + 48 ≤ b.addr := chainSeg_le h _ _ _ hchA
  have hbB : b.addr + b.size ≤ h.brk := chainSeg_le h _ _ _ hchB
  have hb32 := blkOK_size32 h b hbok
  have hb16 := blkOK_size16 h b hbok
  have hbf := hdr_facts h b hbok
  have hblt : hdrWord b < 2 ^ 64 := get_lt _ _ _ hbok.1
  have hslt : b.size < 2 ^ 64 := by
    rw [hdrWord] at hblt
    omega
  have hga : h.GET_ALLOC (HDRP b.addr) = some 1 := by
    rw [Heap.GET_ALLOC, HDRP, hbok.1, Option.map_some', hbf.2]
    simp [halloc]
  have hgs : h.GET_SIZE (HDRP b.addr) = some b.size := by
    rw [Heap.GET_SIZE, HDRP, hbok.1, Option.map_some', hbf.1]
  have hftr : h.FTRP b.addr = some (b.addr + b.size - 16) := by
    rw [Heap.FTRP, hgs, Option.map_some']
  have hfw : h.get (b.addr + b.size - 16) = some (hdrWord b) := hbok.2.1
  have hset1 : h.set (HDRP b.addr) (PACK b.size 0) =
      some (h.upd (b.addr - 8) b.size) := by
    rw [pack_zero]
    show h.set (b.addr - 8) b.size = _
    exact set_eq _ _ _ (by omega) (by omega)
  have hh1hdr : (h.upd (b.addr - 8) b.size).get (b.addr - 8) =
      some b.size := by
    rw [get_upd_self _ _ _ (by omega) (by omega), Nat.mod_eq_of_lt hslt]
  have hgsz : GET_SIZE_W b.size = b.size := by
    have := GET_SIZE_W_pack b.size 0 hb16 hslt (by omega)
    simpa using this
  have hgs1 : (h.upd (b.addr - 8) b.size).GET_SIZE (HDRP b.addr) =
      some b.size := by
    rw [Heap.GET_SIZE, HDRP, hh1hdr, Option.map_some', hgsz]
  have hftr1 : (h.upd (b.addr - 8) b.size).FTRP b.addr =
      some (b.addr + b.size - 16) := by
    rw [Heap.FTRP, hgs1, Option.map_some']
  have hset2 : (h.upd (b.addr - 8) b.size).set (b.addr + b.size - 16)
      (PACK b.size 0) =
      some ((h.upd (b.addr - 8) b.size).upd (b.addr + b.size - 16)
        b.size) := by
    rw [pack_zero]
    exact set_eq _ _ _ (by show h.lo ≤ _; omega) (by show _ ≤ h.brk; omega)
  have hcs1 : ∀ c ∈ bs1,
      h.lo + 48 ≤ c.addr ∧ c.addr + c.size ≤ b.addr ∧ 32 ≤ c.size :=
    fun c hc => ⟨(chainSeg_mem h _ _ _ c hchA hc).1,
      (chainSeg_mem h _ _ _ c hchA hc).2,
      blkOK_size32 h c (chainSeg_blkOK h _ _ _ c hchA hc)⟩
  have hcs2 : ∀ c ∈ bs2,
      b.addr + b.size ≤ c.addr ∧ c.addr + c.size ≤ h.brk ∧ 32 ≤ c.size :=
    fun c hc => ⟨(chainSeg_mem h _ _ _ c hchB hc).1,
      (chainSeg_mem h _ _ _ c hchB hc).2,
      blkOK_size32 h c (chainSeg_blkOK h _ _ _ c hchB hc)⟩
  have hLg : ∀ z ∈ L, (z + 32 ≤ b.addr ∨ b.addr + b.size ≤ z) ∧
      h.lo + 48 ≤ z ∧ z + 32 ≤ h.brk := by
    intro z hz
    have hz2 := hpm.mem_iff.mp hz
    obtain ⟨c, hc, rfl⟩ := List.mem_map.mp hz2
    have hc2 := List.mem_filter.mp hc
    have hcf : c.alloc = false := by simpa using hc2.2
    rcases List.mem_append.mp hc2.1 with h1m | h2m
    · have := hcs1 c h1m
      omega
    · rcases List.mem_cons.mp h2m with rfl | h3m
      · rw [halloc] at hcf
        cases hcf
      · have := hcs2 c h3m
        omega
  have hch1w : chainSeg ((h.upd (b.addr - 8) b.size).upd
      (b.addr + b.size - 16) b.size) (h.lo + 48) bs1 b.addr := by
    apply chainSeg_upd
    · apply chainSeg_upd _ _ _ _ _ _ hchA
      intro c hc
      have := hcs1 c hc
      omega
    · intro c hc
      have := hcs1 c hc
      omega
  have hch2w : chainSeg ((h.upd (b.addr - 8) b.size).upd
      (b.addr + b.size - 16) b.size) (b.addr + b.size) bs2 h.brk := by
    apply chainSeg_upd
    · apply chainSeg_upd _ _ _ _ _ _ hchB
      intro c hc
      have := hcs2 c hc
      omega
    · intro c hc
      have := hcs2 c hc
      omega
  have hxok2 : blkOK ((h.upd (b.addr - 8) b.size).upd
      (b.addr + b.size - 16) b.size) (Blk.mk b.addr b.size false) := by
    refine ⟨?_, ?_, hb16, hb32⟩
    · show ((h.upd (b.addr - 8) b.size).upd (b.addr + b.size - 16)
        b.size).get (b.addr - 8) = some (hdrWord (Blk.mk b.addr b.size false))
      rw [get_upd_ne _ _ _ _ (by omega)]
      simpa [hdrWord] using hh1hdr
    · show ((h.upd (b.addr - 8) b.size).upd (b.addr + b.size - 16)
        b.size).get (b.addr + b.size - 16) =
        some (hdrWord (Blk.mk b.addr b.size false))
      rw [get_upd_self _ _ _ (by show h.lo ≤ _; omega)
        (by show _ ≤ h.brk; omega), Nat.mod_eq_of_lt hslt]
      simp [hdrWord]
  have hpre : CoalPre ((h.upd (b.addr - 8) b.size).upd
      (b.addr + b.size - 16) b.size) bs1 (Blk.mk b.addr b.size false) bs2
      L := by
    refine ⟨hlo16, hlo, hbrklt, hprol, ?_, ?_, ?_, ?_, rfl, ?_, ?_, hfh, ?_,
      hnd, ?_⟩
    · show ((h.upd (b.addr - 8) b.size).upd (b.addr + b.size - 16)
        b.size).get (h.lo + 8) = some 33
      rw [get_upd2_ne _ _ _ _ _ _ (by omega) (by omega)]
      exact hprolh
    · show ((h.upd (b.addr - 8) b.size).upd (b.addr + b.size - 16)
        b.size).get (h.lo + 32) = some 33
      rw [get_upd2_ne _ _ _ _ _ _ (by omega) (by omega)]
      exact hprolf
    · show ((h.upd (b.addr - 8) b.size).upd (b.addr + b.size - 16)
        b.size).get (h.brk - 8) = some 1
      rw [get_upd2_ne _ _ _ _ _ _ (by omega) (by omega)]
      exact hepi
    · rw [chainSeg_append]
      exact ⟨b.addr, hch1w, rfl, hxok2, hch2w⟩
    · exact (List.chain'_append.mp hadjc).1
    · exact (List.chain'_cons'.mp (List.chain'_append.mp hadjc).2.1).2
    · apply flinks_upd
      · apply flinks_upd _ _ _ _ hflk
        · intro z hz
          have := hLg z hz
          omega
        · intro z hz
          have := hLg z (List.mem_of_mem_tail hz)
          omega
      · intro z hz
        have := hLg z hz
        omega
      · intro z hz
        have := hLg z (List.mem_of_mem_tail hz)
        omega
    · rw [List.filter_append, List.filter_cons_of_neg (by simp [halloc])]
        at hpm
      rw [List.filter_append]
      exact hpm
  obtain ⟨h2, heq, d_lo, d_brk, d_prol, d_hm, d_rep⟩ :=
    coalesce_repOK _ bs1 (Blk.mk b.addr b.size false) bs2 L hpre
  refine ⟨h2, ?_, d_lo, d_brk, d_prol, d_hm, d_rep⟩
  show mm_free h b.addr = some h2
  simp only [mm_free, Option.bind_eq_bind]
  rw [hga, Option.some_bind, if_neg (by decide : ¬((1 : Nat) = 0)),
    show h.get (HDRP b.addr) = some (hdrWord b) from hbok.1,
    Option.some_bind, hftr, Option.some_bind, hfw, Option.some_bind,
    if_neg (by simp : ¬(hdrWord b ≠ hdrWord b))]
  simp only [mm_free_mark, Option.bind_eq_bind]
  rw [hgs, Option.some_bind, hset1, Option.some_bind, hgs1, Option.some_bind,
    hftr1, Option.some_bind, hset2, Option.some_bind,
    show coalesce ((h.upd (b.addr - 8) b.size).upd (b.addr + b.size - 16)
        b.size) b.addr =
      some ((coalMerged bs1 (Blk.mk b.addr b.size false) bs2).addr, h2)
      from heq,
    Option.some_bind]

theorem find_fit_go_spec (h : Heap) (size : Nat)
    (hprolhdr : h.get (h.heap_prologue - 8) = some 33) :
    ∀ (K : List Nat) (fuel : Nat), K.length < fuel →
    flinks h K →
    (∀ z ∈ K, ∃ w, h.get (z - 8) = some w ∧ GET_ALLOC_W w = 0) →
    ∃ r, find_fit_go h size fuel (K.headD h.heap_prologue) = some r ∧
      ∀ bp, r = some bp → bp ∈ K ∧
        ∃ w, h.get (bp - 8) = some w ∧ GET_ALLOC_W w = 0 ∧
          size ≤ GET_SIZE_W w := by
  have h33a : GET_ALLOC_W 33 = 1 := by
    have := GET_ALLOC_W_pack 32 1 (by norm_num) (le_refl 1)
    simpa using this
  intro K
  induction K with
  | nil =>
    intro fuel hf hl hm
    cases fuel with
    | zero => omega
    | succ f =>
      refine ⟨none, ?_, by intro bp hbp; cases hbp⟩
      show find_fit_go h size (f + 1) h.heap_prologue = some none
      simp only [find_fit_go, Option.bind_eq_bind]
      rw [show h.GET_ALLOC (HDRP h.heap_prologue) = some 1 from by
          rw [Heap.GET_ALLOC, HDRP, hprolhdr, Option.map_some', h33a],
        Option.some_bind, if_pos (by decide : (1 : Nat) ≠ 0)]
  | cons z K ih =>
    intro fuel hf hl hm
    cases fuel with
    | zero => omega
    | succ f =>
      obtain ⟨w, hw, hwa⟩ := hm z (List.mem_cons_self _ _)
      have hga : h.GET_ALLOC (HDRP z) = some 0 := by
        rw [Heap.GET_ALLOC, HDRP, hw, Option.map_some', hwa]
      have hgsw : h.GET_SIZE (HDRP z) = some (GET_SIZE_W w) := by
        rw [Heap.GET_SIZE, HDRP, hw, Option.map_some']
      by_cases hfit : size ≤ GET_SIZE_W w
      · refine ⟨some z, ?_, ?_⟩
        · show find_fit_go h size (f + 1) z = some (some z)
          simp only [find_fit_go, Option.bind_eq_bind]
          rw [hga, Option.some_bind, if_neg (by decide : ¬((0 : Nat) ≠ 0)),
            hgsw, Option.some_bind, if_pos hfit]
        · intro bp hbp
          cases hbp
          exact ⟨List.mem_cons_self _ _, w, hw, hwa, hfit⟩
      · have hnext : h.get (z + 8) = some (K.headD h.heap_prologue) :=
          flinks_next h [] z K hl
        obtain ⟨r, hr, hrp⟩ := ih f (by simpa using Nat.lt_of_succ_lt_succ hf)
          (flinks_tail h z K hl)
          (fun u hu => hm u (List.mem_cons_of_mem _ hu))
        refine ⟨r, ?_, ?_⟩
        · show find_fit_go h size (f + 1) z = some r
          simp only [find_fit_go, Option.bind_eq_bind]
          rw [hga, Option.some_bind, if_neg (by decide : ¬((0 : Nat) ≠ 0)),
            hgsw, Option.some_bind, if_neg hfit, Heap.NEXT_FREE, hnext,
            Option.some_bind]
          exact hr
        · intro bp hbp
          obtain ⟨hmem, hrest⟩ := hrp bp hbp
          exact ⟨List.mem_cons_of_mem _ hmem, hrest⟩

/-- find_fit on a well-formed heap terminates and any hit is a free
block of the chain whose size is at least the request. -/
theorem find_fit_spec (h : Heap) (bs : List Blk) (L : List Nat)
    (hrep : repOK h bs L) (size : Nat) :
    ∃ r, find_fit h size = some r ∧
      ∀ bp, r = some bp → ∃ bs1 b bs2, bs = bs1 ++ b :: bs2 ∧
        b.alloc = false ∧ b.addr = bp ∧ size ≤ b.size := by
  obtain ⟨hlo16, hlo, hbrklt, hprol, hprolh, hprolf, hepi, hchain, hadjc,
    hfh, hflk, hnd, hpm⟩ := hrep
  have hblocks : ∀ b ∈ bs,
      h.lo + 48 ≤ b.addr ∧ b.addr + b.size ≤ h.brk ∧ 32 ≤ b.size :=
    fun b hb => ⟨(chainSeg_mem h _ _ _ b hchain hb).1,
      (chainSeg_mem h _ _ _ b hchain hb).2,
      blkOK_size32 h b (chainSeg_blkOK h _ _ _ b hchain hb)⟩
  have hLmem : ∀ z ∈ L, ∃ b, b ∈ bs ∧ b.alloc = false ∧ b.addr = z := by
    intro z hz
    have hz2 := hpm.mem_iff.mp hz
    obtain ⟨b, hb, rfl⟩ := List.mem_map.mp hz2
    have hb2 := List.mem_filter.mp hb
    exact ⟨b, hb2.1, by simpa using hb2.2, rfl⟩
  have hlen : L.length < h.brk + 1 := by
    have hsub : L.toFinset ⊆ Finset.range h.brk := by
      intro z hz
      rw [List.mem_toFinset] at hz
      rw [Finset.mem_range]
      obtain ⟨b, hb, -, rfl⟩ := hLmem z hz
      have := hblocks b hb
      omega
    have hcard : L.length ≤ h.brk :=
      calc L.length = L.toFinset.card := (List.toFinset_card_of_nodup hnd).symm
        _ ≤ (Finset.range h.brk).card := Finset.card_le_card hsub
        _ = h.brk := Finset.card_range _
    omega
  have hprolhdr : h.get (h.heap_prologue - 8) = some 33 := by
    rw [hprol, show h.lo + 16 - 8 = h.lo + 8 from by omega]
    exact hprolh
  have hmap : ∀ z ∈ L, ∃ w, h.get (z - 8) = some w ∧ GET_ALLOC_W w = 0 := by
    intro z hz
    obtain ⟨b, hb, hbf, rfl⟩ := hLmem z hz
    have hbok := chainSeg_blkOK h _ _ _ b hchain hb
    refine ⟨hdrWord b, hbok.1, ?_⟩
    rw [(hdr_facts h b hbok).2]
    simp [hbf]
  obtain ⟨r, hr, hrp⟩ := find_fit_go_spec h size hprolhdr L (h.brk + 1) hlen
    hflk hmap
  refine ⟨r, ?_, ?_⟩
  · show find_fit_go h size (h.brk + 1) h.flist_head = some r
    rw [hfh]
    exact hr
  · intro bp hbp
    obtain ⟨hmem, w, hw, hwa, hws⟩ := hrp bp hbp
    obtain ⟨b, hb, hbf, rfl⟩ := hLmem bp hmem
    have hbok := chainSeg_blkOK h _ _ _ b hchain hb
    have hweq : w = hdrWord b := by
      have h2 := hbok.1
      rw [hw] at h2
      exact Option.some_injective _ h2
    obtain ⟨bs1, bs2, rfl⟩ := List.append_of_mem hb
    refine ⟨bs1, b, bs2, rfl, hbf, rfl, ?_⟩
    rw [hweq, (hdr_facts h b hbok).1] at hws
    exact hws

theorem get_upd4_ne (h : Heap) (q1 v1 q2 v2 q3 v3 q4 v4 z : Nat)
    (h1 : z ≠ q1) (h2 : z ≠ q2) (h3 : z ≠ q3) (h4 : z ≠ q4) :
    ((((h.upd q1 v1).upd q2 v2).upd q3 v3).upd q4 v4).get z = h.get z := by
  rw [get_upd_ne _ _ _ _ h4, get_upd_ne _ _ _ _ h3, get_upd_ne _ _ _ _ h2,
    get_upd_ne _ _ _ _ h1]

/-- The whole-block arm of allocate on a heap from which the target
free block has already been unlinked: the block is simply marked
allocated. -/
theorem alloc_whole_spec (g : Heap) (bs1 bs2 : List Blk) (b : Blk)
    (K : List Nat)
    (hlo : 0 < g.lo) (hlo16 : 16 ∣ g.lo) (hbrklt : g.brk < 2 ^ 64)
    (hprol : g.heap_prologue = g.lo + 16)
    (hph : g.get (g.lo + 8) = some 33) (hpf : g.get (g.lo + 32) = some 33)
    (hepi : g.get (g.brk - 8) = some 1)
    (hchA : chainSeg g (g.lo + 48) bs1 b.addr)
    (hbok : blkOK g b) (hfree : b.alloc = false)
    (hchB : chainSeg g (b.addr + b.size) bs2 g.brk)
    (hadjA : List.Chain' notAdjFree bs1) (hadjB : List.Chain' notAdjFree bs2)
    (hhead : g.flist_head = K.headD g.heap_prologue)
    (hlinks : flinks g K) (hnd : K.Nodup)
    (hKperm : K.Perm
      (((bs1 ++ bs2).filter (fun c => c.alloc = false)).map Blk.addr)) :
    ∃ h2, alloc_whole g b.addr b.size = some h2 ∧
      h2.lo = g.lo ∧ h2.brk = g.brk ∧ h2.heap_prologue = g.heap_prologue ∧
      h2.hmax = g.hmax ∧
      repOK h2 (bs1 ++ Blk.mk b.addr b.size true :: bs2) K := by
  have hbA : g.lo + 48 ≤ b.addr := chainSeg_le g _ _ _ hchA
  have hbB : b.addr + b.size ≤ g.brk := chainSeg_le g _ _ _ hchB
  have hb32 := blkOK_size32 g b hbok
  have hb16 := blkOK_size16 g b hbok
  have hslt : b.size < 2 ^ 64 := by
    have := get_lt _ _ _ hbok.1
    rw [hdrWord] at this
    omega
  have hcs1 : ∀ c ∈ bs1,
      g.lo + 48 ≤ c.addr ∧ c.addr + c.size ≤ b.addr ∧ 32 ≤ c.size :=
    fun c hc => ⟨(chainSeg_mem g _ _ _ c hchA hc).1,
      (chainSeg_mem g _ _ _ c hchA hc).2,
      blkOK_size32 g c (chainSeg_blkOK g _ _ _ c hchA hc)⟩
  have hcs2 : ∀ c ∈ bs2,
      b.addr + b.size ≤ c.addr ∧ c.addr + c.size ≤ g.brk ∧ 32 ≤ c.size :=
    fun c hc => ⟨(chainSeg_mem g _ _ _ c hchB hc).1,
      (chainSeg_mem g _ _ _ c hchB hc).2,
      blkOK_size32 g c (chainSeg_blkOK g _ _ _ c hchB hc)⟩
  have hKg : ∀ z ∈ K, (z + 32 ≤ b.addr ∨ b.addr + b.size ≤ z) ∧
      g.lo + 48 ≤ z ∧ z + 32 ≤ g.brk := by
    intro z hz
    have hz2 := hKperm.mem_iff.mp hz
    obtain ⟨c, hc, rfl⟩ := List.mem_map.mp hz2
    have hc2 := List.mem_filter.mp hc
    rcases List.mem_append.mp hc2.1 with h1m | h2m
    · have := hcs1 c h1m
      omega
    · have := hcs2 c h2m
      omega
  have hset1 : g.set (HDRP b.addr) (PACK b.size 1) =
      some (g.upd (b.addr - 8) (b.size + 1)) := by
    rw [pack_one b.size hb16]
    show g.set (b.addr - 8) (b.size + 1) = _
    exact set_eq _ _ _ (by omega) (by omega)
  have hW1hdr : (g.upd (b.addr - 8) (b.size + 1)).get (b.addr - 8) =
      some (b.size + 1) := by
    rw [get_upd_self _ _ _ (by omega) (by omega),
      Nat.mod_eq_of_lt (by omega)]
  have hgsb : GET_SIZE_W (b.size + 1) = b.size :=
    GET_SIZE_W_pack b.size 1 hb16 hslt (le_refl 1)
  have hftr : (g.upd (b.addr - 8) (b.size + 1)).FTRP b.addr =
      some (b.addr + b.size - 16) := by
    rw [Heap.FTRP, Heap.GET_SIZE, HDRP, hW1hdr, Option.map_some', hgsb,
      Option.map_some']
  have hset2 : (g.upd (b.addr - 8) (b.size + 1)).set (b.addr + b.size - 16)
      (PACK b.size 1) =
      some ((g.upd (b.addr - 8) (b.size + 1)).upd (b.addr + b.size - 16)
        (b.size + 1)) := by
    rw [pack_one b.size hb16]
    exact set_eq _ _ _ (by show g.lo ≤ _; omega) (by show _ ≤ g.brk; omega)
  refine ⟨(g.upd (b.addr - 8) (b.size + 1)).upd (b.addr + b.size - 16)
    (b.size + 1), ?_, rfl, rfl, rfl, rfl, ?_, ?_, ?_, ?_, ?_, ?_, ?_, ?_,
    ?_, ?_, ?_, ?_, ?_⟩
  · simp only [alloc_whole, Option.bind_eq_bind]
    rw [hset1, Option.some_bind, hftr, Option.some_bind, hset2]
  · exact hlo16
  · exact hlo
  · exact hbrklt
  · exact hprol
  · show ((g.upd (b.addr - 8) (b.size + 1)).upd (b.addr + b.size - 16)
      (b.size + 1)).get (g.lo + 8) = some 33
    rw [get_upd2_ne _ _ _ _ _ _ (by omega) (by omega)]
    exact hph
  · show ((g.upd (b.addr - 8) (b.size + 1)).upd (b.addr + b.size - 16)
      (b.size + 1)).get (g.lo + 32) = some 33
    rw [get_upd2_ne _ _ _ _ _ _ (by omega) (by omega)]
    exact hpf
  · show ((g.upd (b.addr - 8) (b.size + 1)).upd (b.addr + b.size - 16)
      (b.size + 1)).get (g.brk - 8) = some 1
    rw [get_upd2_ne _ _ _ _ _ _ (by omega) (by omega)]
    exact hepi
  · rw [chainSeg_append]
    refine ⟨b.addr, ?_, rfl, ?_, ?_⟩
    · apply chainSeg_upd
      · apply chainSeg_upd _ _ _ _ _ _ hchA
        intro c hc
        have := hcs1 c hc
        omega
      · intro c hc
        have := hcs1 c hc
        omega
    · refine ⟨?_, ?_, hb16, hb32⟩
      · show ((g.upd (b.addr - 8) (b.size + 1)).upd (b.addr + b.size - 16)
          (b.size + 1)).get (b.addr - 8) =
          some (hdrWord (Blk.mk b.addr b.size true))
        rw [get_upd_ne _ _ _ _ (by omega)]
        simpa [hdrWord] using hW1hdr
      · show ((g.upd (b.addr - 8) (b.size + 1)).upd (b.addr + b.size - 16)
          (b.size + 1)).get (b.addr + b.size - 16) =
          some (hdrWord (Blk.mk b.addr b.size true))
        rw [get_upd_self _ _ _ (by show g.lo ≤ _; omega)
          (by show _ ≤ g.brk; omega), Nat.mod_eq_of_lt (by omega)]
        simp [hdrWord]
    · apply chainSeg_upd
      · apply chainSeg_upd _ _ _ _ _ _ hchB
        intro c hc
        have := hcs2 c hc
        omega
      · intro c hc
        have := hcs2 c hc
        omega
  · rw [List.chain'_append]
    refine ⟨hadjA, ?_, ?_⟩
    · rw [List.chain'_cons']
      exact ⟨fun y hy => Or.inl rfl, hadjB⟩
    · intro a ha y hy
      simp only [List.head?_cons, Option.mem_def, Option.some.injEq] at hy
      subst hy
      exact Or.inr rfl
  · exact hhead
  · apply flinks_upd
    · apply flinks_upd _ _ _ _ hlinks
      · intro z hz
        have := hKg z hz
        omega
      · intro z hz
        have := hKg z (List.mem_of_mem_tail hz)
        omega
    · intro z hz
      have := hKg z hz
      omega
    · intro z hz
      have := hKg z (List.mem_of_mem_tail hz)
      omega
  · exact hnd
  · rw [List.filter_append, List.filter_cons_of_neg (by simp),
      List.map_append]
    rw [List.filter_append, List.map_append] at hKperm
    exact hKperm

/-- The splitting arm of allocate on a heap from which the target free
block has already been unlinked: the front of the block is marked
allocated, the remainder becomes a free block and is coalesced. -/
theorem alloc_split_spec (g : Heap) (bs1 bs2 : List Blk) (b : Blk)
    (adj : Nat) (K : List Nat)
    (hlo : 0 < g.lo) (hlo16 : 16 ∣ g.lo) (hbrklt : g.brk < 2 ^ 64)
    (hprol : g.heap_prologue = g.lo + 16)
    (hph : g.get (g.lo + 8) = some 33) (hpf : g.get (g.lo + 32) = some 33)
    (hepi : g.get (g.brk - 8) = some 1)
    (hchA : chainSeg g (g.lo + 48) bs1 b.addr)
    (hbok : blkOK g b) (hfree : b.alloc = false)
    (hchB : chainSeg g (b.addr + b.size) bs2 g.brk)
    (hadjA : List.Chain' notAdjFree bs1) (hadjB : List.Chain' notAdjFree bs2)
    (hhead : g.flist_head = K.headD g.heap_prologue)
    (hlinks : flinks g K) (hnd : K.Nodup)
    (hKperm : K.Perm
      (((bs1 ++ bs2).filter (fun c => c.alloc = false)).map Blk.addr))
    (h16 : 16 ∣ adj) (h32 : 32 ≤ adj) (hsp : adj + 32 ≤ b.size) :
    ∃ h2, alloc_split g b.addr adj b.size = some h2 ∧
      h2.lo = g.lo ∧ h2.brk = g.brk ∧ h2.heap_prologue = g.heap_prologue ∧
      h2.hmax = g.hmax ∧
      repOK h2 (coalBs (bs1 ++ [Blk.mk b.addr adj true])
          (Blk.mk (b.addr + adj) (b.size - adj) false) bs2)
        ((coalMerged (bs1 ++ [Blk.mk b.addr adj true])
          (Blk.mk (b.addr + adj) (b.size - adj) false) bs2).addr ::
          coalL (bs1 ++ [Blk.mk b.addr adj true]) bs2 K) := by
  have hbA : g.lo + 48 ≤ b.addr := chainSeg_le g _ _ _ hchA
  have hbB : b.addr + b.size ≤ g.brk := chainSeg_le g _ _ _ hchB
  have hb32 := blkOK_size32 g b hbok
  have hb16 := blkOK_size16 g b hbok
  have hle : adj ≤ b.size := by omega
  have hslt : b.size < 2 ^ 64 := by
    have := get_lt _ _ _ hbok.1
    rw [hdrWord] at this
    omega
  have hwsub : wsub b.size adj = b.size - adj := wsub_of_le _ _ hle hslt
  have hr16 : 16 ∣ (b.size - adj) := Nat.dvd_sub' hb16 h16
  have hgsa : GET_SIZE_W (adj + 1) = adj :=
    GET_SIZE_W_pack adj 1 h16 (by omega) (le_refl 1)
  have hgsr : GET_SIZE_W (b.size - adj) = b.size - adj := by
    have := GET_SIZE_W_pack (b.size - adj) 0 hr16 (by omega) (by omega)
    simpa using this
  have hcs1 : ∀ c ∈ bs1,
      g.lo + 48 ≤ c.addr ∧ c.addr + c.size ≤ b.addr ∧ 32 ≤ c.size :=
    fun c hc => ⟨(chainSeg_mem g _ _ _ c hchA hc).1,
      (chainSeg_mem g _ _ _ c hchA hc).2,
      blkOK_size32 g c (chainSeg_blkOK g _ _ _ c hchA hc)⟩
  have hcs2 : ∀ c ∈ bs2,
      b.addr + b.size ≤ c.addr ∧ c.addr + c.size ≤ g.brk ∧ 32 ≤ c.size :=
    fun c hc => ⟨(chainSeg_mem g _ _ _ c hchB hc).1,
      (chainSeg_mem g _ _ _ c hchB hc).2,
      blkOK_size32 g c (chainSeg_blkOK g _ _ _ c hchB hc)⟩
  have hKg : ∀ z ∈ K, (z + 32 ≤ b.addr ∨ b.addr + b.size ≤ z) ∧
      g.lo + 48 ≤ z ∧ z + 32 ≤ g.brk := by
    intro z hz
    have hz2 := hKperm.mem_iff.mp hz
    obtain ⟨c, hc, rfl⟩ := List.mem_map.mp hz2
    have hc2 := List.mem_filter.mp hc
    rcases List.mem_append.mp hc2.1 with h1m | h2m
    · have := hcs1 c h1m
      omega
    · have := hcs2 c h2m
      omega
  -- the four writes
  have hset1 : g.set (HDRP b.addr) (PACK adj 1) =
      some (g.upd (b.addr - 8) (adj + 1)) := by
    rw [pack_one adj h16]
    show g.set (b.addr - 8) (adj + 1) = _
    exact set_eq _ _ _ (by omega) (by omega)
  have hW1hdr : (g.upd (b.addr - 8) (adj + 1)).get (b.addr - 8) =
      some (adj + 1) := by
    rw [get_upd_self _ _ _ (by omega) (by omega),
      Nat.mod_eq_of_lt (by omega)]
  have hftr2 : (g.upd (b.addr - 8) (adj + 1)).FTRP b.addr =
      some (b.addr + adj - 16) := by
    rw [Heap.FTRP, Heap.GET_SIZE, HDRP, hW1hdr, Option.map_some', hgsa,
      Option.map_some']
  have hset2 : (g.upd (b.addr - 8) (adj + 1)).set (b.addr + adj - 16)
      (PACK adj 1) =
      some ((g.upd (b.addr - 8) (adj + 1)).upd (b.addr + adj - 16)
        (adj + 1)) := by
    rw [pack_one adj h16]
    exact set_eq _ _ _ (by show g.lo ≤ _; omega) (by show _ ≤ g.brk; omega)
  have hW2hdr : ((g.upd (b.addr - 8) (adj + 1)).upd (b.addr + adj - 16)
      (adj + 1)).get (b.addr - 8) = some (adj + 1) := by
    rw [get_upd_ne _ _ _ _ (by omega)]
    exact hW1hdr
  have hgsW2 : ((g.upd (b.addr - 8) (adj + 1)).upd (b.addr + adj - 16)
      (adj + 1)).GET_SIZE (HDRP b.addr) = some adj := by
    rw [Heap.GET_SIZE, HDRP, hW2hdr, Option.map_some', hgsa]
  have hnb : ((g.upd (b.addr - 8) (adj + 1)).upd (b.addr + adj - 16)
      (adj + 1)).NEXT_BLKP b.addr = some (b.addr + adj) := by
    rw [Heap.NEXT_BLKP, hgsW2, Option.map_some']
  have hset3 : ((g.upd (b.addr - 8) (adj + 1)).upd (b.addr + adj - 16)
      (adj + 1)).set (HDRP (b.addr + adj)) (PACK (wsub b.size adj) 0) =
      some (((g.upd (b.addr - 8) (adj + 1)).upd (b.addr + adj - 16)
        (adj + 1)).upd (b.addr + adj - 8) (b.size - adj)) := by
    rw [hwsub, pack_zero]
    show ((g.upd (b.addr - 8) (adj + 1)).upd (b.addr + adj - 16)
      (adj + 1)).set (b.addr + adj - 8) (b.size - adj) = _
    exact set_eq _ _ _ (by show g.lo ≤ _; omega) (by show _ ≤ g.brk; omega)
  have hW3rhdr : (((g.upd (b.addr - 8) (adj + 1)).upd (b.addr + adj - 16)
      (adj + 1)).upd (b.addr + adj - 8) (b.size - adj)).get
      (b.addr + adj - 8) = some (b.size - adj) := by
    rw [get_upd_self _ _ _ (by show g.lo ≤ _; omega)
      (by show _ ≤ g.brk; omega), Nat.mod_eq_of_lt (by omega)]
  have hW3hdr : (((g.upd (b.addr - 8) (adj + 1)).upd (b.addr + adj - 16)
      (adj + 1)).upd (b.addr + adj - 8) (b.size - adj)).get (b.addr - 8) =
      some (adj + 1) := by
    rw [get_upd_ne _ _ _ _ (by omega)]
    exact hW2hdr
  have hgsW3 : (((g.upd (b.addr - 8) (adj + 1)).upd (b.addr + adj - 16)
      (adj + 1)).upd (b.addr + adj - 8) (b.size - adj)).GET_SIZE
      (HDRP b.addr) = some adj := by
    rw [Heap.GET_SIZE, HDRP, hW3hdr, Option.map_some', hgsa]
  have hnb2 : (((g.upd (b.addr - 8) (adj + 1)).upd (b.addr + adj - 16)
      (adj + 1)).upd (b.addr + adj - 8) (b.size - adj)).NEXT_BLKP b.addr =
      some (b.addr + adj) := by
    rw [Heap.NEXT_BLKP, hgsW3, Option.map_some']
  have hftrR : (((g.upd (b.addr - 8) (adj + 1)).upd (b.addr + adj - 16)
      (adj + 1)).upd (b.addr + adj - 8) (b.size - adj)).FTRP
      (b.addr + adj) = some (b.addr + b.size - 16) := by
    rw [Heap.FTRP, Heap.GET_SIZE,
      show HDRP (b.addr + adj) = b.addr + adj - 8 from rfl, hW3rhdr,
      Option.map_some', hgsr, Option.map_some',
      show b.addr + adj + (b.size - adj) - 16 = b.addr + b.size - 16 from by
        omega]
  have hset4 : (((g.upd (b.addr - 8) (adj + 1)).upd (b.addr + adj - 16)
      (adj + 1)).upd (b.addr + adj - 8) (b.size - adj)).set
      (b.addr + b.size - 16) (PACK (wsub b.size adj) 0) =
      some ((((g.upd (b.addr - 8) (adj + 1)).upd (b.addr + adj - 16)
        (adj + 1)).upd (b.addr + adj - 8) (b.size - adj)).upd
        (b.addr + b.size - 16) (b.size - adj)) := by
    rw [hwsub, pack_zero]
    exact set_eq _ _ _ (by show g.lo ≤ _; omega) (by show _ ≤ g.brk; omega)
  have hW4hdr : ((((g.upd (b.addr - 8) (adj + 1)).upd (b.addr + adj - 16)
      (adj + 1)).upd (b.addr + adj - 8) (b.size - adj)).upd
      (b.addr + b.size - 16) (b.size - adj)).get (b.addr - 8) =
      some (adj + 1) := by
    rw [get_upd_ne _ _ _ _ (by omega)]
    exact hW3hdr
  have hgsW4 : ((((g.upd (b.addr - 8) (adj + 1)).upd (b.addr + adj - 16)
      (adj + 1)).upd (b.addr + adj - 8) (b.size - adj)).upd
      (b.addr + b.size - 16) (b.size - adj)).GET_SIZE (HDRP b.addr) =
      some adj := by
    rw [Heap.GET_SIZE, HDRP, hW4hdr, Option.map_some', hgsa]
  have hnb3 : ((((g.upd (b.addr - 8) (adj + 1)).upd (b.addr + adj - 16)
      (adj + 1)).upd (b.addr + adj - 8) (b.size - adj)).upd
      (b.addr + b.size - 16) (b.size - adj)).NEXT_BLKP b.addr =
      some (b.addr + adj) := by
    rw [Heap.NEXT_BLKP, hgsW4, Option.map_some']
  -- the precondition of the residual coalesce
  have hpre : CoalPre ((((g.upd (b.addr - 8) (adj + 1)).upd
      (b.addr + adj - 16) (adj + 1)).upd (b.addr + adj - 8)
      (b.size - adj)).upd (b.addr + b.size - 16) (b.size - adj))
      (bs1 ++ [Blk.mk b.addr adj true])
      (Blk.mk (b.addr + adj) (b.size - adj) false) bs2 K := by
    refine ⟨hlo16, hlo, hbrklt, hprol, ?_, ?_, ?_, ?_, rfl, ?_, hadjB,
      hhead, ?_, hnd, ?_⟩
    · show ((((g.upd (b.addr - 8) (adj + 1)).upd (b.addr + adj - 16)
        (adj + 1)).upd (b.addr + adj - 8) (b.size - adj)).upd
        (b.addr + b.size - 16) (b.size - adj)).get (g.lo + 8) = some 33
      rw [get_upd4_ne _ _ _ _ _ _ _ _ _ _ (by omega) (by omega) (by omega)
        (by omega)]
      exact hph
    · show ((((g.upd (b.addr - 8) (adj + 1)).upd (b.addr + adj - 16)
        (adj + 1)).upd (b.addr + adj - 8) (b.size - adj)).upd
        (b.addr + b.size - 16) (b.size - adj)).get (g.lo + 32) = some 33
      rw [get_upd4_ne _ _ _ _ _ _ _ _ _ _ (by omega) (by omega) (by omega)
        (by omega)]
      exact hpf
    · show ((((g.upd (b.addr - 8) (adj + 1)).upd (b.addr + adj - 16)
        (adj + 1)).upd (b.addr + adj - 8) (b.size - adj)).upd
        (b.addr + b.size - 16) (b.size - adj)).get (g.brk - 8) = some 1
      rw [get_upd4_ne _ _ _ _ _ _ _ _ _ _ (by omega) (by omega) (by omega)
        (by omega)]
      exact hepi
    · rw [chainSeg_append]
      refine ⟨b.addr + adj, ?_, rfl, ?_, ?_⟩
      · rw [chainSeg_append]
        refine ⟨b.addr, ?_, rfl, ?_, rfl⟩
        · apply chainSeg_upd
          · apply chainSeg_upd
            · apply chainSeg_upd
              · apply chainSeg_upd _ _ _ _ _ _ hchA
                intro c hc
                have := hcs1 c hc
                omega
              · intro c hc
                have := hcs1 c hc
                omega
            · intro c hc
              have := hcs1 c hc
              omega
          · intro c hc
            have := hcs1 c hc
            omega
        · refine ⟨?_, ?_, h16, h32⟩
          · show ((((g.upd (b.addr - 8) (adj + 1)).upd (b.addr + adj - 16)
              (adj + 1)).upd (b.addr + adj - 8) (b.size - adj)).upd
              (b.addr + b.size - 16) (b.size - adj)).get (b.addr - 8) =
              some (hdrWord (Blk.mk b.addr adj true))
            rw [hW4hdr]
            simp [hdrWord]
          · show ((((g.upd (b.addr - 8) (adj + 1)).upd (b.addr + adj - 16)
              (adj + 1)).upd (b.addr + adj - 8) (b.size - adj)).upd
              (b.addr + b.size - 16) (b.size - adj)).get
              (b.addr + adj - 16) = some (hdrWord (Blk.mk b.addr adj true))
            rw [get_upd_ne _ _ _ _ (by omega), get_upd_ne _ _ _ _ (by omega),
              get_upd_self _ _ _ (by show g.lo ≤ _; omega)
                (by show _ ≤ g.brk; omega), Nat.mod_eq_of_lt (by omega)]
            simp [hdrWord]
      · refine ⟨?_, ?_, hr16, by show 32 ≤ b.size - adj; omega⟩
        · show ((((g.upd (b.addr - 8) (adj + 1)).upd (b.addr + adj - 16)
            (adj + 1)).upd (b.addr + adj - 8) (b.size - adj)).upd
            (b.addr + b.size - 16) (b.size - adj)).get (b.addr + adj - 8) =
            some (hdrWord (Blk.mk (b.addr + adj) (b.size - adj) false))
          rw [get_upd_ne _ _ _ _ (by omega)]
          rw [hW3rhdr]
          simp [hdrWord]
        · show ((((g.upd (b.addr - 8) (adj + 1)).upd (b.addr + adj - 16)
            (adj + 1)).upd (b.addr + adj - 8) (b.size - adj)).upd
            (b.addr + b.size - 16) (b.size - adj)).get
            (b.addr + adj + (b.size - adj) - 16) =
            some (hdrWord (Blk.mk (b.addr + adj) (b.size - adj) false))
          rw [show b.addr + adj + (b.size - adj) - 16 =
              b.addr + b.size - 16 from by omega,
            get_upd_self _ _ _ (by show g.lo ≤ _; omega)
              (by show _ ≤ g.brk; omega), Nat.mod_eq_of_lt (by omega)]
          simp [hdrWord]
      · have hchB4 : chainSeg ((((g.upd (b.addr - 8) (adj + 1)).upd
            (b.addr + adj - 16) (adj + 1)).upd (b.addr + adj - 8)
            (b.size - adj)).upd (b.addr + b.size - 16) (b.size - adj))
            (b.addr + b.size) bs2 g.brk := by
          apply chainSeg_upd
          · apply chainSeg_upd
            · apply chainSeg_upd
              · apply chainSeg_upd _ _ _ _ _ _ hchB
                intro c hc
                have := hcs2 c hc
                omega
              · intro c hc
                have := hcs2 c hc
                omega
            · intro c hc
              have := hcs2 c hc
              omega
          · intro c hc
            have := hcs2 c hc
            omega
        show chainSeg _ (b.addr + adj + (b.size - adj)) bs2 _
        rw [show b.addr + adj + (b.size - adj) = b.addr + b.size from by
          omega]
        exact hchB4
    · rw [List.chain'_append]
      refine ⟨hadjA, by simp, ?_⟩
      intro a ha y hy
      simp only [List.head?_cons, Option.mem_def, Option.some.injEq] at hy
      subst hy
      exact Or.inr rfl
    · apply flinks_upd
      · apply flinks_upd
        · apply flinks_upd
          · apply flinks_upd _ _ _ _ hlinks
            · intro z hz
              have := hKg z hz
              omega
            · intro z hz
              have := hKg z (List.mem_of_mem_tail hz)
              omega
          · intro z hz
            have := hKg z hz
            omega
          · intro z hz
            have := hKg z (List.mem_of_mem_tail hz)
            omega
        · intro z hz
          have := hKg z hz
          omega
        · intro z hz
          have := hKg z (List.mem_of_mem_tail hz)
          omega
      · intro z hz
        have := hKg z hz
        omega
      · intro z hz
        have := hKg z (List.mem_of_mem_tail hz)
        omega
    · rw [List.filter_append, List.filter_append,
        List.filter_cons_of_neg (by simp), List.filter_nil, List.append_nil,
        List.map_append]
      rw [List.filter_append, List.map_append] at hKperm
      exact hKperm
  obtain ⟨h2, heq2, d_lo, d_brk, d_prol, d_hm, d_rep⟩ :=
    coalesce_repOK _ (bs1 ++ [Blk.mk b.addr adj true])
      (Blk.mk (b.addr + adj) (b.size - adj) false) bs2 K hpre
  refine ⟨h2, ?_, d_lo, d_brk, d_prol, d_hm, d_rep⟩
  simp only [alloc_split, Option.bind_eq_bind]
  rw [hset1, Option.some_bind, hftr2, Option.some_bind, hset2,
    Option.some_bind, hnb, Option.some_bind, hset3, Option.some_bind, hnb2,
    Option.some_bind, hftrR, Option.some_bind, hset4, Option.some_bind, hnb3,
    Option.some_bind,
    show coalesce ((((g.upd (b.addr - 8) (adj + 1)).upd (b.addr + adj - 16)
        (adj + 1)).upd (b.addr + adj - 8) (b.size - adj)).upd
        (b.addr + b.size - 16) (b.size - adj)) (b.addr + adj) =
      some ((coalMerged (bs1 ++ [Blk.mk b.addr adj true])
        (Blk.mk (b.addr + adj) (b.size - adj) false) bs2).addr, h2)
      from heq2,
    Option.some_bind]

/-- allocate on a free block of a well-formed heap: both arms restore
the invariant, the requested address carries an allocated block of at
least the requested size, and every previously allocated block
survives. -/
theorem allocate_repOK (h : Heap) (bs1 bs2 : List Blk) (b : Blk)
    (adj : Nat) (L : List Nat)
    (hrep : repOK h (bs1 ++ b :: bs2) L) (hfree : b.alloc = false)
    (h16a : 16 ∣ adj) (h32a : 32 ≤ adj) (hfit : adj ≤ b.size) :
    ∃ h2 bsr Lr, allocate h b.addr adj = some h2 ∧
      h2.lo = h.lo ∧ h2.brk = h.brk ∧
      h2.heap_prologue = h.heap_prologue ∧ h2.hmax = h.hmax ∧
      repOK h2 bsr Lr ∧
      (∃ c, c ∈ bsr ∧ c.addr = b.addr ∧ c.alloc = true ∧ adj ≤ c.size) ∧
      (∀ c, c ∈ bs1 ++ b :: bs2 → c.alloc = true → c ∈ bsr) := by
  obtain ⟨hlo16, hlo, hbrklt, hprol, hph, hpf, hepi, hchain, hadjc, hhead,
    hlinks, hnd, hperm⟩ := hrep
  -- split the physical chain around b (on h)
  obtain ⟨m, hchA0, hchb0⟩ := (chainSeg_append h bs1 (b :: bs2) _ _).mp hchain
  obtain ⟨hbaddr0, hbok, hchB0⟩ := hchb0
  subst hbaddr0
  have hb32 := blkOK_size32 h b hbok
  have hslt : b.size < 2 ^ 64 := by
    have := get_lt _ _ _ hbok.1
    rw [hdrWord] at this
    omega
  have hwsub : wsub b.size adj = b.size - adj := wsub_of_le _ _ hfit hslt
  have hcs1 : ∀ c ∈ bs1, c.addr + c.size ≤ b.addr ∧ 32 ≤ c.size :=
    fun c hc => ⟨(chainSeg_mem h _ _ _ c hchA0 hc).2,
      blkOK_size32 h c (chainSeg_blkOK h _ _ _ c hchA0 hc)⟩
  have hadjA : List.Chain' notAdjFree bs1 := (List.chain'_append.mp hadjc).1
  have hadjB : List.Chain' notAdjFree bs2 :=
    ((List.chain'_append.mp hadjc).2.1).tail
  -- the chain to GET_ALLOC / GET_SIZE on h
  have hga : h.GET_ALLOC (HDRP b.addr) = some 0 := by
    rw [Heap.GET_ALLOC, HDRP, hbok.1, Option.map_some',
      (hdr_facts h b hbok).2, hfree]
    simp
  have hgs : h.GET_SIZE (HDRP b.addr) = some b.size := by
    rw [Heap.GET_SIZE, HDRP, hbok.1, Option.map_some',
      (hdr_facts h b hbok).1]
  -- membership of b.addr in the free list and the hmap premise
  have hmap : ∀ z ∈ L, ∃ c, c ∈ bs1 ++ b :: bs2 ∧ c.alloc = false ∧
      c.addr = z := by
    intro z hz
    have hz2 := hperm.mem_iff.mp hz
    obtain ⟨c, hc, rfl⟩ := List.mem_map.mp hz2
    have hc2 := List.mem_filter.mp hc
    exact ⟨c, hc2.1, by simpa using hc2.2, rfl⟩
  have hyL : b.addr ∈ L := by
    apply hperm.mem_iff.mpr
    exact List.mem_map.mpr ⟨b, List.mem_filter.mpr
      ⟨List.mem_append_right _ (List.mem_cons_self _ _), by simp [hfree]⟩,
      rfl⟩
  obtain ⟨h1, hrm, r_lo, r_brk, r_prol, r_head, r_links, r_ch, r_ph, r_pf,
    r_epi, r_hm⟩ := flist_remove_node h (bs1 ++ b :: bs2) L b.addr hchain
    hlo hlo16 hbrklt hprol hph hpf hepi hhead hlinks hnd hmap hyL
  -- restate everything on h1
  obtain ⟨m1, hchA1, hchb1⟩ := (chainSeg_append h1 bs1 (b :: bs2) _ _).mp r_ch
  obtain ⟨hbaddr1, hbok1, hchB1⟩ := hchb1
  subst hbaddr1
  have g_lo : 0 < h1.lo := by rw [r_lo]; exact hlo
  have g_lo16 : 16 ∣ h1.lo := by rw [r_lo]; exact hlo16
  have g_brklt : h1.brk < 2 ^ 64 := by rw [r_brk]; exact hbrklt
  have g_prol : h1.heap_prologue = h1.lo + 16 := by
    rw [r_prol, r_lo]; exact hprol
  have g_ph : h1.get (h1.lo + 8) = some 33 := by rw [r_lo]; exact r_ph
  have g_pf : h1.get (h1.lo + 32) = some 33 := by rw [r_lo]; exact r_pf
  have g_epi : h1.get (h1.brk - 8) = some 1 := by rw [r_brk]; exact r_epi
  have g_chA : chainSeg h1 (h1.lo + 48) bs1 b.addr := by
    rw [r_lo]; exact hchA1
  have g_chB : chainSeg h1 (b.addr + b.size) bs2 h1.brk := by
    rw [r_brk]; exact hchB1
  have g_head : h1.flist_head = (L.erase b.addr).headD h1.heap_prologue := by
    rw [r_prol]; exact r_head
  have g_nd : (L.erase b.addr).Nodup := hnd.erase _
  -- the residual free-list permutation
  have hnot1 : b.addr ∉
      (bs1.filter (fun c => c.alloc = false)).map Blk.addr := by
    intro hc
    obtain ⟨c, hc2, hceq⟩ := List.mem_map.mp hc
    have hc3 := List.mem_filter.mp hc2
    have := hcs1 c hc3.1
    omega
  have hperm2 : L.Perm
      ((bs1.filter (fun c => c.alloc = false)).map Blk.addr ++
        b.addr :: (bs2.filter (fun c => c.alloc = false)).map Blk.addr) := by
    have h2 := hperm
    rw [List.filter_append, List.filter_cons_of_pos (by simp [hfree]),
      List.map_append, List.map_cons] at h2
    exact h2
  have g_perm : (L.erase b.addr).Perm
      (((bs1 ++ bs2).filter (fun c => c.alloc = false)).map Blk.addr) := by
    rw [List.filter_append, List.map_append]
    have h2 := hperm2.erase b.addr
    rw [List.erase_append_right _ hnot1, List.erase_cons_head] at h2
    exact h2
  by_cases hc : adj + 32 ≤ b.size
  · -- split arm
    obtain ⟨h2, heq2, e_lo, e_brk, e_prol, e_hm, e_rep⟩ :=
      alloc_split_spec h1 bs1 bs2 b adj (L.erase b.addr) g_lo g_lo16
        g_brklt g_prol g_ph g_pf g_epi g_chA hbok1 hfree g_chB hadjA hadjB
        g_head r_links g_nd g_perm h16a h32a hc
    refine ⟨h2, _, _, ?_, ?_, ?_, ?_, ?_, e_rep, ?_, ?_⟩
    · simp only [allocate, Option.bind_eq_bind]
      rw [hga, Option.some_bind, if_neg (by decide : ¬((0 : Nat) ≠ 0)),
        hgs, Option.some_bind, hrm, Option.some_bind, hwsub,
        if_pos (show MIN_BLOCK_SIZE ≤ b.size - adj from by show 32 ≤ b.size - adj; omega)]
      exact heq2
    · rw [e_lo, r_lo]
    · rw [e_brk, r_brk]
    · rw [e_prol, r_prol]
    · rw [e_hm, r_hm]
    · refine ⟨Blk.mk b.addr adj true, ?_, rfl, rfl, le_refl _⟩
      apply coalBs_keeps
      · exact List.mem_append_left _
          (List.mem_append_right _ (List.mem_cons_self _ _))
      · rfl
    · intro c hcm hca
      apply coalBs_keeps _ _ _ _ _ hca
      rcases List.mem_append.mp hcm with h1m | h2m
      · exact List.mem_append_left _ (List.mem_append_left _ h1m)
      · rcases List.mem_cons.mp h2m with rfl | h3m
        · rw [hfree] at hca
          cases hca
        · exact List.mem_append_right _ h3m
  · -- whole arm
    obtain ⟨h2, heq2, e_lo, e_brk, e_prol, e_hm, e_rep⟩ :=
      alloc_whole_spec h1 bs1 bs2 b (L.erase b.addr) g_lo g_lo16
        g_brklt g_prol g_ph g_pf g_epi g_chA hbok1 hfree g_chB hadjA hadjB
        g_head r_links g_nd g_perm
    refine ⟨h2, _, _, ?_, ?_, ?_, ?_, ?_, e_rep, ?_, ?_⟩
    · simp only [allocate, Option.bind_eq_bind]
      rw [hga, Option.some_bind, if_neg (by decide : ¬((0 : Nat) ≠ 0)),
        hgs, Option.some_bind, hrm, Option.some_bind, hwsub,
        if_neg (show ¬(MIN_BLOCK_SIZE ≤ b.size - adj) from by
          show ¬(32 ≤ b.size - adj); omega)]
      exact heq2
    · rw [e_lo, r_lo]
    · rw [e_brk, r_brk]
    · rw [e_prol, r_prol]
    · rw [e_hm, r_hm]
    · refine ⟨Blk.mk b.addr b.size true, ?_, rfl, rfl, hfit⟩
      exact List.mem_append_right _ (List.mem_cons_self _ _)
    · intro c hcm hca
      rcases List.mem_append.mp hcm with h1m | h2m
      · exact List.mem_append_left _ h1m
      · rcases List.mem_cons.mp h2m with rfl | h3m
        · rw [hfree] at hca
          cases hca
        · exact List.mem_append_right _ (List.mem_cons_of_mem _ h3m)

/-- The miss path of mm_malloc: either the extension fails and the heap
is returned unchanged with a NULL result, or the new space (merged with
a trailing free block) is placed and the invariant is restored. -/
theorem malloc_miss_repOK (h : Heap) (bs : List Blk) (L : List Nat)
    (adj : Nat) (hrep : repOK h bs L) (h16a : 16 ∣ adj)
    (h32a : 32 ≤ adj) (hmaxlt : h.hmax < 2 ^ 64) :
    ∃ r h2 bsr Lr, malloc_miss h adj = some (r, h2) ∧
      h2.lo = h.lo ∧ h2.heap_prologue = h.heap_prologue ∧
      h2.hmax = h.hmax ∧
      repOK h2 bsr Lr ∧
      (∀ c, c ∈ bs → c.alloc = true → c ∈ bsr) ∧
      ((r = 0 ∧ h2 = h ∧ bsr = bs ∧ Lr = L) ∨
        (∃ c, c ∈ bsr ∧ c.addr = r ∧ c.alloc = true ∧ adj ≤ c.size)) := by
  by_cases hroom : h.brk + max CHUNKSIZE adj ≤ h.hmax
  · have h16E : 16 ∣ max CHUNKSIZE adj := by
      rcases max_choice CHUNKSIZE adj with hm | hm
      · rw [hm]; decide
      · rw [hm]; exact h16a
    have h32E : 32 ≤ max CHUNKSIZE adj := le_trans h32a (le_max_right _ _)
    have hcap : h.brk + max CHUNKSIZE adj < 2 ^ 64 := by omega
    obtain ⟨h4, hext, x_lo, x_brk, x_prol, x_flh, x_links, x_chain, x_ph,
      x_pf, x_epi, x_hm⟩ := extend_heap_spec h bs L (max CHUNKSIZE adj)
        hrep h16E h32E hcap hroom
    obtain ⟨hlo16, hlo, hbrklt, hprol, hph, hpf, hepi, hchain, hadjc, hhead,
      hlinks, hnd, hperm⟩ := hrep
    have hLgeom : ∀ z ∈ L, z + 32 ≤ h.brk := by
      intro z hz
      have hz2 := hperm.mem_iff.mp hz
      obtain ⟨c, hcm, rfl⟩ := List.mem_map.mp hz2
      have hc2 := List.mem_filter.mp hcm
      have h1 := (chainSeg_mem h _ _ _ c hchain hc2.1).2
      have h2 := blkOK_size32 h c (chainSeg_blkOK h _ _ _ c hchain hc2.1)
      omega
    have hmnot : (coalMerged bs (Blk.mk h.brk (max CHUNKSIZE adj) false)
        []).addr ∉ coalL bs [] L := by
      rcases freeLast_cases bs with hfl | ⟨u, p, hu, hpf2, hfl⟩
      · rw [show (coalMerged bs (Blk.mk h.brk (max CHUNKSIZE adj) false)
            []).addr = h.brk from by simp [coalMerged, hfl],
          coalL_nil_nil bs [] L hfl rfl]
        intro hc
        have := hLgeom _ hc
        omega
      · rw [show (coalMerged bs (Blk.mk h.brk (max CHUNKSIZE adj) false)
            []).addr = p.addr from by simp [coalMerged, hfl],
          hu, coalL_concat_nil u p [] L (hu ▸ hfl) rfl]
        intro hc
        exact (hnd.mem_erase_iff.mp hc).1 rfl
    have hrep4 : repOK h4
        (coalBs bs (Blk.mk h.brk (max CHUNKSIZE adj) false) [])
        ((coalMerged bs (Blk.mk h.brk (max CHUNKSIZE adj) false) []).addr ::
          coalL bs [] L) := by
      refine ⟨?_, ?_, ?_, ?_, ?_, ?_, ?_, ?_, ?_, ?_, ?_, ?_, ?_⟩
      · rw [x_lo]; exact hlo16
      · rw [x_lo]; exact hlo
      · rw [x_brk]; omega
      · rw [x_prol, x_lo]; exact hprol
      · rw [x_lo]; exact x_ph
      · rw [x_lo]; exact x_pf
      · rw [x_brk]; exact x_epi
      · rw [x_lo, x_brk]; exact x_chain
      · exact coalBs_chain' bs _ [] hadjc trivial
      · rw [x_flh]; rfl
      · exact x_links
      · exact List.nodup_cons.mpr ⟨hmnot, coalL_nodup bs [] L hnd⟩
      · refine coalL_perm bs _ [] L hnd ?_
        rw [List.append_nil]
        exact hperm
    have hmsize : adj ≤ (coalMerged bs
        (Blk.mk h.brk (max CHUNKSIZE adj) false) []).size := by
      have h1 : adj ≤ max CHUNKSIZE adj := le_max_right _ _
      have h2 : (coalMerged bs (Blk.mk h.brk (max CHUNKSIZE adj) false)
          []).size = max CHUNKSIZE adj +
          (((freeLast bs).map Blk.size).sum +
            ((freeHead ([] : List Blk)).map Blk.size).sum) := rfl
      omega
    rcases freeLast_cases bs with hfl | ⟨u, p, hu, hpf2, hfl⟩
    · rw [coalBs_nil_nil bs _ [] hfl rfl] at hrep4
      obtain ⟨h2, bsr, Lr, halloc, a_lo, a_brk, a_prol, a_hm, a_rep, a_wit,
        a_keep⟩ := allocate_repOK h4 bs []
        (coalMerged bs (Blk.mk h.brk (max CHUNKSIZE adj) false) []) adj
        ((coalMerged bs (Blk.mk h.brk (max CHUNKSIZE adj) false) []).addr ::
          coalL bs [] L) hrep4 rfl h16a h32a hmsize
      refine ⟨(coalMerged bs (Blk.mk h.brk (max CHUNKSIZE adj) false)
          []).addr, h2, bsr, Lr, ?_, by rw [a_lo, x_lo],
        by rw [a_prol, x_prol], by rw [a_hm, x_hm], a_rep, ?_,
        Or.inr a_wit⟩
      · simp only [malloc_miss, Option.bind_eq_bind]
        rw [hext, Option.some_bind]
        show (allocate h4 (coalMerged bs
            (Blk.mk h.brk (max CHUNKSIZE adj) false) []).addr adj).bind
          (fun hh => some ((coalMerged bs
            (Blk.mk h.brk (max CHUNKSIZE adj) false) []).addr, hh)) =
          some ((coalMerged bs
            (Blk.mk h.brk (max CHUNKSIZE adj) false) []).addr, h2)
        rw [halloc, Option.some_bind]
      · intro c hcm hca
        exact a_keep c (List.mem_append_left _ hcm) hca
    · subst hu
      rw [coalBs_concat_nil u p _ [] hfl rfl] at hrep4
      obtain ⟨h2, bsr, Lr, halloc, a_lo, a_brk, a_prol, a_hm, a_rep, a_wit,
        a_keep⟩ := allocate_repOK h4 u []
        (coalMerged (u ++ [p]) (Blk.mk h.brk (max CHUNKSIZE adj) false) [])
        adj
        ((coalMerged (u ++ [p]) (Blk.mk h.brk (max CHUNKSIZE adj) false)
          []).addr :: coalL (u ++ [p]) [] L) hrep4 rfl h16a h32a hmsize
      refine ⟨(coalMerged (u ++ [p])
          (Blk.mk h.brk (max CHUNKSIZE adj) false) []).addr, h2, bsr, Lr,
        ?_, by rw [a_lo, x_lo], by rw [a_prol, x_prol], by rw [a_hm, x_hm],
        a_rep, ?_, Or.inr a_wit⟩
      · simp only [malloc_miss, Option.bind_eq_bind]
        rw [hext, Option.some_bind]
        show (allocate h4 (coalMerged (u ++ [p])
            (Blk.mk h.brk (max CHUNKSIZE adj) false) []).addr adj).bind
          (fun hh => some ((coalMerged (u ++ [p])
            (Blk.mk h.brk (max CHUNKSIZE adj) false) []).addr, hh)) =
          some ((coalMerged (u ++ [p])
            (Blk.mk h.brk (max CHUNKSIZE adj) false) []).addr, h2)
        rw [halloc, Option.some_bind]
      · intro c hcm hca
        rcases List.mem_append.mp hcm with h1m | h2m
        · exact a_keep c (List.mem_append_left _ h1m) hca
        · rw [List.mem_singleton.mp h2m] at hca
          rw [hpf2] at hca
          cases hca
  · have hext : extend_heap h (max CHUNKSIZE adj) = some none := by
      simp only [extend_heap, mem_sbrk]
      rw [if_neg hroom]
    refine ⟨0, h, bs, L, ?_, rfl, rfl, rfl, hrep, fun c hc _ => hc,
      Or.inl ⟨rfl, rfl, rfl, rfl⟩⟩
    simp only [malloc_miss, Option.bind_eq_bind]
    rw [hext, Option.some_bind]

/-- mm_malloc on a well-formed heap: the result is NULL with the heap
unchanged, or a pointer to an allocated block of at least the adjusted
size; the invariant is restored and every previously allocated block
survives. -/
theorem mm_malloc_repOK (h : Heap) (bs : List Blk) (L : List Nat)
    (size : Nat) (hrep : repOK h bs L) (hmaxlt : h.hmax < 2 ^ 64) :
    ∃ r h2 bsr Lr, mm_malloc h size = some (r, h2) ∧
      h2.lo = h.lo ∧ h2.heap_prologue = h.heap_prologue ∧
      h2.hmax = h.hmax ∧ repOK h2 bsr Lr ∧
      (∀ c, c ∈ bs → c.alloc = true → c ∈ bsr) ∧
      ((r = 0 ∧ h2 = h ∧ bsr = bs ∧ Lr = L) ∨
        (∃ c, c ∈ bsr ∧ c.addr = r ∧ c.alloc = true ∧
          max MIN_BLOCK_SIZE (ALIGN ((size + DWORD) % 2 ^ 64)) ≤
            c.size)) := by
  by_cases hsz : size = 0
  · refine ⟨0, h, bs, L, ?_, rfl, rfl, rfl, hrep, fun c hc _ => hc,
      Or.inl ⟨rfl, rfl, rfl, rfl⟩⟩
    simp [mm_malloc, hsz]
  · have h16adj : 16 ∣ max MIN_BLOCK_SIZE (ALIGN ((size + DWORD) % 2 ^ 64))
        := by
      rcases max_choice MIN_BLOCK_SIZE (ALIGN ((size + DWORD) % 2 ^ 64))
        with hm | hm
      · rw [hm]; decide
      · rw [hm]; exact Nat.dvd_mul_left 16 _
    have h32adj : 32 ≤ max MIN_BLOCK_SIZE (ALIGN ((size + DWORD) % 2 ^ 64))
        := le_max_left _ _
    obtain ⟨r0, hfind, hfp⟩ := find_fit_spec h bs L hrep
      (max MIN_BLOCK_SIZE (ALIGN ((size + DWORD) % 2 ^ 64)))
    cases r0 with
    | some bp =>
      obtain ⟨bs1, b, bs2, hbs, hbfree, hbaddr, hble⟩ := hfp bp rfl
      subst hbaddr
      subst hbs
      obtain ⟨h2, bsr, Lr, halloc, a_lo, a_brk, a_prol, a_hm, a_rep, a_wit,
        a_keep⟩ := allocate_repOK h bs1 bs2 b _ L hrep hbfree h16adj h32adj
        hble
      refine ⟨b.addr, h2, bsr, Lr, ?_, a_lo, a_prol, a_hm, a_rep, a_keep,
        Or.inr a_wit⟩
      simp only [mm_malloc, Option.bind_eq_bind]
      rw [if_neg hsz, hfind, Option.some_bind]
      show (allocate h b.addr
          (max MIN_BLOCK_SIZE (ALIGN ((size + DWORD) % 2 ^ 64)))).bind
        (fun hh => some (b.addr, hh)) = some (b.addr, h2)
      rw [halloc, Option.some_bind]
    | none =>
      obtain ⟨r, h2, bsr, Lr, hmiss, m_lo, m_prol, m_hm, m_rep, m_keep,
        m_disj⟩ := malloc_miss_repOK h bs L
        (max MIN_BLOCK_SIZE (ALIGN ((size + DWORD) % 2 ^ 64))) hrep h16adj
        h32adj hmaxlt
      refine ⟨r, h2, bsr, Lr, ?_, m_lo, m_prol, m_hm, m_rep, m_keep,
        m_disj⟩
      simp only [mm_malloc, Option.bind_eq_bind]
      rw [if_neg hsz, hfind, Option.some_bind]
      exact hmiss

end MM
